import Mathlib

/-!
# Request framing of the face-recognition web server (`src/http.c`)

A shallow embedding of `read_http_request` and the helpers it calls
(`find_header_end`, `parse_request_headers`, `trim_whitespace`) together with
the C library calls they rely on (`read`, `malloc`, `free`, `strstr`,
`sscanf`, `strchr`, `strncasecmp`, `strtoul`, `snprintf`).

* A byte is a natural number (the value of an `unsigned char`).
* A C string is the list of bytes before its terminating NUL; a buffer that
  may hold embedded NUL bytes is a plain list and the string functions stop
  at the first `0` in it.
* The outside world is passed explicitly: the pending results of `read` on
  the client socket, the results of the coming `malloc` calls and the number
  of heap blocks that are currently allocated.
* `unsigned long` and `size_t` are 64 bits wide (LP64).
* A loop whose C form is `while` is a function with a fuel argument that
  returns `none` when the fuel is used up; `read_http_request` supplies fuel
  computed from its input, and it is shown below that this is always enough:
  the function returns an outcome for every world.
-/

namespace Http

/-! ## Constants (`server_config.h`, `http.h`) -/

abbrev Byte := Nat

def MAX_REQUEST_SIZE : Nat := 3 * 1024 * 1024
def MAX_FRAME_SIZE : Nat := 2 * 1024 * 1024
def MAX_HEADER_SIZE : Nat := 16384
/-- Largest value of `unsigned long` and of `size_t` (LP64). -/
def ULONG_MAX : Nat := 2 ^ 64 - 1

/-- Bytes of a string literal (ASCII). -/
def bytes (s : String) : List Byte := s.toList.map Char.toNat

/-- The header terminator `\r\n\r\n`. -/
def CRLFCRLF : List Byte := [13, 10, 13, 10]

/-! ## C library: character classes and strings -/

/-- The function `isspace` in the C locale: space, `\t`, `\n`, `\v`, `\f`, `\r`. -/
def isspace (c : Byte) : Bool := c == 32 || (9 ≤ c && c ≤ 13)

/-- The function `isdigit`. -/
def isdigit (c : Byte) : Bool := 48 ≤ c && c ≤ 57

/-- The function `tolower` in the C locale. -/
def tolower (c : Byte) : Byte := if 65 ≤ c ∧ c ≤ 90 then c + 32 else c

/-- The C string that starts at the beginning of a buffer: the bytes before
the first NUL (the end of the list stands for the terminator written by the
program). -/
def cstr (s : List Byte) : List Byte := s.takeWhile (fun c => c != 0)

/-- The call `strstr(s, "\r\n")`: offset of the first `\r\n` in the C string at
`s`, `none` for `NULL`. -/
def strstr_crlf : List Byte → Option Nat
  | [] => none
  | c :: rest =>
    if c = 0 then none
    else if c = 13 ∧ rest.head? = some 10 then some 0
    else (strstr_crlf rest).map (fun i => i + 1)

/-- The test `strncasecmp(s, lit, n) == 0` for a C string `s` and a literal
`lit`. -/
def strncasecmp_eq (s lit : List Byte) (n : Nat) : Bool :=
  (s.take n).map tolower == (lit.take n).map tolower

/-- The call `strchr(path, '?')` followed by `*query = '\0'`: the string is cut
at its first `?`. -/
def cut_query (path : List Byte) : List Byte := path.takeWhile (fun c => c != 63)

/-- Result of `strtoul(s, &end, 10)`: the value returned, the offset of `end`
from `s`, and whether `errno` was set to `ERANGE`. -/
structure Strtoul where
  value : Nat
  end_off : Nat
  erange : Bool
  deriving DecidableEq, Repr

/-- The call `strtoul(s, &end, 10)` on a C string: skip white space, take an
optional sign, then decimal digits. Without a digit nothing is converted and
`end = s`. A value above `ULONG_MAX` gives `ULONG_MAX` and `ERANGE`; a minus
sign negates the value in `unsigned long` arithmetic. -/
def strtoul (s : List Byte) : Strtoul :=
  let ws := (s.takeWhile isspace).length
  let s1 := s.drop ws
  let neg := s1.head? == some 45
  let sgn := if s1.head? = some 45 ∨ s1.head? = some 43 then 1 else 0
  let digits := (s1.drop sgn).takeWhile isdigit
  if digits = [] then ⟨0, 0, false⟩
  else
    let v := digits.foldl (fun a d => 10 * a + (d - 48)) 0
    if v > ULONG_MAX then ⟨ULONG_MAX, ws + sgn + digits.length, true⟩
    else ⟨if neg then (2 ^ 64 - v) % 2 ^ 64 else v, ws + sgn + digits.length, false⟩

/-- Result of `sscanf(line, "%7s %255s", method, path)`: the return value and
what was stored through the two pointers (`none`: left untouched). -/
structure Sscanf where
  count : Int
  method : Option (List Byte)
  path : Option (List Byte)
  deriving DecidableEq, Repr

/-- The call `sscanf(line, "%7s %255s", method, path)` on a C string. `%7s`
skips white space and stores at most 7 non-space characters; the blank in the
format and `%255s` skip white space again and `%255s` stores at most 255
non-space characters. The input ending before the first conversion gives
`EOF` (-1), before the second gives 1. -/
def sscanf_method_path (line : List Byte) : Sscanf :=
  let s1 := line.dropWhile isspace
  if s1 = [] then ⟨-1, none, none⟩
  else
    let method := (s1.takeWhile (fun c => !isspace c)).take 7
    let s2 := (s1.drop method.length).dropWhile isspace
    if s2 = [] then ⟨1, some method, none⟩
    else ⟨2, some method, some ((s2.takeWhile (fun c => !isspace c)).take 255)⟩

/-! ## The outside world -/

/-- One pending result of `read` on the client socket. -/
inductive Ev where
  /-- The call fails with `errno == EINTR`. -/
  | eintr
  /-- The call fails with another error. -/
  | fail
  /-- These bytes arrive together; a `read` with a smaller buffer takes a
  first part of them and leaves the rest for the next call. Without bytes the
  call returns 0. -/
  | data (bs : List Byte)
  deriving DecidableEq, Repr

structure World where
  /-- Pending results of `read`; when none is left the peer has closed the
  stream and `read` returns 0. -/
  reads : List Ev
  /-- Results of the coming `malloc` calls (`false`: `NULL`); when none is
  left `malloc` succeeds. -/
  mallocs : List Bool
  /-- Number of heap blocks allocated and not yet freed. -/
  live : Nat
  deriving DecidableEq, Repr

/-- What `read` returned. -/
inductive ReadRet where
  | eintr
  | error
  | got (bs : List Byte)
  deriving DecidableEq, Repr

/-- The call `read(client_fd, buffer, cap)`. -/
def sys_read (w : World) (cap : Nat) : ReadRet × World :=
  match w.reads with
  | [] => (.got [], w)
  | .eintr :: r => (.eintr, { w with reads := r })
  | .fail :: r => (.error, { w with reads := r })
  | .data bs :: r =>
    if bs.length ≤ cap then (.got bs, { w with reads := r })
    else (.got (bs.take cap), { w with reads := .data (bs.drop cap) :: r })

/-- The call `malloc(n)`: whether a block was returned. -/
def sys_malloc (w : World) : Bool × World :=
  match w.mallocs with
  | [] => (true, { w with live := w.live + 1 })
  | true :: r => (true, { w with mallocs := r, live := w.live + 1 })
  | false :: r => (false, { w with mallocs := r })

/-- The call `free(p)` with `p` a block returned by `malloc`. -/
def sys_free (w : World) : World := { w with live := w.live - 1 }

/-! ## `http.h`: the request record -/

structure HttpRequest where
  method : List Byte
  path : List Byte
  content_type : List Byte
  content_length : Nat
  /-- The body buffer, `none` for `NULL`. -/
  body : Option (List Byte)
  body_length : Nat
  deriving DecidableEq, Repr

/-- The record after `memset(request, 0, sizeof(*request))`. -/
def HttpRequest.zero : HttpRequest := ⟨[], [], [], 0, none, 0⟩

/-- Return value `true`, or `false` with the value stored in `*status_code`;
both with the contents of `*request` at return. -/
inductive Outcome where
  | ok (request : HttpRequest)
  | fail (status_code : Nat) (request : HttpRequest)
  deriving DecidableEq, Repr

/-! ## `http.c` -/

/-- The function `trim_whitespace` on a C string. -/
def trim_whitespace (s : List Byte) : List Byte :=
  ((s.dropWhile isspace).reverse.dropWhile isspace).reverse

/-- The function `find_header_end(data, len)` on the first `len` bytes of the
buffer: the least `i` with `i + 3 < len` and `\r\n\r\n` at `i`, `none` for -1. -/
def find_header_end : List Byte → Option Nat
  | [] => none
  | c :: rest =>
    if (c :: rest).take 4 = [13, 10, 13, 10] then some 0
    else (find_header_end rest).map (fun i => i + 1)

/-- The body of the header-line loop of `parse_request_headers` for one
non-empty line: `none` for the exit with status 400. -/
def header_line (line : List Byte) (request : HttpRequest) : Option HttpRequest :=
  if strncasecmp_eq line (bytes "Content-Length:") 15 then
    let value := trim_whitespace (line.drop 15)
    let r := strtoul value
    let tail := trim_whitespace (value.drop r.end_off)
    if r.erange ∨ r.end_off = 0 ∨ tail ≠ [] then none
    else some { request with content_length := r.value }
  else if strncasecmp_eq line (bytes "Content-Type:") 13 then
    let value := trim_whitespace (line.drop 13)
    some { request with content_type := value.take 127 }
  else some request

/-- How the header-line loop of `parse_request_headers` ends, with the
contents of `*request` at that point. -/
inductive LineLoop where
  /-- The exit with status 400 from a `Content-Length` line; the lines before
  it have been stored. -/
  | bad (request : HttpRequest)
  /-- The loop was left normally. -/
  | done (request : HttpRequest)
  deriving DecidableEq, Repr

/-- The request record of a loop that was left normally. -/
def LineLoop.accepted : LineLoop → Option HttpRequest
  | .bad _ => none
  | .done request => some request

/-- The loop `while (*cursor != '\0')` of `parse_request_headers`; `cursor` is
the header text from the cursor on. The result is `none` when the fuel is
used up. -/
def header_lines : Nat → List Byte → HttpRequest → Option LineLoop
  | 0, _, _ => none
  | fuel + 1, cursor, request =>
    if cstr cursor = [] then some (.done request)
    else
      let next := strstr_crlf cursor
      let line := match next with
        | some k => cursor.take k
        | none => cstr cursor
      if line = [] then some (.done request)
      else
        match header_line line request with
        | none => some (.bad request)
        | some request1 =>
          match next with
          | none => some (.done request1)
          | some k => header_lines fuel (cursor.drop (k + 2)) request1

/-- The function `parse_request_headers(raw, header_len, request,
status_code)`. -/
def parse_request_headers (w : World) (raw : List Byte) (header_len : Nat)
    (request : HttpRequest) : Option (Outcome × World) :=
  match sys_malloc w with
  | (false, w1) => some (.fail 500 request, w1)
  | (true, w1) =>
    let header_text := raw.take header_len
    match strstr_crlf header_text with
    | none => some (.fail 400 request, sys_free w1)
    | some line_end =>
      let line := header_text.take line_end
      let sc := sscanf_method_path line
      let request1 : HttpRequest :=
        { request with method := sc.method.getD request.method,
                       path := sc.path.getD request.path }
      if sc.count ≠ 2 then some (.fail 400 request1, sys_free w1)
      else
        let request2 : HttpRequest := { request1 with path := cut_query request1.path }
        match header_lines (header_text.length + 1) (header_text.drop (line_end + 2))
            request2 with
        | none => none
        | some (.bad request3) => some (.fail 400 request3, sys_free w1)
        | some (.done request3) => some (.ok request3, sys_free w1)

/-- How the header loop of `read_http_request` ends. -/
inductive HeaderLoop where
  /-- A `read` failed with an error other than `EINTR`. -/
  | io_error (w : World)
  /-- The loop was left with these bytes in `header_buffer` (`total_read` is
  their number) and this `header_end` (`none` for `SIZE_MAX`). -/
  | done (header_buffer : List Byte) (header_end : Option Nat) (w : World)
  deriving DecidableEq, Repr

/-- The loop `while (total_read < sizeof(header_buffer))` of
`read_http_request`. -/
def read_header_loop : Nat → World → List Byte → Option HeaderLoop
  | 0, _, _ => none
  | fuel + 1, w, header_buffer =>
    if header_buffer.length < MAX_HEADER_SIZE then
      match sys_read w (MAX_HEADER_SIZE - header_buffer.length) with
      | (.eintr, w1) => read_header_loop fuel w1 header_buffer
      | (.error, w1) => some (.io_error w1)
      | (.got bs, w1) =>
        if bs.length = 0 then some (.done header_buffer none w1)
        else
          match find_header_end (header_buffer ++ bs) with
          | some idx => some (.done (header_buffer ++ bs) (some idx) w1)
          | none => read_header_loop fuel w1 (header_buffer ++ bs)
    else some (.done header_buffer none w)

/-- How the body loop of `read_http_request` ends. -/
inductive BodyLoop where
  | io_error (w : World)
  /-- The loop was left with these bytes copied into the body buffer
  (`copied` is their number). -/
  | done (body : List Byte) (w : World)
  deriving DecidableEq, Repr

/-- The loop `while (copied < request->body_length)` of `read_http_request`. -/
def read_body_loop : Nat → World → List Byte → Nat → Option BodyLoop
  | 0, _, _, _ => none
  | fuel + 1, w, body, body_length =>
    if body.length < body_length then
      match sys_read w (body_length - body.length) with
      | (.eintr, w1) => read_body_loop fuel w1 body body_length
      | (.error, w1) => some (.io_error w1)
      | (.got bs, w1) =>
        if bs.length = 0 then some (.done body w1)
        else read_body_loop fuel w1 (body ++ bs) body_length
    else some (.done body w)

/-- The function `read_http_request(client_fd, request, status_code)`: the
outcome and the world it leaves, `none` only if a loop ran out of fuel. -/
def read_http_request (w : World) : Option (Outcome × World) :=
  let request := HttpRequest.zero
  match read_header_loop (w.reads.length + 1) w [] with
  | none => none
  | some (.io_error w1) => some (.fail 400 request, w1)
  | some (.done _ none w1) => some (.fail 400 request, w1)
  | some (.done header_buffer (some header_end) w1) =>
    match parse_request_headers w1 header_buffer header_end request with
    | none => none
    | some (.fail status_code request1, w2) => some (.fail status_code request1, w2)
    | some (.ok request1, w2) =>
      if request1.content_length > MAX_REQUEST_SIZE then some (.fail 413 request1, w2)
      else
        let body_start := header_end + 4
        let initial_body_bytes :=
          if header_buffer.length > body_start then header_buffer.length - body_start else 0
        let request2 : HttpRequest := { request1 with body_length := request1.content_length }
        if request2.body_length = 0 then some (.ok { request2 with body := none }, w2)
        else
          match sys_malloc w2 with
          | (false, w3) => some (.fail 500 { request2 with body := none }, w3)
          | (true, w3) =>
            let initial_body_bytes :=
              if initial_body_bytes > request2.body_length then request2.body_length
              else initial_body_bytes
            let body := (header_buffer.drop body_start).take initial_body_bytes
            match read_body_loop (w3.reads.length + 1) w3 body request2.body_length with
            | none => none
            | some (.io_error w4) =>
              some (.fail 400 { request2 with body := none, body_length := 0 }, sys_free w4)
            | some (.done body1 w4) =>
              if body1.length < request2.body_length then
                some (.fail 400 { request2 with body := none, body_length := 0 }, sys_free w4)
              else some (.ok { request2 with body := some body1 }, w4)

/-! ## Sections of `read_http_request`

The same code cut in two, so that lemmas can be stated about each part;
`read_http_request_eq` shows that nothing changed. -/

/-- Lines 232-288 of `read_http_request`: size admission and body
acquisition, entered with the request filled by `parse_request_headers`. -/
def body_phase (header_buffer : List Byte) (header_end : Nat) (request1 : HttpRequest)
    (w2 : World) : Option (Outcome × World) :=
  if request1.content_length > MAX_REQUEST_SIZE then some (.fail 413 request1, w2)
  else
    let body_start := header_end + 4
    let initial_body_bytes :=
      if header_buffer.length > body_start then header_buffer.length - body_start else 0
    let request2 : HttpRequest := { request1 with body_length := request1.content_length }
    if request2.body_length = 0 then some (.ok { request2 with body := none }, w2)
    else
      match sys_malloc w2 with
      | (false, w3) => some (.fail 500 { request2 with body := none }, w3)
      | (true, w3) =>
        let initial_body_bytes :=
          if initial_body_bytes > request2.body_length then request2.body_length
          else initial_body_bytes
        let body := (header_buffer.drop body_start).take initial_body_bytes
        match read_body_loop (w3.reads.length + 1) w3 body request2.body_length with
        | none => none
        | some (.io_error w4) =>
          some (.fail 400 { request2 with body := none, body_length := 0 }, sys_free w4)
        | some (.done body1 w4) =>
          if body1.length < request2.body_length then
            some (.fail 400 { request2 with body := none, body_length := 0 }, sys_free w4)
          else some (.ok { request2 with body := some body1 }, w4)

/-- Lines 228-288 of `read_http_request`: what follows the header loop when
it has found the terminator. -/
def after_headers (header_buffer : List Byte) (header_end : Nat) (w1 : World) :
    Option (Outcome × World) :=
  match parse_request_headers w1 header_buffer header_end HttpRequest.zero with
  | none => none
  | some (.fail status_code request1, w2) => some (.fail status_code request1, w2)
  | some (.ok request1, w2) => body_phase header_buffer header_end request1 w2

/-! ## Vocabulary of the statements -/

/-- All bytes that the pending reads deliver, in order. -/
def stream_bytes : List Ev → List Byte
  | [] => []
  | .data bs :: r => bs ++ stream_bytes r
  | _ :: r => stream_bytes r

/-- No pending read fails with an error other than `EINTR` and none returns 0
before the end of the stream. -/
def clean : List Ev → Bool
  | [] => true
  | .eintr :: r => clean r
  | .fail :: _ => false
  | .data bs :: r => bs != [] && clean r

/-- The header block of a byte stream: the bytes before the first `\r\n\r\n`,
when that terminator lies within the first `MAX_HEADER_SIZE` bytes. -/
def header_block (stream : List Byte) : Option (List Byte) :=
  (find_header_end (stream.take MAX_HEADER_SIZE)).map (fun i => stream.take i)

/-- A world whose socket delivers `reads`, where every `malloc` succeeds. -/
def World.quiet (reads : List Ev) : World := ⟨reads, [], 0⟩

/-- What `parse_request_headers` makes of a header block when its allocation
succeeds, starting from the zeroed request record. -/
def parsed_headers (block : List Byte) : Option Outcome :=
  (parse_request_headers (World.quiet []) block block.length HttpRequest.zero).map Prod.fst

/-- The first line of a header block: the bytes before its first `\r\n` (all
of it when there is none). -/
def first_line : List Byte → List Byte
  | [] => []
  | c :: rest => if c = 13 ∧ rest.head? = some 10 then [] else c :: first_line rest

/-- The white-space separated tokens of a line: its maximal runs of
characters that are not white space. -/
def ws_tokens : List Byte → List (List Byte)
  | [] => []
  | c :: rest =>
    if isspace c then ws_tokens rest
    else
      match rest.head?.map isspace, ws_tokens rest with
      | some false, t :: ts => (c :: t) :: ts
      | _, ts => [c] :: ts

/-- The request record at return. -/
def Outcome.request : Outcome → HttpRequest
  | .ok r => r
  | .fail _ r => r

/-! ## Requests used as examples (from `tests/test_http.c`) -/

/-- The request of `test_read_http_request_get`. -/
def req_get : List Byte :=
  bytes "GET /styles.css?cache=1 HTTP/1.1\r\nHost: localhost\r\n\r\n"

/-- The first write of `test_read_http_request_post`. -/
def req_post_part1 : List Byte :=
  bytes ("POST /api/frame HTTP/1.1\r\nHost: localhost\r\nContent-Type: image/jpeg\r\n" ++
    "Content-Length: 5\r\n\r\nab")

/-- The second write of `test_read_http_request_post`. -/
def req_post_part2 : List Byte := bytes "cde"

/-- The header block of `test_read_http_request_post`. -/
def req_post_block : List Byte :=
  bytes ("POST /api/frame HTTP/1.1\r\nHost: localhost\r\nContent-Type: image/jpeg\r\n" ++
    "Content-Length: 5")

/-- The request of `test_read_http_request_too_large`, with the length
`MAX_REQUEST_SIZE + 1`. -/
def req_too_large : List Byte :=
  bytes "POST /api/frame HTTP/1.1\r\nHost: localhost\r\nContent-Length: 3145729\r\n\r\n"

/-- A request head that declares a body of exactly `MAX_REQUEST_SIZE` bytes. -/
def req_max_head : List Byte :=
  bytes "POST /api/frame HTTP/1.1\r\nHost: localhost\r\nContent-Length: 3145728\r\n\r\n"

/-- The request of `test_read_http_request_invalid_content_length`. -/
def req_invalid_length : List Byte :=
  bytes "POST /api/frame HTTP/1.1\r\nHost: localhost\r\nContent-Length: x\r\n\r\n"

/-- The same request with the value `5x`. -/
def req_trailing_garbage : List Byte :=
  bytes "POST /api/frame HTTP/1.1\r\nHost: localhost\r\nContent-Length: 5x\r\n\r\nabcde"

/-- The request of `test_read_http_request_invalid_content_length` with the
value `-1` in place of `x`. -/
def req_negative_length : List Byte :=
  bytes "POST /api/frame HTTP/1.1\r\nHost: localhost\r\nContent-Length: -1\r\n\r\n"

/-- The same request with the value `-0`. -/
def req_minus_zero : List Byte :=
  bytes "POST /api/frame HTTP/1.1\r\nHost: localhost\r\nContent-Length: -0\r\n\r\n"

/-- The same request with the value `-18446744073709551611` and five body
bytes. -/
def req_minus_wrapped : List Byte :=
  bytes ("POST /api/frame HTTP/1.1\r\nHost: localhost\r\n" ++
    "Content-Length: -18446744073709551611\r\n\r\nabcde")

/-- A request made of a request line alone, without header lines. -/
def req_no_headers : List Byte := bytes "GET / HTTP/1.1\r\n\r\n"

/-- A request whose method token has 8 characters. -/
def req_long_method : List Byte := bytes "OPTIONSX /x HTTP/1.1\r\nHost: localhost\r\n\r\n"

/-- A request whose path token has 301 characters. -/
def req_long_path : List Byte :=
  bytes "GET /" ++ List.replicate 300 97 ++ bytes " HTTP/1.1\r\nHost: localhost\r\n\r\n"

/-- A body of exactly `MAX_REQUEST_SIZE` bytes. -/
def max_body : List Byte := List.replicate MAX_REQUEST_SIZE 0


/-! ## The response side of the socket -/

/-- One pending result of `write` on the client socket. -/
inductive WEv where
  /-- The call fails with `errno == EINTR`. -/
  | eintr
  /-- The call fails with another error. -/
  | fail
  /-- The call takes at most `k` bytes of what it is given. -/
  | accept (k : Nat)
  deriving DecidableEq, Repr

/-- The client socket as `write` sees it. -/
structure Wire where
  /-- Pending results of `write`; when none is left, `write` takes all it is
  given. -/
  pending : List WEv
  /-- All bytes written to the socket so far. -/
  sent : List Byte
  deriving DecidableEq, Repr

/-- What `write` returned. -/
inductive WriteRet where
  | eintr
  | error
  | wrote (n : Nat)
  deriving DecidableEq, Repr

/-- The call `write(client_fd, buf, count)` with `buf` holding the `count`
bytes offered. -/
def sys_write (c : Wire) (buf : List Byte) : WriteRet × Wire :=
  match c.pending with
  | [] => (.wrote buf.length, { c with sent := c.sent ++ buf })
  | .eintr :: r => (.eintr, { c with pending := r })
  | .fail :: r => (.error, { c with pending := r })
  | .accept k :: r =>
    (.wrote (min k buf.length), { pending := r, sent := c.sent ++ buf.take k })

/-- The loop `while (total < length)` of `send_all`. -/
def send_all_loop : Nat → Wire → List Byte → Nat → Nat → Option (Bool × Wire)
  | 0, _, _, _, _ => none
  | fuel + 1, c, data, length, total =>
    if total < length then
      match sys_write c ((data.drop total).take (length - total)) with
      | (.eintr, c1) => send_all_loop fuel c1 data length total
      | (.error, c1) => some (false, c1)
      | (.wrote n, c1) => send_all_loop fuel c1 data length (total + n)
    else some (true, c)

/-- The function `send_all(client_fd, buffer, length)`. -/
def send_all (c : Wire) (buffer : List Byte) (length : Nat) : Option (Bool × Wire) :=
  send_all_loop (c.pending.length + 2) c buffer length 0

/-- The digits loop of the conversion `%zu`, least significant digit first. -/
def print_zu_loop : Nat → Nat → List Byte → List Byte
  | 0, _, acc => acc
  | fuel + 1, n, acc =>
    if n / 10 = 0 then (48 + n % 10) :: acc
    else print_zu_loop fuel (n / 10) ((48 + n % 10) :: acc)

/-- The conversion `%zu` of `printf`: a `size_t` in decimal, without leading
zeros. -/
def print_zu (n : Nat) : List Byte := print_zu_loop (n + 1) n []

/-- What the `snprintf` call of `send_http_response` formats, before it is cut
to the size of the buffer; the call returns the length of this text. -/
def format_header (status content_type : List Byte) (body_length : Nat)
    (extra_headers : Option (List Byte)) : List Byte :=
  bytes "HTTP/1.1 " ++ status ++ bytes "\r\n" ++
  bytes "Content-Type: " ++ content_type ++ bytes "\r\n" ++
  bytes "Content-Length: " ++ print_zu body_length ++ bytes "\r\n" ++
  bytes "Connection: close\r\n" ++
  extra_headers.getD [] ++
  bytes "\r\n"

/-- The function `send_http_response(client_fd, status, content_type, body,
body_length, extra_headers)`; the strings are C strings, `body` is `none` for
`NULL`. A return value of `snprintf` that is negative stands for a text longer
than `INT_MAX` and takes the same exit as one of 1024 bytes or more. -/
def send_http_response (c : Wire) (status content_type : List Byte)
    (body : Option (List Byte)) (body_length : Nat) (extra_headers : Option (List Byte)) :
    Option Wire :=
  let header := format_header status content_type body_length extra_headers
  let n := header.length
  if n ≥ 1024 then some c
  else
    match send_all c header n with
    | none => none
    | some (false, c1) => some c1
    | some (true, c1) =>
      match body with
      | none => some c1
      | some b =>
        if body_length > 0 then (send_all c1 b body_length).map Prod.snd
        else some c1

/-- The function `send_error_response(client_fd, status_code)`. -/
def send_error_response (c : Wire) (status_code : Int) : Option Wire :=
  if status_code = 400 then
    send_http_response c (bytes "400 Bad Request") (bytes "text/plain; charset=utf-8")
      (some (bytes "Bad Request")) (bytes "Bad Request").length none
  else if status_code = 404 then
    send_http_response c (bytes "404 Not Found") (bytes "text/plain; charset=utf-8")
      (some (bytes "Not Found")) (bytes "Not Found").length none
  else if status_code = 405 then
    send_http_response c (bytes "405 Method Not Allowed") (bytes "text/plain; charset=utf-8")
      (some (bytes "Method Not Allowed")) (bytes "Method Not Allowed").length none
  else if status_code = 413 then
    send_http_response c (bytes "413 Payload Too Large") (bytes "text/plain; charset=utf-8")
      (some (bytes "Payload Too Large")) (bytes "Payload Too Large").length none
  else
    send_http_response c (bytes "500 Internal Server Error") (bytes "text/plain; charset=utf-8")
      (some (bytes "Internal Server Error")) (bytes "Internal Server Error").length none

/-- A socket that takes every write whole. -/
def Wire.quiet : Wire := ⟨[], []⟩

/-! ## `static_assets.c` -/

def MAX_ASSET_PATH_SIZE : Nat := 1024

/-- One entry of the table `static_assets`. -/
structure StaticAsset where
  url_path : List Byte
  file_name : List Byte
  content_type : List Byte
  /-- The loaded bytes, `none` for `NULL`. -/
  contents : Option (List Byte)
  contents_len : Nat
  deriving DecidableEq, Repr

/-- The table `static_assets` as it is initialised. -/
def static_assets_init : List StaticAsset :=
  [⟨bytes "/", bytes "index.html", bytes "text/html; charset=utf-8", none, 0⟩,
   ⟨bytes "/styles.css", bytes "styles.css", bytes "text/css; charset=utf-8", none, 0⟩,
   ⟨bytes "/app.js", bytes "app.js", bytes "application/javascript; charset=utf-8", none, 0⟩]

/-- What the stdio calls do on a file that `fopen` opens. -/
structure FileInfo where
  /-- Whether `fseek(file, 0, SEEK_END)` returns 0. -/
  seek_end_ok : Bool
  /-- The value returned by `ftell`. -/
  tell : Int
  /-- Whether `fseek(file, 0, SEEK_SET)` returns 0. -/
  seek_set_ok : Bool
  /-- The bytes that `fread` can deliver from the start of the file. -/
  data : List Byte
  deriving DecidableEq, Repr

/-- The files as `fopen(path, "rb")` finds them, `none` for `NULL`. -/
abbrev FileSystem := List Byte → Option FileInfo

/-- What `read_file_bytes` returns and stores through `data_out` and
`len_out`. -/
structure FileRead where
  ok : Bool
  data : Option (List Byte)
  len : Nat
  deriving DecidableEq, Repr

/-- The function `read_file_bytes(path, data_out, len_out)`. -/
def read_file_bytes (fs : FileSystem) (w : World) (path : List Byte) : FileRead × World :=
  match fs path with
  | none => (⟨false, none, 0⟩, w)
  | some file =>
    if !file.seek_end_ok then (⟨false, none, 0⟩, w)
    else
      let file_size := file.tell
      if file_size < 0 then (⟨false, none, 0⟩, w)
      else if !file.seek_set_ok then (⟨false, none, 0⟩, w)
      else if file_size = 0 then (⟨true, none, 0⟩, w)
      else
        match sys_malloc w with
        | (false, w1) => (⟨false, none, 0⟩, w1)
        | (true, w1) =>
          let read_count := min file_size.toNat file.data.length
          if read_count ≠ file_size.toNat then (⟨false, none, 0⟩, sys_free w1)
          else (⟨true, some (file.data.take file_size.toNat), file_size.toNat⟩, w1)

/-- The function `free_static_assets()` on the table. -/
def free_static_assets : List StaticAsset → World → List StaticAsset × World
  | [], w => ([], w)
  | asset :: rest, w =>
    let w1 := match asset.contents with
      | none => w
      | some _ => sys_free w
    let (rest1, w2) := free_static_assets rest w1
    ({ asset with contents := none, contents_len := 0 } :: rest1, w2)

/-- The loop of `load_static_assets()`: `loaded` are the entries before index
`i`, the second list those from `i` on; `web_root` is `WEB_ROOT_DIR`. -/
def load_static_assets_loop (fs : FileSystem) (web_root : List Byte) :
    List StaticAsset → List StaticAsset → World → Bool × List StaticAsset × World
  | loaded, [], w => (true, loaded, w)
  | loaded, asset :: rest, w =>
    let n := web_root.length + 1 + asset.file_name.length
    if n ≥ MAX_ASSET_PATH_SIZE then
      let (table, w1) := free_static_assets (loaded ++ asset :: rest) w
      (false, table, w1)
    else
      let asset_path := web_root ++ [47] ++ asset.file_name
      let (r, w1) := read_file_bytes fs w asset_path
      let asset1 : StaticAsset := { asset with contents := r.data, contents_len := r.len }
      if !r.ok then
        let (table, w2) := free_static_assets (loaded ++ asset1 :: rest) w1
        (false, table, w2)
      else load_static_assets_loop fs web_root (loaded ++ [asset1]) rest w1

/-- The function `load_static_assets()`. -/
def load_static_assets (fs : FileSystem) (web_root : List Byte) (table : List StaticAsset)
    (w : World) : Bool × List StaticAsset × World :=
  load_static_assets_loop fs web_root [] table w

/-- The function `serve_static_asset(client_fd, path)`: the loop over the
table from some index on. -/
def serve_static_asset : List StaticAsset → Wire → List Byte → Option (Bool × Wire)
  | [], c, _ => some (false, c)
  | asset :: rest, c, path =>
    if path ≠ asset.url_path then serve_static_asset rest c path
    else
      match asset.contents with
      | none => (send_error_response c 500).map (fun c1 => (true, c1))
      | some contents =>
        (send_http_response c (bytes "200 OK") asset.content_type (some contents)
          asset.contents_len (some (bytes "Cache-Control: no-store\r\n"))).map
          (fun c1 => (true, c1))

/-! ## `router.c` -/

/-- The variables `latest_frame` and `latest_frame_size`. -/
structure FrameStore where
  /-- The contents of the array `latest_frame`. -/
  latest_frame : List Byte
  latest_frame_size : Nat
  deriving DecidableEq, Repr

/-- The frame store at program start: the array zeroed, the size 0. -/
def FrameStore.init : FrameStore := ⟨List.replicate MAX_FRAME_SIZE 0, 0⟩

/-- The call `memcpy(dest, src, n)` on a destination array and a source that
holds at least `n` bytes. -/
def memcpy (dest src : List Byte) (n : Nat) : List Byte := src.take n ++ dest.drop n

/-- The function `handle_request(client_fd, request)` with the asset table
and the frame store it works on. -/
def handle_request (table : List StaticAsset) (store : FrameStore) (c : Wire)
    (request : HttpRequest) : Option (FrameStore × Wire) :=
  let served :=
    if request.method = bytes "GET" then serve_static_asset table c request.path
    else some (false, c)
  match served with
  | none => none
  | some (true, c1) => some (store, c1)
  | some (false, c1) =>
    if request.path = bytes "/api/frame" ∧ request.method = bytes "POST" then
      if request.body_length = 0 then
        (send_error_response c1 400).map (fun c2 => (store, c2))
      else if request.body_length > MAX_FRAME_SIZE then
        (send_error_response c1 413).map (fun c2 => (store, c2))
      else
        let store1 : FrameStore :=
          { latest_frame := memcpy store.latest_frame (request.body.getD []) request.body_length,
            latest_frame_size := request.body_length }
        (send_http_response c1 (bytes "200 OK") (bytes "application/json")
          (some (bytes "\x7b\"ok\":true\x7d")) (bytes "\x7b\"ok\":true\x7d").length
          (some (bytes "Cache-Control: no-store\r\n"))).map (fun c2 => (store1, c2))
    else if request.path = bytes "/api/frame" ∧ request.method = bytes "GET" then
      if store.latest_frame_size = 0 then
        (send_http_response c1 (bytes "204 No Content") (bytes "text/plain; charset=utf-8")
          none 0 (some (bytes "Cache-Control: no-store\r\n"))).map (fun c2 => (store, c2))
      else
        (send_http_response c1 (bytes "200 OK") (bytes "image/jpeg")
          (some store.latest_frame) store.latest_frame_size
          (some (bytes "Cache-Control: no-store\r\n"))).map (fun c2 => (store, c2))
    else if request.path = bytes "/api/frame" then
      (send_error_response c1 405).map (fun c2 => (store, c2))
    else (send_error_response c1 404).map (fun c2 => (store, c2))

/-- The body bytes of a response: the first `body_length` bytes behind the body
pointer, nothing for `NULL`. -/
def payload (body : Option (List Byte)) (body_length : Nat) : List Byte :=
  match body with
  | none => []
  | some b => b.take body_length

/-- The value of a string of decimal digits. -/
def decimal_value (digits : List Byte) : Nat :=
  digits.foldl (fun a d => 10 * a + (d - 48)) 0

/-- A complete response as it goes over the wire: the formatted header
followed by the body bytes. -/
def response_text (status content_type : List Byte) (body : Option (List Byte))
    (body_length : Nat) (extra_headers : Option (List Byte)) : List Byte :=
  format_header status content_type body_length extra_headers ++ payload body body_length

/-- The extra header line that the router and the asset server add. -/
def no_store : Option (List Byte) := some (bytes "Cache-Control: no-store\r\n")

/-- The response that carries a frame: status 200, content type `image/jpeg`,
the length in decimal, then the frame bytes. -/
def frame_response (frame : List Byte) : List Byte :=
  bytes "HTTP/1.1 200 OK\r\nContent-Type: image/jpeg\r\nContent-Length: " ++
  print_zu frame.length ++
  bytes "\r\nConnection: close\r\nCache-Control: no-store\r\n\r\n" ++ frame

/-- The response to a request for the frame when none is stored. -/
def no_frame_response : List Byte :=
  bytes ("HTTP/1.1 204 No Content\r\nContent-Type: text/plain; charset=utf-8\r\n" ++
    "Content-Length: 0\r\nConnection: close\r\nCache-Control: no-store\r\n\r\n")

/-- The response to an upload that was stored. -/
def upload_ok_response : List Byte :=
  bytes ("HTTP/1.1 200 OK\r\nContent-Type: application/json\r\nContent-Length: 11\r\n" ++
    "Connection: close\r\nCache-Control: no-store\r\n\r\n\x7b\"ok\":true\x7d")

/-- The configured static paths. -/
def static_paths : List (List Byte) := [bytes "/", bytes "/styles.css", bytes "/app.js"]

/-- A run of `handle_request` calls, each on a connection of its own, from a
given frame store: the store after the last call. -/
def handle_requests (table : List StaticAsset) :
    FrameStore → List (Wire × HttpRequest) → Option FrameStore
  | store, [] => some store
  | store, (c, request) :: rest =>
    match handle_request table store c request with
    | none => none
    | some (store1, _) => handle_requests table store1 rest

/-- The lines of a text: the pieces between its `\r\n` pairs. -/
def split_crlf : List Byte → List (List Byte)
  | [] => [[]]
  | c :: rest =>
    match rest with
    | [] => [[c]]
    | d :: rest2 =>
      if c = 13 ∧ d = 10 then [] :: split_crlf rest2
      else
        match split_crlf (d :: rest2) with
        | [] => [[c]]
        | l :: ls => (c :: l) :: ls

/-- The header lines of a header block: its lines after the request line. -/
def header_lines_of (block : List Byte) : List (List Byte) := (split_crlf block).tail

/-- Whether a line starts with a letter-case variant of `name` followed by a
colon. -/
def has_name (name line : List Byte) : Bool :=
  (line.take (name.length + 1)).map tolower == name.map tolower ++ [58]

/-- The header-line loop of `parse_request_headers` told over the lines of the
text: each line is handled by `header_line` in turn, up to the first empty
line; `none` for the exit with status 400. -/
def process_lines : List (List Byte) → HttpRequest → Option HttpRequest
  | [], r => some r
  | l :: ls, r =>
    if l = [] then some r
    else
      match header_line l r with
      | none => none
      | some r1 => process_lines ls r1

/-- A file system in which `web/styles.css` is an empty file and the other two
assets have contents. -/
def web_files_empty_css : FileSystem := fun path =>
  if path = bytes "web/index.html" then some ⟨true, 6, true, bytes "<html>"⟩
  else if path = bytes "web/styles.css" then some ⟨true, 0, true, []⟩
  else if path = bytes "web/app.js" then some ⟨true, 3, true, bytes "a()"⟩
  else none

/-- The request `get_before_post` of `test_router_frame_flow`. -/
def req_get_frame : HttpRequest := ⟨bytes "GET", bytes "/api/frame", [], 0, none, 0⟩

/-- The request `post_ok` of `test_router_frame_flow`. -/
def req_post_abc123 : HttpRequest :=
  ⟨bytes "POST", bytes "/api/frame", [], 0, some (bytes "abc123"), 6⟩

/-- A second, shorter upload. -/
def req_post_xy : HttpRequest := ⟨bytes "POST", bytes "/api/frame", [], 0, some (bytes "xy"), 2⟩

/-- The request `post_empty` of `test_router_frame_flow`. -/
def req_post_empty : HttpRequest := ⟨bytes "POST", bytes "/api/frame", [], 0, none, 0⟩

/-- The request `post_too_large` of `test_router_frame_flow`. -/
def req_post_too_large : HttpRequest :=
  ⟨bytes "POST", bytes "/api/frame", [], 0, some (bytes "x"), MAX_FRAME_SIZE + 1⟩

/-- The request `bad_method` of `test_router_frame_flow`. -/
def req_put_frame : HttpRequest := ⟨bytes "PUT", bytes "/api/frame", [], 0, none, 0⟩

/-- The request of `test_router_not_found`. -/
def req_missing : HttpRequest := ⟨bytes "GET", bytes "/missing", [], 0, none, 0⟩

/-- A socket on which the first write takes 4 bytes and the second is
interrupted. -/
def slow_wire : Wire := ⟨[.accept 4, .eintr], []⟩


/-! ## Well-formed header blocks -/

/-- Optional white space around a header value: space and horizontal tab. -/
def ows (c : Byte) : Bool := c == 32 || c == 9

/-- A request line: a method of at most 7 characters, a target of at most 255
characters and the protocol version, separated by white space. -/
def request_line_ok (line : List Byte) : Bool :=
  match ws_tokens line with
  | [m, p, _] => decide (m.length ≤ 7) && decide (p.length ≤ 255)
  | _ => false

/-- A header line: a name that is not empty and holds no white space, followed
by a colon. -/
def header_field_ok (l : List Byte) : Bool :=
  let name := l.takeWhile (fun c => c != 58)
  name != [] && decide (name.length < l.length) && name.all (fun c => !isspace c)

/-- The number that a `Content-Length` line declares: the value of the decimal
digits that stand after the colon between optional white space. -/
def declared_length (l : List Byte) : Option Nat :=
  let v := (l.drop 15).dropWhile ows
  let digits := v.takeWhile isdigit
  if digits ≠ [] ∧ (v.dropWhile isdigit).all ows = true then some (decimal_value digits)
  else none

/-- A well-formed header block that declares `Content-Length` `n`: no NUL
byte, a request line, then header lines of the form `name: value`, exactly one
of which has a letter-case variant of `Content-Length` as name, and that one
declares `n`. -/
def well_formed (block : List Byte) (n : Nat) : Bool :=
  block.all (fun c => c != 0) &&
  request_line_ok (first_line block) &&
  (header_lines_of block).all header_field_ok &&
  match (header_lines_of block).filter (has_name (bytes "Content-Length")) with
  | [l] => declared_length l == some n
  | _ => false

/-! ## The responses of the router -/

/-- The canned response of a status code: status line, content type
`text/plain; charset=utf-8`, the length of the phrase, and the phrase. -/
def canned_response (status_code : Int) : List Byte :=
  if status_code = 400 then
    bytes ("HTTP/1.1 400 Bad Request\r\nContent-Type: text/plain; charset=utf-8\r\n" ++
      "Content-Length: 11\r\nConnection: close\r\n\r\nBad Request")
  else if status_code = 404 then
    bytes ("HTTP/1.1 404 Not Found\r\nContent-Type: text/plain; charset=utf-8\r\n" ++
      "Content-Length: 9\r\nConnection: close\r\n\r\nNot Found")
  else if status_code = 405 then
    bytes ("HTTP/1.1 405 Method Not Allowed\r\nContent-Type: text/plain; charset=utf-8\r\n" ++
      "Content-Length: 18\r\nConnection: close\r\n\r\nMethod Not Allowed")
  else if status_code = 413 then
    bytes ("HTTP/1.1 413 Payload Too Large\r\nContent-Type: text/plain; charset=utf-8\r\n" ++
      "Content-Length: 17\r\nConnection: close\r\n\r\nPayload Too Large")
  else
    bytes ("HTTP/1.1 500 Internal Server Error\r\n" ++
      "Content-Type: text/plain; charset=utf-8\r\nContent-Length: 21\r\n" ++
      "Connection: close\r\n\r\nInternal Server Error")

/-- The response that carries a static asset: status 200, the content type of
the asset, `contents_len` in decimal, then the first `contents_len` bytes of
its contents; the canned response 500 for an asset without contents. -/
def asset_response (a : StaticAsset) : List Byte :=
  match a.contents with
  | none => canned_response 500
  | some d =>
    bytes "HTTP/1.1 200 OK\r\nContent-Type: " ++ a.content_type ++
    bytes "\r\nContent-Length: " ++ print_zu a.contents_len ++
    bytes "\r\nConnection: close\r\nCache-Control: no-store\r\n\r\n" ++ d.take a.contents_len

/-- All responses that the router has for a given asset table and frame
store, each of them one complete response. -/
def replies (table : List StaticAsset) (store : FrameStore) : List (List Byte) :=
  [canned_response 400, canned_response 404, canned_response 405, canned_response 413,
    canned_response 500, upload_ok_response, no_frame_response,
    frame_response (store.latest_frame.take store.latest_frame_size)] ++
  table.map asset_response

/-- The url path and the content type of each entry of an asset table. -/
def asset_routes (table : List StaticAsset) : List (List Byte × List Byte) :=
  table.map (fun a => (a.url_path, a.content_type))

/-- A request line that is one token of 10 characters. -/
def req_single_long_token : List Byte := bytes "ABCDEFGHIJ\r\nHost: localhost\r\n\r\n"

/-- An asset table with the three files loaded. -/
def static_assets_loaded : List StaticAsset :=
  [⟨bytes "/", bytes "index.html", bytes "text/html; charset=utf-8",
      some (bytes "<html>"), 6⟩,
   ⟨bytes "/styles.css", bytes "styles.css", bytes "text/css; charset=utf-8",
      some (bytes "p \x7b\x7d"), 4⟩,
   ⟨bytes "/app.js", bytes "app.js", bytes "application/javascript; charset=utf-8",
      some (bytes "a()"), 3⟩]

/-- A request with a `Content-Type` line followed by a `Content-Length` line
that does not parse. -/
def req_type_then_bad_length : List Byte :=
  bytes "POST /x HTTP/1.1\r\nContent-Type: a/b\r\nContent-Length: zz\r\n\r\n"

end Http

namespace Http

/-! ## `find_header_end` -/

theorem find_header_end_bound {p : List Byte} {i : Nat} (h : find_header_end p = some i) :
    i + 4 ≤ p.length := by
  induction p generalizing i with
  | nil => simp [find_header_end] at h
  | cons c rest ih =>
    unfold find_header_end at h
    split at h
    · rename_i h4
      have hl := congrArg List.length h4
      simp only [List.length_take, List.length_cons, List.length_nil] at hl
      simp only [Option.some.injEq] at h
      simp only [List.length_cons]
      omega
    · cases hr : find_header_end rest with
      | none => simp [hr] at h
      | some j =>
        simp [hr] at h
        have := ih hr
        simp only [List.length_cons]
        omega

theorem find_header_end_append {p : List Byte} {i : Nat} (q : List Byte)
    (h : find_header_end p = some i) : find_header_end (p ++ q) = some i := by
  induction p generalizing i with
  | nil => simp [find_header_end] at h
  | cons c rest ih =>
    have hb := find_header_end_bound h
    have ht : ((c :: rest) ++ q).take 4 = (c :: rest).take 4 :=
      List.take_append_of_le_length (by omega)
    rw [List.cons_append] at ht ⊢
    unfold find_header_end at h ⊢
    rw [ht]
    split at h
    · rename_i h4
      rw [if_pos h4]
      exact h
    · rename_i h4
      rw [if_neg h4]
      cases hr : find_header_end rest with
      | none => simp [hr] at h
      | some j =>
        simp [hr] at h
        simp [ih hr, h]

theorem find_header_end_of_append {p q : List Byte} {i : Nat}
    (h : find_header_end (p ++ q) = some i) (hi : i + 4 ≤ p.length) :
    find_header_end p = some i := by
  induction p generalizing i with
  | nil => simp at hi
  | cons c rest ih =>
    have ht : ((c :: rest) ++ q).take 4 = (c :: rest).take 4 :=
      List.take_append_of_le_length (by omega)
    rw [List.cons_append] at ht h
    unfold find_header_end at h ⊢
    rw [ht] at h
    split at h
    · rename_i h4
      rw [if_pos h4]
      exact h
    · rename_i h4
      rw [if_neg h4]
      cases hr : find_header_end (rest ++ q) with
      | none => simp [hr] at h
      | some j =>
        simp [hr] at h
        simp only [List.length_cons] at hi
        have := ih hr (by omega)
        simp [this, h]

theorem find_header_end_none_of_append {p q : List Byte}
    (h : find_header_end (p ++ q) = none) : find_header_end p = none := by
  cases hp : find_header_end p with
  | none => rfl
  | some i => rw [find_header_end_append q hp] at h; cases h

/-- The terminator found in the first `n` bytes is the first one of the whole
stream. -/
theorem find_header_end_of_take {l : List Byte} {n i : Nat}
    (h : find_header_end (l.take n) = some i) : find_header_end l = some i := by
  have := find_header_end_append (l.drop n) h
  rwa [List.take_append_drop] at this

theorem find_header_end_take {l : List Byte} {n i : Nat}
    (h : find_header_end l = some i) (hi : i + 4 ≤ n) :
    find_header_end (l.take n) = some i := by
  have hb := find_header_end_bound h
  rw [← List.take_append_drop n l] at h
  exact find_header_end_of_append h (by simp [List.length_take]; omega)

theorem find_header_end_at {l : List Byte} {i : Nat} (h : find_header_end l = some i) :
    (l.drop i).take 4 = CRLFCRLF := by
  induction l generalizing i with
  | nil => simp [find_header_end] at h
  | cons c rest ih =>
    unfold find_header_end at h
    split at h
    · rename_i h4
      cases h
      exact h4
    · cases hr : find_header_end rest with
      | none => simp [hr] at h
      | some j =>
        simp [hr] at h
        subst h
        exact ih hr

theorem find_header_end_of_at {l : List Byte} {i : Nat}
    (h : (l.drop i).take 4 = CRLFCRLF) : ∃ j, j ≤ i ∧ find_header_end l = some j := by
  induction l generalizing i with
  | nil => simp [CRLFCRLF] at h
  | cons c rest ih =>
    unfold find_header_end
    by_cases h4 : (c :: rest).take 4 = [13, 10, 13, 10]
    · exact ⟨0, by omega, by rw [if_pos h4]⟩
    · rw [if_neg h4]
      cases i with
      | zero => exact absurd h h4
      | succ i =>
        obtain ⟨j, hj, hf⟩ := ih (i := i) (by simpa using h)
        exact ⟨j + 1, by omega, by simp [hf]⟩

/-- The test made by the header loop says what it should: `find_header_end`
finds nothing in the first `MAX_HEADER_SIZE` bytes exactly when `\r\n\r\n`
does not occur entirely within them. -/
theorem no_terminator_iff (l : List Byte) :
    (∀ i, i + 4 ≤ MAX_HEADER_SIZE → (l.drop i).take 4 ≠ CRLFCRLF) ↔
      find_header_end (l.take MAX_HEADER_SIZE) = none := by
  constructor
  · intro h
    cases hf : find_header_end (l.take MAX_HEADER_SIZE) with
    | none => rfl
    | some i =>
      have hb := find_header_end_bound hf
      simp only [List.length_take] at hb
      exact absurd (find_header_end_at (find_header_end_of_take hf)) (h i (by omega))
  · intro h i hi hT
    obtain ⟨j, hj, hf⟩ := find_header_end_of_at hT
    rw [find_header_end_take hf (by omega)] at h
    cases h

/-! ## The header loop -/

theorem read_header_loop_spec (fuel : Nat) (w : World) (buf : List Byte)
    (hf : w.reads.length < fuel ∨ (MAX_HEADER_SIZE ≤ buf.length ∧ 0 < fuel))
    (hbuf : buf.length ≤ MAX_HEADER_SIZE) (hnone : find_header_end buf = none) :
    ∃ r, read_header_loop fuel w buf = some r ∧
      match r with
      | .io_error w1 => w1.mallocs = w.mallocs ∧ w1.live = w.live ∧ clean w.reads = false
      | .done buf1 he w1 => w1.mallocs = w.mallocs ∧ w1.live = w.live ∧
          buf1 ++ stream_bytes w1.reads = buf ++ stream_bytes w.reads ∧
          buf1.length ≤ MAX_HEADER_SIZE ∧ find_header_end buf1 = he ∧
          (clean w.reads = true → clean w1.reads = true ∧
            (he = none → buf1.length = MAX_HEADER_SIZE ∨ w1.reads = [])) := by
  induction fuel generalizing w buf with
  | zero => omega
  | succ fuel ih =>
    unfold read_header_loop
    by_cases hlt : buf.length < MAX_HEADER_SIZE
    · rw [if_pos hlt]
      have hf1 : w.reads.length < fuel + 1 := by omega
      obtain ⟨reads, mallocs, live⟩ := w
      cases reads with
      | nil =>
        refine ⟨.done buf none ⟨[], mallocs, live⟩, by simp [sys_read], ?_⟩
        simp [hbuf, hnone]
      | cons e r =>
        simp only [List.length_cons] at hf1
        cases e with
        | eintr =>
          obtain ⟨res, hres, hpost⟩ := ih ⟨r, mallocs, live⟩ buf (Or.inl (by simpa using hf1))
            hbuf hnone
          refine ⟨res, by simpa [sys_read] using hres, ?_⟩
          cases res <;> simpa [stream_bytes, clean] using hpost
        | fail =>
          refine ⟨.io_error ⟨r, mallocs, live⟩, by simp [sys_read], ?_⟩
          simp [clean]
        | data bs =>
          by_cases hcap : bs.length ≤ MAX_HEADER_SIZE - buf.length
          · by_cases hz : bs.length = 0
            · refine ⟨.done buf none ⟨r, mallocs, live⟩, by simp [sys_read, hcap, hz], ?_⟩
              have hbs : bs = [] := List.eq_nil_of_length_eq_zero hz
              simp [stream_bytes, clean, hbs, hbuf, hnone]
            · cases hfind : find_header_end (buf ++ bs) with
              | some idx =>
                refine ⟨.done (buf ++ bs) (some idx) ⟨r, mallocs, live⟩,
                  by simp [sys_read, hcap, hz, hfind], ?_⟩
                simp [stream_bytes, clean, hfind]
                omega
              | none =>
                obtain ⟨res, hres, hpost⟩ := ih ⟨r, mallocs, live⟩ (buf ++ bs)
                  (Or.inl (by simpa using hf1)) (by simp; omega) hfind
                refine ⟨res, by simpa [sys_read, hcap, hz, hfind] using hres, ?_⟩
                cases res with
                | io_error w1 =>
                  simp only [clean] at hpost ⊢
                  simp [hpost.1, hpost.2.1, hpost.2.2]
                | done b1 he w1 =>
                  simp only [stream_bytes, clean, List.append_assoc] at hpost ⊢
                  refine ⟨hpost.1, hpost.2.1, hpost.2.2.1, hpost.2.2.2.1, hpost.2.2.2.2.1, ?_⟩
                  intro hc
                  simp only [Bool.and_eq_true] at hc
                  exact hpost.2.2.2.2.2 hc.2
          · have hlen : (buf ++ bs.take (MAX_HEADER_SIZE - buf.length)).length
                = MAX_HEADER_SIZE := by
              simp [List.length_take]; omega
            have hz : ¬ (min (MAX_HEADER_SIZE - buf.length) bs.length = 0) := by omega
            have hsplit : buf ++ bs.take (MAX_HEADER_SIZE - buf.length) ++
                (bs.drop (MAX_HEADER_SIZE - buf.length) ++ stream_bytes r)
                = buf ++ (bs ++ stream_bytes r) := by
              simp [List.append_assoc, ← List.append_assoc (bs.take _), List.take_append_drop]
            have hdrop : bs.drop (MAX_HEADER_SIZE - buf.length) ≠ [] := by
              intro h0
              have := congrArg List.length h0
              simp at this
              omega
            cases hfind : find_header_end (buf ++ bs.take (MAX_HEADER_SIZE - buf.length)) with
            | some idx =>
              refine ⟨.done (buf ++ bs.take (MAX_HEADER_SIZE - buf.length)) (some idx)
                ⟨.data (bs.drop (MAX_HEADER_SIZE - buf.length)) :: r, mallocs, live⟩,
                by simp [sys_read, hcap, hz, hfind], ?_⟩
              simp only [stream_bytes, clean, hfind, hsplit, hlen, le_refl, true_and]
              intro hc
              simp only [Bool.and_eq_true] at hc
              simp [hdrop, hc.2]
            | none =>
              obtain ⟨res, hres, hpost⟩ := ih
                ⟨.data (bs.drop (MAX_HEADER_SIZE - buf.length)) :: r, mallocs, live⟩
                (buf ++ bs.take (MAX_HEADER_SIZE - buf.length))
                (Or.inr ⟨by omega, by omega⟩) (by omega) hfind
              refine ⟨res, by simpa [sys_read, hcap, hz, hfind] using hres, ?_⟩
              cases res with
              | io_error w1 =>
                simp only [clean] at hpost ⊢
                refine ⟨hpost.1, hpost.2.1, ?_⟩
                have := hpost.2.2
                simp only [Bool.and_eq_false_iff] at this ⊢
                rcases this with h | h
                · simp [hdrop] at h
                · exact Or.inr h
              | done b1 he w1 =>
                simp only [stream_bytes, clean, hsplit] at hpost ⊢
                refine ⟨hpost.1, hpost.2.1, hpost.2.2.1, hpost.2.2.2.1, hpost.2.2.2.2.1, ?_⟩
                intro hc
                simp only [Bool.and_eq_true] at hc
                apply hpost.2.2.2.2.2
                simp [hdrop, hc.2]
    · rw [if_neg hlt]
      refine ⟨_, rfl, ?_⟩
      simp only [hnone, true_and, and_true]
      refine ⟨hbuf, fun hc => ⟨hc, fun _ => Or.inl (by omega)⟩⟩

/-! ## The body loop -/

theorem read_body_loop_spec (fuel : Nat) (w : World) (body : List Byte) (n : Nat)
    (hf : w.reads.length < fuel ∨ (n ≤ body.length ∧ 0 < fuel))
    (hbody : body.length ≤ n) :
    ∃ r, read_body_loop fuel w body n = some r ∧
      match r with
      | .io_error w1 => w1.mallocs = w.mallocs ∧ w1.live = w.live ∧ clean w.reads = false
      | .done body1 w1 => w1.mallocs = w.mallocs ∧ w1.live = w.live ∧
          body1 ++ stream_bytes w1.reads = body ++ stream_bytes w.reads ∧
          body1.length ≤ n ∧
          (clean w.reads = true → clean w1.reads = true ∧ (body1.length < n → w1.reads = [])) := by
  induction fuel generalizing w body with
  | zero => omega
  | succ fuel ih =>
    unfold read_body_loop
    by_cases hlt : body.length < n
    · rw [if_pos hlt]
      have hf1 : w.reads.length < fuel + 1 := by omega
      obtain ⟨reads, mallocs, live⟩ := w
      cases reads with
      | nil =>
        refine ⟨.done body ⟨[], mallocs, live⟩, by simp [sys_read], ?_⟩
        simp [hbody]
      | cons e r =>
        simp only [List.length_cons] at hf1
        cases e with
        | eintr =>
          obtain ⟨res, hres, hpost⟩ := ih ⟨r, mallocs, live⟩ body (Or.inl (by simpa using hf1))
            hbody
          refine ⟨res, by simpa [sys_read] using hres, ?_⟩
          cases res <;> simpa [stream_bytes, clean] using hpost
        | fail =>
          refine ⟨.io_error ⟨r, mallocs, live⟩, by simp [sys_read], ?_⟩
          simp [clean]
        | data bs =>
          by_cases hcap : bs.length ≤ n - body.length
          · by_cases hz : bs.length = 0
            · refine ⟨.done body ⟨r, mallocs, live⟩, by simp [sys_read, hcap, hz], ?_⟩
              have hbs : bs = [] := List.eq_nil_of_length_eq_zero hz
              simp [stream_bytes, clean, hbs, hbody]
            · obtain ⟨res, hres, hpost⟩ := ih ⟨r, mallocs, live⟩ (body ++ bs)
                (Or.inl (by simpa using hf1)) (by simp; omega)
              refine ⟨res, by simpa [sys_read, hcap, hz] using hres, ?_⟩
              cases res with
              | io_error w1 =>
                simp only [clean] at hpost ⊢
                simp [hpost.1, hpost.2.1, hpost.2.2]
              | done b1 w1 =>
                simp only [stream_bytes, clean, List.append_assoc] at hpost ⊢
                refine ⟨hpost.1, hpost.2.1, hpost.2.2.1, hpost.2.2.2.1, ?_⟩
                intro hc
                simp only [Bool.and_eq_true] at hc
                exact hpost.2.2.2.2 hc.2
          · have hlen : (body ++ bs.take (n - body.length)).length = n := by
              simp [List.length_take]; omega
            have hz : ¬ (min (n - body.length) bs.length = 0) := by omega
            have hsplit : body ++ bs.take (n - body.length) ++
                (bs.drop (n - body.length) ++ stream_bytes r)
                = body ++ (bs ++ stream_bytes r) := by
              simp [List.append_assoc, ← List.append_assoc (bs.take _), List.take_append_drop]
            have hdrop : bs.drop (n - body.length) ≠ [] := by
              intro h0
              have := congrArg List.length h0
              simp at this
              omega
            obtain ⟨res, hres, hpost⟩ := ih
              ⟨.data (bs.drop (n - body.length)) :: r, mallocs, live⟩
              (body ++ bs.take (n - body.length))
              (Or.inr ⟨by omega, by omega⟩) (by omega)
            refine ⟨res, by simpa [sys_read, hcap, hz] using hres, ?_⟩
            cases res with
            | io_error w1 =>
              simp only [clean] at hpost ⊢
              refine ⟨hpost.1, hpost.2.1, ?_⟩
              have := hpost.2.2
              simp only [Bool.and_eq_false_iff] at this ⊢
              rcases this with h | h
              · simp [hdrop] at h
              · exact Or.inr h
            | done b1 w1 =>
              simp only [stream_bytes, clean, hsplit] at hpost ⊢
              refine ⟨hpost.1, hpost.2.1, hpost.2.2.1, hpost.2.2.2.1, ?_⟩
              intro hc
              simp only [Bool.and_eq_true] at hc
              apply hpost.2.2.2.2
              simp [hdrop, hc.2]
    · rw [if_neg hlt]
      refine ⟨_, rfl, ?_⟩
      simp only [true_and]
      refine ⟨hbody, fun hc => ⟨hc, fun h => absurd h hlt⟩⟩

/-! ## `parse_request_headers` -/

theorem header_line_keeps {line : List Byte} {r r1 : HttpRequest}
    (h : header_line line r = some r1) :
    r1.method = r.method ∧ r1.path = r.path ∧ r1.body = r.body ∧
      r1.body_length = r.body_length := by
  unfold header_line at h
  split at h
  · simp only [] at h
    split at h
    · cases h
    · cases h; simp
  · split at h
    · cases h; simp
    · cases h; simp

theorem header_lines_spec (fuel : Nat) (cursor : List Byte) (r : HttpRequest)
    (hf : cursor.length < fuel) :
    ∃ res, header_lines fuel cursor r = some res ∧
      ∀ r1, res = .done r1 ∨ res = .bad r1 → r1.method = r.method ∧ r1.path = r.path ∧
        r1.body = r.body ∧ r1.body_length = r.body_length := by
  induction fuel generalizing cursor r with
  | zero => omega
  | succ fuel ih =>
    unfold header_lines
    by_cases h0 : cstr cursor = []
    · exact ⟨.done r, by simp [h0], by intro r1 h; rcases h with h | h <;> cases h; simp⟩
    · rw [if_neg h0]
      have hne : cursor ≠ [] := by
        intro h; apply h0; simp [h, cstr]
      have hpos : 0 < cursor.length := List.length_pos.mpr hne
      simp only []
      split
      · exact ⟨.done r, rfl, by intro r1 h; rcases h with h | h <;> cases h; simp⟩
      · cases hl : header_line (match strstr_crlf cursor with
            | some k => cursor.take k
            | none => cstr cursor) r with
        | none => exact ⟨.bad r, rfl, by intro r1 h; rcases h with h | h <;> cases h; simp⟩
        | some r2 =>
          have hk := header_line_keeps hl
          cases hn : strstr_crlf cursor with
          | none =>
            refine ⟨.done r2, rfl, ?_⟩
            intro r1 h; rcases h with h | h <;> cases h; exact hk
          | some k =>
            obtain ⟨res, hres, hpost⟩ := ih (cursor.drop (k + 2)) r2
              (by simp [List.length_drop]; omega)
            refine ⟨res, hres, ?_⟩
            intro r1 h
            have := hpost r1 h
            simp [this, hk]

/-- The text part of `parse_request_headers`: its outcome when the allocation
of `header_text` has succeeded. -/
theorem parse_request_headers_quiet (raw : List Byte) (n : Nat) (r : HttpRequest) :
    ∃ o, parse_request_headers (World.quiet []) raw n r = some (o, World.quiet []) ∧
      o.request.body = r.body ∧ o.request.body_length = r.body_length ∧
      (∀ st r1, o = .fail st r1 → st = 400) := by
  unfold parse_request_headers
  simp only [World.quiet, sys_malloc, sys_free]
  cases hs : strstr_crlf (raw.take n) with
  | none => exact ⟨_, rfl, rfl, rfl, by intro st r1 h; cases h; rfl⟩
  | some line_end =>
    simp only []
    by_cases hc : (sscanf_method_path ((raw.take n).take line_end)).count = 2
    · rw [if_neg (by simp [hc])]
      obtain ⟨res, hres, hpost⟩ := header_lines_spec ((raw.take n).length + 1)
        ((raw.take n).drop (line_end + 2))
        { r with method := (sscanf_method_path ((raw.take n).take line_end)).method.getD r.method,
                 path := cut_query ((sscanf_method_path
                   ((raw.take n).take line_end)).path.getD r.path) }
        (by simp [List.length_drop]; omega)
      rw [hres]
      cases res with
      | bad r3 =>
        have := hpost r3 (Or.inr rfl)
        exact ⟨_, rfl, this.2.2.1, this.2.2.2, by intro st r1 h; cases h; rfl⟩
      | done r3 =>
        have := hpost r3 (Or.inl rfl)
        exact ⟨_, rfl, this.2.2.1, this.2.2.2, by intro st r1 h; cases h⟩
    · rw [if_pos (by simpa using hc)]
      exact ⟨_, rfl, rfl, rfl, by intro st r1 h; cases h; rfl⟩

theorem parse_request_headers_world (w : World) (raw : List Byte) (n : Nat)
    (r : HttpRequest) :
    parse_request_headers w raw n r =
      match sys_malloc w with
      | (false, w1) => some (.fail 500 r, w1)
      | (true, w1) =>
        (parse_request_headers (World.quiet []) raw n r).map (fun p => (p.1, sys_free w1)) := by
  unfold parse_request_headers
  cases hm : sys_malloc w with
  | mk b w1 =>
    cases b
    · simp
    · simp only [World.quiet, sys_malloc]
      cases strstr_crlf (raw.take n) with
      | none => simp
      | some line_end =>
        simp only []
        split
        · simp
        · cases header_lines ((raw.take n).length + 1) ((raw.take n).drop (line_end + 2))
            { r with method := (sscanf_method_path ((raw.take n).take line_end)).method.getD
                       r.method,
                     path := cut_query ((sscanf_method_path
                       ((raw.take n).take line_end)).path.getD r.path) } with
          | none => simp
          | some res => cases res <;> simp

/-! ## `read_http_request` in sections -/

theorem read_http_request_eq (w : World) :
    read_http_request w =
      match read_header_loop (w.reads.length + 1) w [] with
      | none => none
      | some (.io_error w1) => some (.fail 400 HttpRequest.zero, w1)
      | some (.done _ none w1) => some (.fail 400 HttpRequest.zero, w1)
      | some (.done header_buffer (some header_end) w1) =>
        after_headers header_buffer header_end w1 := by
  unfold read_http_request after_headers body_phase
  rfl

theorem take_of_append_eq {α : Type} {a t l : List α} {n : Nat} (h : a ++ t = l)
    (hn : a.length ≤ n) (ht : a.length = n ∨ t = []) : l.take n = a := by
  subst h
  rcases ht with ht | ht
  · rw [← ht]; simp
  · subst ht; simp [List.take_of_length_le hn]

/-- The header loop of `read_http_request`: either the request is refused with
status 400, or the terminator was found and the rest of the function runs on
a buffer that starts the stream. -/
theorem header_phase (w : World) :
    (∃ w1, read_http_request w = some (.fail 400 HttpRequest.zero, w1) ∧
        w1.mallocs = w.mallocs ∧ w1.live = w.live ∧
        (clean w.reads = true →
          find_header_end ((stream_bytes w.reads).take MAX_HEADER_SIZE) = none)) ∨
    (∃ buf idx w1, read_http_request w = after_headers buf idx w1 ∧
        w1.mallocs = w.mallocs ∧ w1.live = w.live ∧
        buf ++ stream_bytes w1.reads = stream_bytes w.reads ∧
        idx + 4 ≤ buf.length ∧
        find_header_end ((stream_bytes w.reads).take MAX_HEADER_SIZE) = some idx ∧
        buf.take idx = (stream_bytes w.reads).take idx ∧
        (clean w.reads = true → clean w1.reads = true) ∧
        read_header_loop (w.reads.length + 1) w [] = some (.done buf (some idx) w1)) := by
  obtain ⟨res, hres, hpost⟩ := read_header_loop_spec (w.reads.length + 1) w []
    (Or.inl (by omega)) (by simp) (by simp [find_header_end])
  rw [read_http_request_eq, hres]
  cases res with
  | io_error w1 =>
    left
    refine ⟨w1, rfl, hpost.1, hpost.2.1, ?_⟩
    intro hc; rw [hpost.2.2] at hc; cases hc
  | done buf he w1 =>
    obtain ⟨hm, hl, hcat, hlen, hfind, hclean⟩ := hpost
    simp only [List.nil_append] at hcat
    cases he with
    | none =>
      left
      refine ⟨w1, rfl, hm, hl, ?_⟩
      intro hc
      obtain ⟨-, hex⟩ := hclean hc
      have : (stream_bytes w.reads).take MAX_HEADER_SIZE = buf := by
        apply take_of_append_eq hcat hlen
        rcases hex rfl with h | h
        · exact Or.inl h
        · right; simp [h, stream_bytes]
      rw [this]; exact hfind
    | some idx =>
      right
      have hb := find_header_end_bound hfind
      refine ⟨buf, idx, w1, rfl, hm, hl, hcat, hb, ?_, ?_, fun hc => (hclean hc).1, rfl⟩
      · apply find_header_end_take _ (by omega)
        rw [← hcat]
        exact find_header_end_append _ hfind
      · rw [← hcat, List.take_append_of_le_length (by omega)]

/-! ## Size admission and body acquisition -/

theorem sys_malloc_spec (w : World) :
    (sys_malloc w).2.reads = w.reads ∧ (sys_malloc w).2.mallocs = w.mallocs.tail ∧
      (sys_malloc w).2.live = w.live + (if (sys_malloc w).1 then 1 else 0) := by
  obtain ⟨reads, mallocs, live⟩ := w
  cases mallocs with
  | nil => simp [sys_malloc]
  | cons b r => cases b <;> simp [sys_malloc]

theorem initial_body (buf : List Byte) (k n : Nat) :
    (buf.drop k).take
      (if (if buf.length > k then buf.length - k else 0) > n then n
        else (if buf.length > k then buf.length - k else 0)) = (buf.drop k).take n := by
  have hl : (buf.drop k).length = buf.length - k := List.length_drop k buf
  have hi : (if buf.length > k then buf.length - k else 0) = buf.length - k := by
    split <;> omega
  rw [hi]
  by_cases h : buf.length - k > n
  · rw [if_pos h]
  · rw [if_neg h, List.take_of_length_le (by omega), List.take_of_length_le (by omega)]

theorem take_take_append {α : Type} (x s : List α) (n : Nat) :
    (x.take n ++ s).take n = (x ++ s).take n := by
  by_cases h : x.length ≤ n
  · rw [List.take_of_length_le h]
  · rw [List.take_append_of_le_length (by simp; omega),
      List.take_append_of_le_length (by omega), List.take_take, min_self]

theorem body_phase_spec (buf : List Byte) (idx : Nat) (r1 : HttpRequest) (w2 : World)
    (hb : r1.body = none) :
    ∃ o w3, body_phase buf idx r1 w2 = some (o, w3) ∧
      match o with
      | .ok r => r.body_length = r.content_length ∧ r.content_length ≤ MAX_REQUEST_SIZE ∧
          (r.body = none ↔ r.content_length = 0) ∧
          (∀ b, r.body = some b → b.length = r.content_length) ∧
          w3.live = w2.live + (if r.body = none then 0 else 1) ∧
          r.method = r1.method ∧ r.path = r1.path ∧ r.content_type = r1.content_type ∧
          r.content_length = r1.content_length
      | .fail st r => (st = 400 ∨ st = 413 ∨ st = 500) ∧ r.body = none ∧
          w3.live = w2.live := by
  unfold body_phase
  by_cases hbig : r1.content_length > MAX_REQUEST_SIZE
  · rw [if_pos hbig]
    exact ⟨_, _, rfl, by simp [hb]⟩
  · rw [if_neg hbig]
    simp only []
    by_cases hz : r1.content_length = 0
    · rw [if_pos hz]
      exact ⟨_, _, rfl, by simp [hz]⟩
    · rw [if_neg hz]
      obtain ⟨hr, -, hlive⟩ := sys_malloc_spec w2
      cases hm : sys_malloc w2 with
      | mk b w3 =>
        rw [hm] at hr hlive
        simp only [] at hr hlive
        cases b
        · exact ⟨_, _, rfl, by simpa using hlive⟩
        · simp only []
          rw [initial_body]
          obtain ⟨res, hres, hpost⟩ := read_body_loop_spec (w3.reads.length + 1) w3
            ((buf.drop (idx + 4)).take r1.content_length) r1.content_length
            (Or.inl (by omega)) (by simp [List.length_take])
          rw [hres]
          cases res with
          | io_error w4 =>
            refine ⟨_, _, rfl, ?_⟩
            simp [sys_free, hpost.2.1, hlive]
          | done body1 w4 =>
            simp only []
            by_cases hshort : body1.length < r1.content_length
            · rw [if_pos hshort]
              refine ⟨_, _, rfl, ?_⟩
              simp [sys_free, hpost.2.1, hlive]
            · rw [if_neg hshort]
              refine ⟨_, _, rfl, ?_⟩
              have := hpost.2.2.2.1
              simp [hpost.2.1, hlive, hz]
              omega

/-! ## From the header loop to the outcome -/

theorem parse_request_headers_take (w : World) (raw : List Byte) (n : Nat) (r : HttpRequest) :
    parse_request_headers w raw n r =
      parse_request_headers w (raw.take n) (raw.take n).length r := by
  unfold parse_request_headers
  rw [List.take_length]

theorem parsed_headers_spec (block : List Byte) :
    ∃ o, parsed_headers block = some o ∧ o.request.body = none ∧
      o.request.body_length = 0 ∧ (∀ st r1, o = .fail st r1 → st = 400) := by
  obtain ⟨o, ho, h1, h2, h3⟩ := parse_request_headers_quiet block block.length HttpRequest.zero
  exact ⟨o, by simp [parsed_headers, ho], h1, h2, h3⟩

theorem after_headers_eq (buf : List Byte) (idx : Nat) (w1 : World) :
    after_headers buf idx w1 =
      match sys_malloc w1 with
      | (false, w2) => some (.fail 500 HttpRequest.zero, w2)
      | (true, w2) =>
        match parsed_headers (buf.take idx) with
        | none => none
        | some (.fail st r1) => some (.fail st r1, sys_free w2)
        | some (.ok r1) => body_phase buf idx r1 (sys_free w2) := by
  unfold after_headers
  rw [parse_request_headers_world, parse_request_headers_take (World.quiet [])]
  obtain ⟨o, ho, -⟩ := parse_request_headers_quiet (buf.take idx) (buf.take idx).length
    HttpRequest.zero
  cases hm : sys_malloc w1 with
  | mk b w2 =>
    cases b
    · rfl
    · simp only [parsed_headers, ho, Option.map_some']
      cases o <;> rfl

theorem sys_malloc_ok (w : World) (h : false ∉ w.mallocs) :
    (sys_malloc w).1 = true ∧ false ∉ (sys_malloc w).2.mallocs := by
  obtain ⟨reads, mallocs, live⟩ := w
  cases mallocs with
  | nil => simp [sys_malloc]
  | cons b r =>
    cases b
    · simp at h
    · simp only [List.mem_cons, not_or] at h
      simp [sys_malloc, h.2]

theorem body_phase_forward (buf : List Byte) (idx : Nat) (r1 : HttpRequest) (w2 : World)
    (hclean : clean w2.reads = true) (halloc : false ∉ w2.mallocs)
    (hpos : 0 < r1.content_length) (hmax : r1.content_length ≤ MAX_REQUEST_SIZE)
    (hidx : idx + 4 ≤ buf.length)
    (hbytes : idx + 4 + r1.content_length ≤ (buf ++ stream_bytes w2.reads).length) :
    ∃ w3, body_phase buf idx r1 w2 =
      some (.ok { r1 with body_length := r1.content_length,
                          body := some (((buf ++ stream_bytes w2.reads).drop (idx + 4)).take
                            r1.content_length) }, w3) := by
  unfold body_phase
  rw [if_neg (by omega)]
  simp only []
  rw [if_neg (by omega)]
  obtain ⟨hok, -⟩ := sys_malloc_ok w2 halloc
  obtain ⟨hr, -, -⟩ := sys_malloc_spec w2
  cases hm : sys_malloc w2 with
  | mk b w3 =>
    rw [hm] at hok hr
    simp only [] at hok hr
    subst hok
    simp only []
    rw [initial_body]
    obtain ⟨res, hres, hpost⟩ := read_body_loop_spec (w3.reads.length + 1) w3
      ((buf.drop (idx + 4)).take r1.content_length) r1.content_length
      (Or.inl (by omega)) (by simp [List.length_take])
    rw [hres]
    cases res with
    | io_error w4 =>
      have := hpost.2.2
      rw [hr, hclean] at this
      cases this
    | done body1 w4 =>
      obtain ⟨-, -, hcat, hle, hc⟩ := hpost
      rw [hr] at hcat hc
      obtain ⟨-, hend⟩ := hc hclean
      have hD : (buf ++ stream_bytes w2.reads).drop (idx + 4)
          = buf.drop (idx + 4) ++ stream_bytes w2.reads :=
        List.drop_append_of_le_length hidx
      have hlenD : r1.content_length ≤ (buf.drop (idx + 4) ++ stream_bytes w2.reads).length := by
        rw [← hD, List.length_drop]; omega
      have hfull : body1.length = r1.content_length := by
        by_contra hne
        have hlt : body1.length < r1.content_length := by omega
        have h4 := hend hlt
        rw [h4] at hcat
        simp only [stream_bytes, List.append_nil] at hcat
        have h5 : ((buf.drop (idx + 4)).take r1.content_length).length < r1.content_length := by
          have := congrArg List.length hcat
          simp only [List.length_append] at this
          omega
        have h6 : (buf.drop (idx + 4)).length < r1.content_length := by
          simp only [List.length_take] at h5
          omega
        rw [List.take_of_length_le (by omega)] at hcat
        rw [← hcat] at hlenD
        omega
      have hbody : body1 = ((buf ++ stream_bytes w2.reads).drop (idx + 4)).take
          r1.content_length := by
        rw [hD, ← take_take_append, ← hcat, ← hfull]
        simp
      simp only []
      rw [if_neg (by omega), hbody]
      exact ⟨w4, rfl⟩

theorem body_phase_short (buf : List Byte) (idx : Nat) (r1 : HttpRequest) (w2 : World)
    (halloc : false ∉ w2.mallocs)
    (hpos : 0 < r1.content_length) (hmax : r1.content_length ≤ MAX_REQUEST_SIZE)
    (hidx : idx + 4 ≤ buf.length)
    (hbytes : (buf ++ stream_bytes w2.reads).length < idx + 4 + r1.content_length) :
    ∃ w3, body_phase buf idx r1 w2 =
      some (.fail 400 { r1 with body_length := 0, body := none }, w3) ∧
      w3.live = w2.live := by
  unfold body_phase
  rw [if_neg (by omega)]
  simp only []
  rw [if_neg (by omega)]
  obtain ⟨hok, -⟩ := sys_malloc_ok w2 halloc
  obtain ⟨hr, -, hlive⟩ := sys_malloc_spec w2
  cases hm : sys_malloc w2 with
  | mk b w3 =>
    rw [hm] at hok hr hlive
    simp only [] at hok hr hlive
    subst hok
    simp only [if_true] at hlive
    simp only []
    rw [initial_body]
    obtain ⟨res, hres, hpost⟩ := read_body_loop_spec (w3.reads.length + 1) w3
      ((buf.drop (idx + 4)).take r1.content_length) r1.content_length
      (Or.inl (by omega)) (by simp [List.length_take])
    rw [hres]
    cases res with
    | io_error w4 =>
      exact ⟨_, rfl, by simp [sys_free, hpost.2.1, hlive]⟩
    | done body1 w4 =>
      obtain ⟨-, hl4, hcat, hle, -⟩ := hpost
      rw [hr] at hcat
      have hshort : body1.length < r1.content_length := by
        have h1 := congrArg List.length hcat
        simp only [List.length_append, List.length_take, List.length_drop] at h1 hbytes
        omega
      simp only []
      rw [if_pos hshort]
      exact ⟨_, rfl, by simp [sys_free, hl4, hlive]⟩

theorem header_block_iff {stream block : List Byte} :
    header_block stream = some block ↔
      ∃ idx, find_header_end (stream.take MAX_HEADER_SIZE) = some idx ∧
        block = stream.take idx ∧ block.length = idx ∧ idx + 4 ≤ stream.length := by
  unfold header_block
  constructor
  · intro h
    cases hf : find_header_end (stream.take MAX_HEADER_SIZE) with
    | none => simp [hf] at h
    | some idx =>
      simp only [hf, Option.map_some', Option.some.injEq] at h
      have hb := find_header_end_bound hf
      simp only [List.length_take] at hb
      refine ⟨idx, rfl, h.symm, ?_, by omega⟩
      rw [← h, List.length_take]
      omega
  · rintro ⟨idx, hf, hb, -, -⟩
    simp [hf, hb]

theorem sys_malloc_head (w : World) (h : w.mallocs.head? ≠ some false) :
    (sys_malloc w).1 = true := by
  obtain ⟨reads, mallocs, live⟩ := w
  cases mallocs with
  | nil => simp [sys_malloc]
  | cons b r => cases b <;> simp_all [sys_malloc]

/-- A request whose header block the parser accepts with a declared length
within the limit, followed by enough bytes, is accepted with exactly those
bytes as body. -/
theorem read_http_request_accepts (w : World) (block : List Byte) (r : HttpRequest)
    (hclean : clean w.reads = true) (halloc : false ∉ w.mallocs)
    (hblock : header_block (stream_bytes w.reads) = some block)
    (hparse : parsed_headers block = some (.ok r))
    (hmax : r.content_length ≤ MAX_REQUEST_SIZE)
    (hbytes : block.length + 4 + r.content_length ≤ (stream_bytes w.reads).length) :
    ∃ w1, read_http_request w =
      some (.ok { r with
        body_length := r.content_length,
        body := if r.content_length = 0 then none
          else some (((stream_bytes w.reads).drop (block.length + 4)).take
            r.content_length) }, w1) := by
  obtain ⟨idx, hfind, hb, hblen, -⟩ := header_block_iff.mp hblock
  rcases header_phase w with ⟨w1, -, -, -, hnone⟩ | ⟨buf, idx1, w1, h, hm, -, hcat, hidx, hf1, htake, hc, -⟩
  · rw [hnone hclean] at hfind; cases hfind
  · rw [hfind] at hf1
    cases hf1
    rw [h, after_headers_eq]
    rw [← hm] at halloc
    obtain ⟨hok, halloc2⟩ := sys_malloc_ok w1 halloc
    obtain ⟨hr, -, -⟩ := sys_malloc_spec w1
    cases hmal : sys_malloc w1 with
    | mk b w2 =>
      rw [hmal] at hok halloc2 hr
      simp only [] at hok halloc2 hr
      subst hok
      simp only []
      rw [htake, ← hb, hparse]
      simp only []
      by_cases hz : r.content_length = 0
      · refine ⟨sys_free w2, ?_⟩
        unfold body_phase
        rw [if_neg (by omega)]
        simp [hz]
      · obtain ⟨w3, h3⟩ := body_phase_forward buf idx r (sys_free w2)
          (by simpa [sys_free, hr] using hc hclean) (by simpa [sys_free] using halloc2)
          (by omega) hmax hidx
          (by simp only [sys_free, hr, hcat]; omega)
        refine ⟨w3, ?_⟩
        rw [h3, if_neg hz]
        simp only [sys_free, hr, hcat, hblen]

/-- An accepted request carries what the parser made of the header block of
the stream. -/
theorem read_http_request_ok_inv (w w1 : World) (r : HttpRequest)
    (h : read_http_request w = some (.ok r, w1)) :
    ∃ block r1, header_block (stream_bytes w.reads) = some block ∧
      parsed_headers block = some (.ok r1) ∧ r.method = r1.method ∧ r.path = r1.path ∧
      r.content_type = r1.content_type ∧ r.content_length = r1.content_length := by
  rcases header_phase w with ⟨w0, h1, -⟩ | ⟨buf, idx, w0, h1, hm, hl, hcat, hidx, hf1, htake, -⟩
  · rw [h1] at h; cases h
  · have hblock : header_block (stream_bytes w.reads) = some ((stream_bytes w.reads).take idx) := by
      simp [header_block, hf1]
    rw [h1, after_headers_eq] at h
    cases hmal : sys_malloc w0 with
    | mk b w2 =>
      rw [hmal] at h
      cases b
      · cases h
      · simp only [] at h
        rw [htake] at h
        obtain ⟨o, ho, hbody, -⟩ := parsed_headers_spec ((stream_bytes w.reads).take idx)
        rw [ho] at h
        cases o with
        | fail st r1 => cases h
        | ok r1 =>
          simp only [] at h
          obtain ⟨o2, w3, hbp, hpost⟩ := body_phase_spec buf idx r1 (sys_free w2) hbody
          rw [hbp] at h
          cases h
          exact ⟨_, r1, hblock, ho, hpost.2.2.2.2.2.1, hpost.2.2.2.2.2.2.1,
            hpost.2.2.2.2.2.2.2.1, hpost.2.2.2.2.2.2.2.2⟩

theorem header_block_append (pre rest : List Byte) (idx : Nat)
    (h : find_header_end pre = some idx) (hlen : pre.length ≤ MAX_HEADER_SIZE) :
    header_block (pre ++ rest) = some (pre.take idx) := by
  have hb := find_header_end_bound h
  apply header_block_iff.mpr
  refine ⟨idx, find_header_end_take (find_header_end_append rest h) (by omega), ?_, ?_, ?_⟩
  · rw [List.take_append_of_le_length (by omega)]
  · rw [List.length_take]; omega
  · rw [List.length_append]; omega

/-! ## The request line -/

theorem ws_tokens_dropWhile (l : List Byte) : ws_tokens (l.dropWhile isspace) = ws_tokens l := by
  induction l with
  | nil => rfl
  | cons c rest ih =>
    by_cases hc : isspace c = true
    · rw [List.dropWhile_cons_of_pos hc, ih]
      simp [ws_tokens, hc]
    · rw [List.dropWhile_cons_of_neg hc]

theorem ws_tokens_cons_nonspace (c : Byte) (rest : List Byte) (hc : isspace c = false) :
    ws_tokens (c :: rest) =
      (c :: rest.takeWhile (fun c => !isspace c)) ::
        ws_tokens (rest.dropWhile (fun c => !isspace c)) := by
  induction rest generalizing c with
  | nil => simp [ws_tokens, hc]
  | cons d rest ih =>
    by_cases hd : isspace d = true
    · simp [ws_tokens, hc, hd]
    · simp only [Bool.not_eq_true] at hd
      have := ih d hd
      rw [ws_tokens, this]
      simp [hc, hd]

/-- The tokens of a line, by the scan that `sscanf` makes: skip white space,
take the run of other characters, go on behind it. -/
theorem ws_tokens_scan (l : List Byte) :
    ws_tokens l =
      if l.dropWhile isspace = [] then []
      else (l.dropWhile isspace).takeWhile (fun c => !isspace c) ::
        ws_tokens ((l.dropWhile isspace).dropWhile (fun c => !isspace c)) := by
  rw [← ws_tokens_dropWhile l]
  cases hs : l.dropWhile isspace with
  | nil => rfl
  | cons c rest =>
    have hc : isspace c = false := by
      have := List.head_dropWhile_not isspace l (by rw [hs]; simp)
      simpa [hs] using this
    rw [ws_tokens_cons_nonspace c rest hc]
    simp [hc]

theorem drop_length_takeWhile {α : Type} (p : α → Bool) (l : List α) :
    l.drop (l.takeWhile p).length = l.dropWhile p := by
  induction l with
  | nil => rfl
  | cons a t ih =>
    by_cases h : p a = true
    · simp [List.takeWhile_cons_of_pos h, List.dropWhile_cons_of_pos h, ih]
    · simp [List.takeWhile_cons_of_neg h, List.dropWhile_cons_of_neg h]

theorem sscanf_two_tokens (line t1 t2 : List Byte) (more : List (List Byte))
    (h : ws_tokens line = t1 :: t2 :: more) (ht : t1.length ≤ 7) :
    sscanf_method_path line = ⟨2, some t1, some (t2.take 255)⟩ := by
  rw [ws_tokens_scan] at h
  split at h
  · cases h
  · rename_i h0
    simp only [List.cons.injEq] at h
    obtain ⟨h1, h2⟩ := h
    rw [ws_tokens_scan] at h2
    split at h2
    · cases h2
    · rename_i h3
      simp only [List.cons.injEq] at h2
      unfold sscanf_method_path
      simp only [h0, if_false, h1, List.take_of_length_le ht]
      rw [← h1, drop_length_takeWhile, if_neg h3, h2.1]

theorem sscanf_long_token (line t1 : List Byte) (more : List (List Byte))
    (h : ws_tokens line = t1 :: more) (ht : 7 < t1.length) :
    sscanf_method_path line = ⟨2, some (t1.take 7), some ((t1.drop 7).take 255)⟩ := by
  rw [ws_tokens_scan] at h
  split at h
  · cases h
  · rename_i h0
    simp only [List.cons.injEq] at h
    obtain ⟨h1, -⟩ := h
    unfold sscanf_method_path
    simp only [h0, if_false, h1]
    have hlen : (t1.take 7).length = 7 := by rw [List.length_take]; omega
    have hsplit : (line.dropWhile isspace).drop 7 = t1.drop 7 ++
        (line.dropWhile isspace).dropWhile (fun c => !isspace c) := by
      conv_lhs => rw [← List.takeWhile_append_dropWhile (fun c => !isspace c)
        (line.dropWhile isspace), h1]
      rw [List.drop_append_of_le_length (by omega)]
    rw [hlen, hsplit]
    cases hd : t1.drop 7 with
    | nil =>
      have := congrArg List.length hd
      simp at this
      omega
    | cons c rest =>
      have hmem : ∀ x ∈ t1, (!isspace x) = true := by
        intro x hx
        rw [← h1] at hx
        exact List.mem_takeWhile_imp (p := fun c => !isspace c) hx
      have hall : ∀ x ∈ c :: rest, (!isspace x) = true := by
        intro x hx
        rw [← hd] at hx
        exact hmem x (List.mem_of_mem_drop hx)
      have hc : isspace c = false := by simpa using hall c (by simp)
      have htw : ((c :: rest) ++ (line.dropWhile isspace).dropWhile (fun c => !isspace c)).takeWhile
          (fun c => !isspace c) = c :: rest := by
        rw [List.takeWhile_append_of_pos hall]
        have : ((line.dropWhile isspace).dropWhile (fun c => !isspace c)).takeWhile
            (fun c => !isspace c) = [] := by
          cases hx : (line.dropWhile isspace).dropWhile (fun c => !isspace c) with
          | nil => rfl
          | cons y ys =>
            have := List.head_dropWhile_not (fun c => !isspace c) (line.dropWhile isspace)
              (by rw [hx]; simp)
            simp only [hx, List.head_cons] at this
            simp [List.takeWhile_cons, this]
        rw [this, List.append_nil]
      have hdw : ((c :: rest) ++ (line.dropWhile isspace).dropWhile (fun c => !isspace c)).dropWhile
          isspace = (c :: rest) ++ (line.dropWhile isspace).dropWhile (fun c => !isspace c) := by
        simp [List.dropWhile_cons, hc]
      rw [hdw, htw]
      simp

theorem first_line_of_strstr {l : List Byte} {k : Nat} (h : strstr_crlf l = some k) :
    l.take k = first_line l := by
  induction l generalizing k with
  | nil => simp [strstr_crlf] at h
  | cons c rest ih =>
    unfold strstr_crlf at h
    unfold first_line
    split at h
    · cases h
    · split at h
      · rename_i hc
        cases h
        rw [if_pos hc]
        rfl
      · rename_i hc
        rw [if_neg hc]
        cases hr : strstr_crlf rest with
        | none => simp [hr] at h
        | some j =>
          simp [hr] at h
          subst h
          simp [ih hr]

theorem parsed_headers_eq (block : List Byte) :
    parsed_headers block =
      match strstr_crlf block with
      | none => some (.fail 400 HttpRequest.zero)
      | some k =>
        if (sscanf_method_path (block.take k)).count ≠ 2 then
          some (.fail 400 { HttpRequest.zero with
            method := (sscanf_method_path (block.take k)).method.getD [],
            path := (sscanf_method_path (block.take k)).path.getD [] })
        else
          match header_lines (block.length + 1) (block.drop (k + 2))
              { HttpRequest.zero with
                method := (sscanf_method_path (block.take k)).method.getD [],
                path := cut_query ((sscanf_method_path (block.take k)).path.getD []) } with
          | none => none
          | some (.bad r3) => some (.fail 400 r3)
          | some (.done r3) => some (.ok r3) := by
  unfold parsed_headers parse_request_headers
  simp only [World.quiet, sys_malloc, List.take_length]
  cases strstr_crlf block with
  | none => rfl
  | some k =>
    simp only []
    split
    · rfl
    · simp only [HttpRequest.zero]
      generalize header_lines _ _ _ = res
      cases res with
      | none => rfl
      | some res => cases res <;> rfl

/-- What an accepted header block leaves in `method` and `path`. -/
theorem parsed_headers_ok_line (block : List Byte) (r : HttpRequest)
    (h : parsed_headers block = some (.ok r)) :
    (sscanf_method_path (first_line block)).count = 2 ∧
      r.method = (sscanf_method_path (first_line block)).method.getD [] ∧
      r.path = cut_query ((sscanf_method_path (first_line block)).path.getD []) := by
  rw [parsed_headers_eq] at h
  cases hs : strstr_crlf block with
  | none => rw [hs] at h; cases h
  | some k =>
    rw [hs] at h
    simp only [] at h
    rw [first_line_of_strstr hs] at h
    by_cases hc : (sscanf_method_path (first_line block)).count = 2
    · rw [if_neg (by simp [hc])] at h
      obtain ⟨res, hres, hpost⟩ := header_lines_spec (block.length + 1) (block.drop (k + 2))
        { HttpRequest.zero with
          method := (sscanf_method_path (first_line block)).method.getD [],
          path := cut_query ((sscanf_method_path (first_line block)).path.getD []) }
        (by simp [List.length_drop]; omega)
      rw [hres] at h
      cases res with
      | bad r3 => cases h
      | done r3 =>
        simp only [Option.some.injEq, Outcome.ok.injEq] at h
        subst h
        have := hpost r3 (Or.inl rfl)
        exact ⟨hc, this.1, this.2.1⟩
    · rw [if_pos hc] at h
      cases h

theorem cut_query_spec (p : List Byte) :
    63 ∉ cut_query p ∧ (63 ∉ p → cut_query p = p) := by
  constructor
  · intro h
    have := List.mem_takeWhile_imp (p := fun c => c != 63) h
    simp at this
  · intro h
    unfold cut_query
    rw [List.takeWhile_eq_self_iff]
    intro x hx
    have : x ≠ 63 := fun hx63 => h (hx63 ▸ hx)
    simpa using this

theorem cut_query_length (p : List Byte) : (cut_query p).length ≤ p.length := by
  unfold cut_query
  exact (List.takeWhile_sublist _).length_le

theorem sscanf_lengths (line : List Byte) :
    ((sscanf_method_path line).method.getD []).length ≤ 7 ∧
      ((sscanf_method_path line).path.getD []).length ≤ 255 := by
  unfold sscanf_method_path
  simp only []
  split
  · simp
  · split
    · simp [List.length_take]
    · simp [List.length_take]

/-- What an accepted request holds in `method` and `path`. -/
theorem read_http_request_ok_line (w w1 : World) (r : HttpRequest) (block : List Byte)
    (hok : read_http_request w = some (.ok r, w1))
    (hblock : header_block (stream_bytes w.reads) = some block) :
    (sscanf_method_path (first_line block)).count = 2 ∧
      r.method = (sscanf_method_path (first_line block)).method.getD [] ∧
      r.path = cut_query ((sscanf_method_path (first_line block)).path.getD []) := by
  obtain ⟨block1, r1, hb1, hp, hm, hpath, -⟩ := read_http_request_ok_inv w w1 r hok
  rw [hblock] at hb1
  cases hb1
  have := parsed_headers_ok_line block r1 hp
  exact ⟨this.1, hm.trans this.2.1, hpath.trans this.2.2⟩

/-! ## Claims about `read_http_request` -/

/-- C2. For every input stream and every behaviour of the allocator,
`read_http_request` returns. It returns either success with a complete
request (`body_length` equals `content_length`, which is at most
`MAX_REQUEST_SIZE`; the body is `NULL` exactly when `content_length` is 0 and
otherwise holds exactly `content_length` bytes, in the one heap block that is
left allocated), or failure with status 400, 413 or 500, a `NULL` body and no
heap block left allocated. -/
theorem read_http_request_complete_or_failed (w : World) :
    ∃ o w1, read_http_request w = some (o, w1) ∧
      match o with
      | .ok r => r.body_length = r.content_length ∧
          r.content_length ≤ MAX_REQUEST_SIZE ∧
          (r.body = none ↔ r.content_length = 0) ∧
          (∀ b, r.body = some b → b.length = r.content_length) ∧
          w1.live = w.live + (if r.body = none then 0 else 1)
      | .fail st r => (st = 400 ∨ st = 413 ∨ st = 500) ∧ r.body = none ∧
          w1.live = w.live := by
  rcases header_phase w with ⟨w1, h, -, hl, -⟩ | ⟨buf, idx, w1, h, -, hl, -⟩
  · exact ⟨_, _, h, by simp [hl, HttpRequest.zero]⟩
  · rw [h, after_headers_eq]
    obtain ⟨-, -, hlive⟩ := sys_malloc_spec w1
    cases hm : sys_malloc w1 with
    | mk b w2 =>
      rw [hm] at hlive
      cases b
      · exact ⟨_, _, rfl, by simpa [HttpRequest.zero, hl] using hlive⟩
      · simp only [if_true] at hlive
        have hfree : (sys_free w2).live = w.live := by simp [sys_free, hlive, hl]
        obtain ⟨o, ho, hbody, -, hst⟩ := parsed_headers_spec (buf.take idx)
        simp only [ho]
        cases o with
        | fail st r1 =>
          refine ⟨_, _, rfl, ?_⟩
          simp only [Outcome.request] at hbody
          exact ⟨Or.inl (hst st r1 rfl), hbody, hfree⟩
        | ok r1 =>
          simp only [Outcome.request] at hbody
          obtain ⟨o2, w3, hbp, hpost⟩ := body_phase_spec buf idx r1 (sys_free w2) hbody
          refine ⟨o2, w3, hbp, ?_⟩
          cases o2 with
          | ok r =>
            simp only [hfree] at hpost ⊢
            exact ⟨hpost.1, hpost.2.1, hpost.2.2.1, hpost.2.2.2.1, hpost.2.2.2.2.1⟩
          | fail st r =>
            simpa only [hfree] using hpost

/-- C4. Size admission. (1) A request that declares `Content-Length` exactly
`MAX_REQUEST_SIZE` and is followed by that many bytes is accepted with these
bytes as body. (2) When the header block parses with a `content_length` above
`MAX_REQUEST_SIZE`, `read_http_request` fails with status 413 and a `NULL`
body; the only `malloc` call made is the one for the header text, whose block
is freed again, and the reads still pending are those left by the header loop:
no body buffer is allocated and nothing more is read. -/
theorem read_http_request_size_admission :
    (∀ (w : World) (block : List Byte) (r : HttpRequest),
      clean w.reads = true → false ∉ w.mallocs →
      header_block (stream_bytes w.reads) = some block →
      parsed_headers block = some (.ok r) →
      r.content_length = MAX_REQUEST_SIZE →
      block.length + 4 + MAX_REQUEST_SIZE ≤ (stream_bytes w.reads).length →
      (read_http_request w).map Prod.fst =
        some (.ok { r with
          body_length := MAX_REQUEST_SIZE,
          body := some (((stream_bytes w.reads).drop (block.length + 4)).take
            MAX_REQUEST_SIZE) })) ∧
    (∀ (w : World) (block : List Byte) (r : HttpRequest),
      clean w.reads = true → w.mallocs.head? ≠ some false →
      header_block (stream_bytes w.reads) = some block →
      parsed_headers block = some (.ok r) →
      r.content_length > MAX_REQUEST_SIZE →
      ∃ w1 buf idx w0, read_http_request w = some (.fail 413 r, w1) ∧ r.body = none ∧
        w1.mallocs = w.mallocs.tail ∧ w1.live = w.live ∧
        read_header_loop (w.reads.length + 1) w [] = some (.done buf (some idx) w0) ∧
        w1.reads = w0.reads) := by
  constructor
  · intro w block r hclean halloc hblock hparse hlen hbytes
    have h := read_http_request_accepts w block r hclean halloc hblock hparse
      (by omega) (by omega)
    obtain ⟨w1, h⟩ := h
    rw [h, hlen]
    rfl
  · intro w block r hclean halloc hblock hparse hbig
    obtain ⟨idx, hfind, hb, -, -⟩ := header_block_iff.mp hblock
    rcases header_phase w with ⟨w1, -, -, -, hnone⟩ |
      ⟨buf, idx1, w0, h, hm, hl, -, -, hf1, htake, -, hloop⟩
    · rw [hnone hclean] at hfind; cases hfind
    · rw [hfind] at hf1
      cases hf1
      obtain ⟨o, ho, hbody, -⟩ := parsed_headers_spec block
      rw [hparse] at ho
      cases ho
      rw [h, after_headers_eq]
      rw [← hm] at halloc
      have hok := sys_malloc_head w0 halloc
      obtain ⟨hr, hmt, hlive⟩ := sys_malloc_spec w0
      cases hmal : sys_malloc w0 with
      | mk b w2 =>
        rw [hmal] at hok hr hmt hlive
        simp only [] at hok hr hmt hlive
        subst hok
        simp only [if_true] at hlive
        simp only []
        rw [htake, ← hb, hparse]
        simp only []
        refine ⟨sys_free w2, buf, idx, w0, ?_, hbody, ?_, ?_, hloop, ?_⟩
        · unfold body_phase
          rw [if_pos hbig]
        · simp [sys_free, hmt, hm]
        · simp [sys_free, hlive, hl]
        · simp [sys_free, hr]

theorem stream_bytes_two (a b : List Byte) :
    (stream_bytes [.data a, .data b]).length = a.length + b.length := by
  simp [stream_bytes]

theorem max_body_length : max_body.length = MAX_REQUEST_SIZE := List.length_replicate _ _

theorem max_body_clean : clean [.data req_max_head, .data max_body] = true := by
  have h1 : (req_max_head != []) = true := by decide
  have h2 : (max_body != []) = true := by
    have hl := max_body_length
    cases hb : max_body with
    | nil => rw [hb] at hl; exact absurd hl (by decide)
    | cons a t => rfl
  simp only [clean, h1, h2, Bool.and_self]

/-- C4 at the boundary: a body of exactly `MAX_REQUEST_SIZE` bytes, sent after
the head in a write of its own, and the request of
`test_read_http_request_too_large` with an allocator that would refuse a body
buffer. -/
theorem read_http_request_size_admission_witness :
    (read_http_request (World.quiet [.data req_max_head, .data max_body])).map Prod.fst =
      some (.ok { (⟨bytes "POST", bytes "/api/frame", [], MAX_REQUEST_SIZE, none, 0⟩ :
          HttpRequest) with
        body_length := MAX_REQUEST_SIZE,
        body := some (((stream_bytes (World.quiet [.data req_max_head, .data max_body]).reads).drop
          ((req_max_head.take 66).length + 4)).take MAX_REQUEST_SIZE) }) ∧
    (∃ w1 buf idx w0,
      read_http_request ⟨[.data req_too_large], [true, false], 0⟩ =
        some (.fail 413 ⟨bytes "POST", bytes "/api/frame", [], 3145729, none, 0⟩, w1) ∧
      (⟨bytes "POST", bytes "/api/frame", [], 3145729, none, 0⟩ : HttpRequest).body = none ∧
      w1.mallocs = (⟨[.data req_too_large], [true, false], 0⟩ : World).mallocs.tail ∧
      w1.live = (⟨[.data req_too_large], [true, false], 0⟩ : World).live ∧
      read_header_loop ((⟨[.data req_too_large], [true, false], 0⟩ : World).reads.length + 1)
        ⟨[.data req_too_large], [true, false], 0⟩ [] = some (.done buf (some idx) w0) ∧
      w1.reads = w0.reads) :=
  ⟨read_http_request_size_admission.1
      (World.quiet [.data req_max_head, .data max_body])
      (req_max_head.take 66)
      ⟨bytes "POST", bytes "/api/frame", [], MAX_REQUEST_SIZE, none, 0⟩
      max_body_clean
      (by decide)
      (header_block_append req_max_head (max_body ++ []) 66 (by decide) (by decide))
      (by decide) rfl
      (by
        have h1 : (req_max_head.take 66).length + 4 = req_max_head.length := by decide
        show _ ≤ (stream_bytes [.data req_max_head, .data max_body]).length
        rw [stream_bytes_two, max_body_length, h1]),
    read_http_request_size_admission.2 ⟨[.data req_too_large], [true, false], 0⟩
      (req_too_large.take 66)
      ⟨bytes "POST", bytes "/api/frame", [], 3145729, none, 0⟩
      (by decide) (by decide) (by decide) (by decide) (by decide)⟩

/-- C5. Take a request whose header block parses with a `content_length` N,
`0 < N ≤ MAX_REQUEST_SIZE`, and an allocator that does not fail. If the
stream ends before N body bytes have arrived (the whole stream is shorter than
header block, terminator and N bytes), then `read_http_request` fails with
status 400, the body is `NULL`, `body_length` is 0 and no heap block is left
allocated. This holds for every chunking and also when reads fail. -/
theorem read_http_request_short_body (w : World) (block : List Byte) (r : HttpRequest)
    (halloc : false ∉ w.mallocs)
    (hblock : header_block (stream_bytes w.reads) = some block)
    (hparse : parsed_headers block = some (.ok r))
    (hpos : 0 < r.content_length) (hmax : r.content_length ≤ MAX_REQUEST_SIZE)
    (hshort : (stream_bytes w.reads).length < block.length + 4 + r.content_length) :
    ∃ r1 w1, read_http_request w = some (.fail 400 r1, w1) ∧ r1.body = none ∧
      r1.body_length = 0 ∧ w1.live = w.live := by
  obtain ⟨idx, hfind, hb, hblen, -⟩ := header_block_iff.mp hblock
  rcases header_phase w with ⟨w1, h, -, hl, -⟩ |
    ⟨buf, idx1, w1, h, hm, hl, hcat, hidx, hf1, htake, -⟩
  · exact ⟨_, _, h, rfl, rfl, hl⟩
  · rw [hfind] at hf1
    cases hf1
    rw [h, after_headers_eq]
    rw [← hm] at halloc
    obtain ⟨hok, halloc2⟩ := sys_malloc_ok w1 halloc
    obtain ⟨hr, -, hlive⟩ := sys_malloc_spec w1
    cases hmal : sys_malloc w1 with
    | mk b w2 =>
      rw [hmal] at hok halloc2 hr hlive
      simp only [] at hok halloc2 hr hlive
      subst hok
      simp only [if_true] at hlive
      simp only []
      rw [htake, ← hb, hparse]
      simp only []
      obtain ⟨w3, h3, hl3⟩ := body_phase_short buf idx r (sys_free w2)
        (by simpa [sys_free] using halloc2) hpos hmax hidx
        (by simp only [sys_free, hr, hcat]; omega)
      exact ⟨_, w3, h3, rfl, rfl, by rw [hl3]; simp [sys_free, hlive, hl]⟩

/-- C5 on the first write of `test_read_http_request_post` alone: five bytes
are declared, two arrive, then the peer closes. -/
theorem read_http_request_short_body_witness :
    ∃ r1 w1, read_http_request (World.quiet [.data req_post_part1]) = some (.fail 400 r1, w1) ∧
      r1.body = none ∧ r1.body_length = 0 ∧ w1.live = (World.quiet [.data req_post_part1]).live :=
  read_http_request_short_body (World.quiet [.data req_post_part1]) req_post_block
    ⟨bytes "POST", bytes "/api/frame", bytes "image/jpeg", 5, none, 0⟩
    (by decide) (by decide) (by decide) (by decide) (by decide) (by decide)

/-- C6. If `\r\n\r\n` does not occur entirely within the first
`MAX_HEADER_SIZE` bytes of the stream, `read_http_request` fails with status
400 on the zeroed request; `malloc` is not called. This holds whatever bytes
follow, for every chunking, and also when reads fail. -/
theorem read_http_request_no_terminator (w : World)
    (h : ∀ i, i + 4 ≤ MAX_HEADER_SIZE → ((stream_bytes w.reads).drop i).take 4 ≠ CRLFCRLF) :
    ∃ w1, read_http_request w = some (.fail 400 HttpRequest.zero, w1) ∧
      w1.mallocs = w.mallocs ∧ w1.live = w.live := by
  have hnone := (no_terminator_iff _).mp h
  rcases header_phase w with ⟨w1, h1, hm, hl, -⟩ | ⟨buf, idx, w1, -, -, -, -, -, hf1, -⟩
  · exact ⟨w1, h1, hm, hl⟩
  · rw [hnone] at hf1; cases hf1

/-- C6 on a header block that the peer leaves unfinished. -/
theorem read_http_request_no_terminator_witness :
    ∃ w1, read_http_request
        ⟨[.data (bytes "GET / HTTP/1.1\r\nHost: localhost\r\n"), .eintr,
          .data (bytes "\r")], [false], 0⟩ = some (.fail 400 HttpRequest.zero, w1) ∧
      w1.mallocs = [false] ∧ w1.live = 0 :=
  read_http_request_no_terminator
    ⟨[.data (bytes "GET / HTTP/1.1\r\nHost: localhost\r\n"), .eintr,
      .data (bytes "\r")], [false], 0⟩
    ((no_terminator_iff _).mpr (by decide))

/-- C3. The code at three `Content-Length` values with a minus sign, where the
specification asks for status 400: `-1` is refused with status 413, `-0` is accepted
with a length of 0, and `-18446744073709551611` is accepted with a length of
5 (`strtoul` negates in `unsigned long` arithmetic without setting `errno`).
The values `x` and `5x` are refused with status 400. -/
theorem negative_content_length_not_400 :
    (read_http_request (World.quiet [.data req_negative_length])).map Prod.fst =
      some (.fail 413 ⟨bytes "POST", bytes "/api/frame", [], ULONG_MAX, none, 0⟩) ∧
    (read_http_request (World.quiet [.data req_minus_zero])).map Prod.fst =
      some (.ok ⟨bytes "POST", bytes "/api/frame", [], 0, none, 0⟩) ∧
    (read_http_request (World.quiet [.data req_minus_wrapped])).map Prod.fst =
      some (.ok ⟨bytes "POST", bytes "/api/frame", [], 5, some (bytes "abcde"), 5⟩) ∧
    (read_http_request (World.quiet [.data req_invalid_length])).map Prod.fst =
      some (.fail 400 ⟨bytes "POST", bytes "/api/frame", [], 0, none, 0⟩) ∧
    (read_http_request (World.quiet [.data req_trailing_garbage])).map Prod.fst =
      some (.fail 400 ⟨bytes "POST", bytes "/api/frame", [], 0, none, 0⟩) := by
  decide

set_option maxRecDepth 100000 in
/-- C8. The code on a method token of 8 characters, on a path token of 301
characters and on a request line that is a single token of 10 characters,
where the specification asks for status 400: all three requests are accepted.
The first is returned with the method cut after 7 characters and the eighth
character as path, in place of the path `/x` that was sent; the second with
the path cut after 255 characters; the third with the first 7 characters as
method and the other 3 as path, although the line has no second token. -/
theorem overlong_tokens_accepted :
    (ws_tokens (first_line req_long_method) =
        [bytes "OPTIONSX", bytes "/x", bytes "HTTP/1.1"] ∧
      (read_http_request (World.quiet [.data req_long_method])).map Prod.fst =
        some (.ok ⟨bytes "OPTIONS", bytes "X", [], 0, none, 0⟩)) ∧
    (ws_tokens (first_line req_long_path) =
        [bytes "GET", 47 :: List.replicate 300 97, bytes "HTTP/1.1"] ∧
      (read_http_request (World.quiet [.data req_long_path])).map Prod.fst =
        some (.ok ⟨bytes "GET", 47 :: List.replicate 254 97, [], 0, none, 0⟩)) ∧
    (ws_tokens (first_line req_single_long_token) = [bytes "ABCDEFGHIJ"] ∧
      (read_http_request (World.quiet [.data req_single_long_token])).map Prod.fst =
        some (.ok ⟨bytes "ABCDEFG", bytes "HIJ", [], 0, none, 0⟩)) := by
  decide

/-- The extent of the defect in the scan step: it refuses no over-long token.
Whatever the line, a first token of more than 7 characters gives `sscanf` its
two conversions, so that the test `!= 2` lets it pass, and a request that is
accepted holds the first 7 characters of that token as method and the
following characters of the same token as path. A second token of more than
255 characters after a first one of at most 7 is stored cut after 255
characters. The fixed buffers are not overrun: in every accepted request the
method has at most 7 and the path at most 255 characters. -/
theorem overlong_tokens_cut :
    (∀ (line t1 : List Byte) (more : List (List Byte)),
      ws_tokens line = t1 :: more → 7 < t1.length →
      sscanf_method_path line = ⟨2, some (t1.take 7), some ((t1.drop 7).take 255)⟩) ∧
    (∀ (w w1 : World) (r : HttpRequest) (block t1 : List Byte) (more : List (List Byte)),
      read_http_request w = some (.ok r, w1) →
      header_block (stream_bytes w.reads) = some block →
      ws_tokens (first_line block) = t1 :: more → 7 < t1.length →
      r.method = t1.take 7 ∧ r.path = cut_query ((t1.drop 7).take 255)) ∧
    (∀ (w w1 : World) (r : HttpRequest) (block t1 t2 : List Byte) (more : List (List Byte)),
      read_http_request w = some (.ok r, w1) →
      header_block (stream_bytes w.reads) = some block →
      ws_tokens (first_line block) = t1 :: t2 :: more → t1.length ≤ 7 → 255 < t2.length →
      r.method = t1 ∧ r.path = cut_query (t2.take 255)) ∧
    (∀ (w w1 : World) (r : HttpRequest), read_http_request w = some (.ok r, w1) →
      r.method.length ≤ 7 ∧ r.path.length ≤ 255) := by
  refine ⟨?_, ?_, ?_, ?_⟩
  · intro line t1 more htok ht
    exact sscanf_long_token line t1 more htok ht
  · intro w w1 r block t1 more hok hblock htok ht
    obtain ⟨-, h1, h2⟩ := read_http_request_ok_line w w1 r block hok hblock
    rw [sscanf_long_token _ t1 more htok ht] at h1 h2
    exact ⟨h1, h2⟩
  · intro w w1 r block t1 t2 more hok hblock htok ht1 _
    obtain ⟨-, h1, h2⟩ := read_http_request_ok_line w w1 r block hok hblock
    rw [sscanf_two_tokens _ t1 t2 more htok ht1] at h1 h2
    exact ⟨h1, h2⟩
  · intro w w1 r hok
    obtain ⟨block, r1, hb, -⟩ := read_http_request_ok_inv w w1 r hok
    obtain ⟨-, h1, h2⟩ := read_http_request_ok_line w w1 r block hok hb
    have hl := sscanf_lengths (first_line block)
    rw [h1, h2]
    exact ⟨hl.1, (cut_query_length _).trans hl.2⟩

/-- C9. The code on a valid request line followed by no header line at all,
where the specification asks for success with `content_length = 0`: the header text
handed to `parse_request_headers` stops before the terminator, `strstr` finds
no `\r\n` in it and the request is refused with status 400. The same request
line followed by one header line is accepted with `content_length = 0`. -/
theorem no_header_lines_refused :
    header_block req_no_headers = some (bytes "GET / HTTP/1.1") ∧
    (read_http_request (World.quiet [.data req_no_headers])).map Prod.fst =
      some (.fail 400 HttpRequest.zero) ∧
    (read_http_request (World.quiet
        [.data (bytes "GET / HTTP/1.1\r\nHost: localhost\r\n\r\n")])).map Prod.fst =
      some (.ok ⟨bytes "GET", bytes "/", [], 0, none, 0⟩) := by
  decide

/-- C10. In every accepted request whose first line has a first token `m` of
at most 7 characters and a second token `p` of at most 255 characters, the
returned method is `m`, unchanged, and the returned path is `p` cut before
its first `?`: all of `p` when it holds no `?`. The returned path never holds
a `?`. -/
theorem method_and_path_stored (w w1 : World) (r : HttpRequest) (block m p : List Byte)
    (more : List (List Byte))
    (hok : read_http_request w = some (.ok r, w1))
    (hblock : header_block (stream_bytes w.reads) = some block)
    (htok : ws_tokens (first_line block) = m :: p :: more)
    (hm : m.length ≤ 7) (hp : p.length ≤ 255) :
    r.method = m ∧ r.path = p.takeWhile (fun c => c != 63) ∧ 63 ∉ r.path ∧
      (63 ∉ p → r.path = p) := by
  obtain ⟨-, h1, h2⟩ := read_http_request_ok_line w w1 r block hok hblock
  rw [sscanf_two_tokens _ m p more htok hm] at h1 h2
  simp only [Option.getD_some, List.take_of_length_le hp] at h1 h2
  refine ⟨h1, h2, ?_, ?_⟩
  · rw [h2]; exact (cut_query_spec p).1
  · intro h; rw [h2]; exact (cut_query_spec p).2 h

/-- C10 on the request of `test_read_http_request_get`. -/
theorem method_and_path_stored_witness :
    read_http_request (World.quiet [.data req_get]) =
      some (.ok ⟨bytes "GET", bytes "/styles.css", [], 0, none, 0⟩, ⟨[], [], 0⟩) ∧
    ((⟨bytes "GET", bytes "/styles.css", [], 0, none, 0⟩ : HttpRequest).method = bytes "GET" ∧
      (⟨bytes "GET", bytes "/styles.css", [], 0, none, 0⟩ : HttpRequest).path =
        (bytes "/styles.css?cache=1").takeWhile (fun c => c != 63) ∧
      63 ∉ (⟨bytes "GET", bytes "/styles.css", [], 0, none, 0⟩ : HttpRequest).path ∧
      (63 ∉ bytes "/styles.css?cache=1" →
        (⟨bytes "GET", bytes "/styles.css", [], 0, none, 0⟩ : HttpRequest).path =
          bytes "/styles.css?cache=1")) :=
  ⟨by decide,
    method_and_path_stored (World.quiet [.data req_get]) ⟨[], [], 0⟩
      ⟨bytes "GET", bytes "/styles.css", [], 0, none, 0⟩
      (bytes "GET /styles.css?cache=1 HTTP/1.1\r\nHost: localhost")
      (bytes "GET") (bytes "/styles.css?cache=1") [bytes "HTTP/1.1"]
      (by decide) (by decide) (by decide) (by decide) (by decide)⟩


/-! ## `send_all` -/

theorem send_all_loop_spec (fuel : Nat) (c : Wire) (data : List Byte) (length total : Nat)
    (base : List Byte) (hlen : length ≤ data.length) (htot : total ≤ length)
    (hsent : c.sent = base ++ data.take total)
    (hf : c.pending.length + 1 < fuel ∨ (length ≤ total ∧ 0 < fuel)) :
    ∃ ok c1 k, send_all_loop fuel c data length total = some (ok, c1) ∧
      total ≤ k ∧ k ≤ length ∧ c1.sent = base ++ data.take k ∧
      (ok = true → k = length) ∧
      (WEv.fail ∉ c.pending → ok = true ∧ WEv.fail ∉ c1.pending) := by
  induction fuel generalizing c total with
  | zero => omega
  | succ fuel ih =>
    unfold send_all_loop
    by_cases hlt : total < length
    · rw [if_pos hlt]
      have hf1 : c.pending.length + 1 < fuel + 1 := by omega
      have hbuf : ((data.drop total).take (length - total)).length = length - total := by
        rw [List.length_take, List.length_drop]; omega
      obtain ⟨pending, sent⟩ := c
      simp only at hsent hf1
      cases pending with
      | nil =>
        obtain ⟨ok, c1, k, h, hk1, hk2, hs, hok, hnf⟩ := ih ⟨[], sent ++ (data.drop total).take
            (length - total)⟩ (total + (length - total)) (by omega)
          (by
            simp only [hsent, List.append_assoc]
            rw [List.take_add])
          (Or.inr ⟨by omega, by simpa using hf1⟩)
        refine ⟨ok, c1, k, ?_, by omega, hk2, hs, hok, hnf⟩
        simpa [sys_write, hbuf] using h
      | cons e r =>
        simp only [List.length_cons] at hf1
        cases e with
        | eintr =>
          obtain ⟨ok, c1, k, h, hk1, hk2, hs, hok, hnf⟩ := ih ⟨r, sent⟩ total htot hsent
            (Or.inl (by simpa using hf1))
          refine ⟨ok, c1, k, by simpa [sys_write] using h, hk1, hk2, hs, hok, ?_⟩
          intro hno
          exact hnf (by simpa using hno)
        | fail =>
          exact ⟨false, ⟨r, sent⟩, total, by simp [sys_write], le_refl _, htot, hsent,
            by simp, by simp⟩
        | accept n =>
          obtain ⟨ok, c1, k, h, hk1, hk2, hs, hok, hnf⟩ := ih
            ⟨r, sent ++ ((data.drop total).take (length - total)).take n⟩
            (total + min n (length - total)) (by omega)
            (by
              simp only [hsent, List.append_assoc, List.take_take]
              rw [List.take_add])
            (Or.inl (by simpa using hf1))
          refine ⟨ok, c1, k, ?_, by omega, hk2, hs, hok, ?_⟩
          · simpa [sys_write, hbuf] using h
          · intro hno
            exact hnf (by simpa using hno)
    · rw [if_neg hlt]
      have : total = length := by omega
      exact ⟨true, c, total, rfl, le_refl _, htot, hsent, fun _ => this, fun h => ⟨rfl, h⟩⟩

/-- The function `send_all` returns; what it has written is a first part of
the buffer, all of it when it returns `true`, and it returns `true` when no
write fails with an error other than `EINTR`. -/
theorem send_all_spec (c : Wire) (data : List Byte) (length : Nat)
    (hlen : length ≤ data.length) :
    ∃ ok c1 k, send_all c data length = some (ok, c1) ∧ k ≤ length ∧
      c1.sent = c.sent ++ data.take k ∧ (ok = true → k = length) ∧
      (WEv.fail ∉ c.pending → ok = true ∧ WEv.fail ∉ c1.pending) := by
  obtain ⟨ok, c1, k, h, -, hk, hs, hok, hnf⟩ := send_all_loop_spec (c.pending.length + 2) c data
    length 0 c.sent hlen (by omega) (by simp) (Or.inl (by omega))
  exact ⟨ok, c1, k, h, hk, hs, hok, hnf⟩

/-! ## `send_http_response` -/

theorem send_http_response_big (c : Wire) (status content_type : List Byte)
    (body : Option (List Byte)) (body_length : Nat) (extra : Option (List Byte))
    (hbig : 1024 ≤ (format_header status content_type body_length extra).length) :
    send_http_response c status content_type body body_length extra = some c := by
  unfold send_http_response
  simp only []
  rw [if_pos hbig]

/-- With a header that fits, `send_http_response` returns, what it has written
is a first part of header and body, and all of it when no write fails with an
error other than `EINTR`. -/
theorem send_http_response_spec (c : Wire) (status content_type : List Byte)
    (body : Option (List Byte)) (body_length : Nat) (extra : Option (List Byte))
    (hbody : ∀ b, body = some b → body_length ≤ b.length)
    (hfit : (format_header status content_type body_length extra).length < 1024) :
    ∃ c1 p t, send_http_response c status content_type body body_length extra = some c1 ∧
      c1.sent = c.sent ++ p ∧
      p ++ t = format_header status content_type body_length extra ++ payload body body_length ∧
      (WEv.fail ∉ c.pending →
        t = [] ∧ WEv.fail ∉ c1.pending) := by
  unfold send_http_response
  simp only []
  rw [if_neg (by omega)]
  obtain ⟨ok, c1, k, h, hk, hs, hok, hnf⟩ := send_all_spec c
    (format_header status content_type body_length extra)
    (format_header status content_type body_length extra).length (le_refl _)
  rw [h]
  cases ok with
  | false =>
    refine ⟨c1, (format_header status content_type body_length extra).take k,
      (format_header status content_type body_length extra).drop k ++ payload body body_length,
      rfl, hs, by rw [← List.append_assoc, List.take_append_drop], ?_⟩
    intro hno
    have := (hnf hno).1
    cases this
  | true =>
    have hk' := hok rfl
    subst hk'
    rw [List.take_length] at hs
    cases body with
    | none =>
      exact ⟨c1, _, [], rfl, hs, by simp [payload], fun hno => ⟨rfl, (hnf hno).2⟩⟩
    | some b =>
      simp only []
      by_cases hpos : body_length > 0
      · rw [if_pos hpos]
        obtain ⟨ok2, c2, k2, h2, hk2, hs2, hok2, hnf2⟩ := send_all_spec c1 b body_length
          (hbody b rfl)
        rw [h2]
        refine ⟨c2, format_header status content_type body_length extra ++ b.take k2,
          (b.take body_length).drop k2, rfl, by rw [hs2, hs, List.append_assoc], ?_, ?_⟩
        · simp only [payload, List.append_assoc]
          congr 1
          rw [List.drop_take]
          have : b.take k2 = (b.take body_length).take k2 := by
            rw [List.take_take, min_eq_left hk2]
          rw [this, ← List.drop_take, List.take_append_drop]
        · intro hno
          obtain ⟨hok2', hno2⟩ := hnf2 (hnf hno).2
          have := hok2 hok2'
          subst this
          exact ⟨by simp, hno2⟩
      · rw [if_neg hpos]
        have hz : body_length = 0 := by omega
        exact ⟨c1, _, [], rfl, hs, by simp [payload, hz], fun hno => ⟨rfl, (hnf hno).2⟩⟩

/-! ## `%zu` -/

theorem decimal_value_append (ds : List Byte) (d : Byte) :
    decimal_value (ds ++ [d]) = 10 * decimal_value ds + (d - 48) := by
  simp [decimal_value, List.foldl_append]

theorem print_zu_loop_spec (fuel n : Nat) (acc : List Byte) (h : n < fuel) :
    ∃ ds, print_zu_loop fuel n acc = ds ++ acc ∧ decimal_value ds = n ∧ ds ≠ [] ∧
      ∀ d ∈ ds, isdigit d = true := by
  induction fuel generalizing n acc with
  | zero => omega
  | succ fuel ih =>
    unfold print_zu_loop
    have hd : isdigit (48 + n % 10) = true := by
      have : n % 10 < 10 := Nat.mod_lt _ (by omega)
      simp only [isdigit, Bool.and_eq_true, decide_eq_true_eq]
      show (48 : Nat) ≤ 48 + n % 10 ∧ (48 : Nat) + n % 10 ≤ 57
      omega
    by_cases h0 : n / 10 = 0
    · rw [if_pos h0]
      refine ⟨[48 + n % 10], rfl, ?_, by simp, by simpa using hd⟩
      simp [decimal_value]
      omega
    · rw [if_neg h0]
      obtain ⟨ds, h1, h2, -, h4⟩ := ih (n / 10) ((48 + n % 10) :: acc) (by omega)
      refine ⟨ds ++ [48 + n % 10], by rw [h1]; simp, ?_, by simp, ?_⟩
      · rw [decimal_value_append, h2]
        omega
      · intro d hdm
        rcases List.mem_append.mp hdm with h | h
        · exact h4 d h
        · simp at h; rw [h]; exact hd

/-- The digits printed by `%zu` are decimal digits and denote the number. -/
theorem print_zu_spec (n : Nat) :
    decimal_value (print_zu n) = n ∧ print_zu n ≠ [] ∧ ∀ d ∈ print_zu n, isdigit d = true := by
  obtain ⟨ds, h1, h2, h3, h4⟩ := print_zu_loop_spec (n + 1) n [] (by omega)
  unfold print_zu
  rw [h1, List.append_nil]
  exact ⟨h2, h3, h4⟩

theorem send_http_response_sent (c : Wire) (status content_type : List Byte)
    (body : Option (List Byte)) (body_length : Nat) (extra : Option (List Byte))
    (hbody : ∀ b, body = some b → body_length ≤ b.length)
    (hfit : (format_header status content_type body_length extra).length < 1024)
    (hno : WEv.fail ∉ c.pending) :
    ∃ c1, send_http_response c status content_type body body_length extra = some c1 ∧
      c1.sent = c.sent ++ response_text status content_type body body_length extra ∧
      WEv.fail ∉ c1.pending := by
  obtain ⟨c1, p, t, h, hs, hp, hnf⟩ := send_http_response_spec c status content_type body
    body_length extra hbody hfit
  obtain ⟨ht, hno1⟩ := hnf hno
  subst ht
  rw [List.append_nil] at hp
  exact ⟨c1, h, by rw [hs, hp]; rfl, hno1⟩

/-- C12. When the formatted header is shorter than 1024 bytes, the body
pointer holds at least `body_length` bytes (or is `NULL`) and no write fails
with an error other than `EINTR`, then whatever part of its buffer each
`write` takes, `send_http_response` writes exactly the status line, the
`Content-Type` line, the `Content-Length` line, `Connection: close`, the extra
header text, the blank line and then the first `body_length` bytes of the
body, and nothing else. The digits of the `Content-Length` line are the
decimal digits of `body_length`. -/
theorem send_http_response_exact (c : Wire) (status content_type : List Byte)
    (body : Option (List Byte)) (body_length : Nat) (extra : Option (List Byte))
    (hbody : ∀ b, body = some b → body_length ≤ b.length)
    (hfit : (format_header status content_type body_length extra).length < 1024)
    (hno : WEv.fail ∉ c.pending) :
    (send_http_response c status content_type body body_length extra).map Wire.sent =
      some (c.sent ++
        (bytes "HTTP/1.1 " ++ status ++ bytes "\r\n" ++
         bytes "Content-Type: " ++ content_type ++ bytes "\r\n" ++
         bytes "Content-Length: " ++ print_zu body_length ++ bytes "\r\n" ++
         bytes "Connection: close\r\n" ++
         extra.getD [] ++
         bytes "\r\n" ++
         payload body body_length)) ∧
    decimal_value (print_zu body_length) = body_length ∧
    (∀ d ∈ print_zu body_length, isdigit d = true) := by
  obtain ⟨c1, h, hs, -⟩ := send_http_response_sent c status content_type body body_length extra
    hbody hfit hno
  refine ⟨?_, (print_zu_spec body_length).1, (print_zu_spec body_length).2.2⟩
  rw [h]
  simp only [Option.map_some', hs]
  rfl

/-- C12 on the call of `test_send_http_response`, with writes that take 3
bytes, are interrupted, take nothing, take up to 100 bytes and then 2. -/
theorem send_http_response_exact_witness :
    (send_http_response ⟨[.accept 3, .eintr, .accept 0, .accept 100, .accept 2], []⟩
        (bytes "200 OK") (bytes "text/plain") (some (bytes "hello")) 5 none).map Wire.sent =
      some (bytes ("HTTP/1.1 200 OK\r\nContent-Type: text/plain\r\nContent-Length: 5\r\n" ++
        "Connection: close\r\n\r\nhello")) :=
  (send_http_response_exact ⟨[.accept 3, .eintr, .accept 0, .accept 100, .accept 2], []⟩
    (bytes "200 OK") (bytes "text/plain") (some (bytes "hello")) 5 none
    (by decide) (by decide) (by decide)).1.trans (by decide)

theorem send_error_response_eq (c : Wire) (code : Int) :
    send_error_response c code =
      if code = 400 then
        send_http_response c (bytes "400 Bad Request") (bytes "text/plain; charset=utf-8")
          (some (bytes "Bad Request")) 11 none
      else if code = 404 then
        send_http_response c (bytes "404 Not Found") (bytes "text/plain; charset=utf-8")
          (some (bytes "Not Found")) 9 none
      else if code = 405 then
        send_http_response c (bytes "405 Method Not Allowed") (bytes "text/plain; charset=utf-8")
          (some (bytes "Method Not Allowed")) 18 none
      else if code = 413 then
        send_http_response c (bytes "413 Payload Too Large") (bytes "text/plain; charset=utf-8")
          (some (bytes "Payload Too Large")) 17 none
      else
        send_http_response c (bytes "500 Internal Server Error")
          (bytes "text/plain; charset=utf-8") (some (bytes "Internal Server Error")) 21 none :=
  rfl

/-- The canned responses: `send_error_response` returns and, when no write
fails with an error other than `EINTR`, writes a complete response. -/
theorem send_error_response_sent (c : Wire) (code : Int) (hno : WEv.fail ∉ c.pending) :
    ∃ c1, send_error_response c code = some c1 ∧ WEv.fail ∉ c1.pending ∧
      c1.sent = c.sent ++
        (if code = 400 then bytes ("HTTP/1.1 400 Bad Request\r\n" ++
            "Content-Type: text/plain; charset=utf-8\r\nContent-Length: 11\r\n" ++
            "Connection: close\r\n\r\nBad Request")
         else if code = 404 then bytes ("HTTP/1.1 404 Not Found\r\n" ++
            "Content-Type: text/plain; charset=utf-8\r\nContent-Length: 9\r\n" ++
            "Connection: close\r\n\r\nNot Found")
         else if code = 405 then bytes ("HTTP/1.1 405 Method Not Allowed\r\n" ++
            "Content-Type: text/plain; charset=utf-8\r\nContent-Length: 18\r\n" ++
            "Connection: close\r\n\r\nMethod Not Allowed")
         else if code = 413 then bytes ("HTTP/1.1 413 Payload Too Large\r\n" ++
            "Content-Type: text/plain; charset=utf-8\r\nContent-Length: 17\r\n" ++
            "Connection: close\r\n\r\nPayload Too Large")
         else bytes ("HTTP/1.1 500 Internal Server Error\r\n" ++
            "Content-Type: text/plain; charset=utf-8\r\nContent-Length: 21\r\n" ++
            "Connection: close\r\n\r\nInternal Server Error")) := by
  rw [send_error_response_eq]
  by_cases h400 : code = 400
  · simp only [if_pos h400]
    obtain ⟨c1, h, hs, hn⟩ := send_http_response_sent c (bytes "400 Bad Request")
      (bytes "text/plain; charset=utf-8") (some (bytes "Bad Request")) 11 none
      (by decide) (by decide) hno
    exact ⟨c1, h, hn, hs.trans (by rfl)⟩
  · simp only [if_neg h400]
    by_cases h404 : code = 404
    · simp only [if_pos h404]
      obtain ⟨c1, h, hs, hn⟩ := send_http_response_sent c (bytes "404 Not Found")
        (bytes "text/plain; charset=utf-8") (some (bytes "Not Found")) 9 none
        (by decide) (by decide) hno
      exact ⟨c1, h, hn, hs.trans (by rfl)⟩
    · simp only [if_neg h404]
      by_cases h405 : code = 405
      · simp only [if_pos h405]
        obtain ⟨c1, h, hs, hn⟩ := send_http_response_sent c (bytes "405 Method Not Allowed")
          (bytes "text/plain; charset=utf-8") (some (bytes "Method Not Allowed")) 18 none
          (by decide) (by decide) hno
        exact ⟨c1, h, hn, hs.trans (by rfl)⟩
      · simp only [if_neg h405]
        by_cases h413 : code = 413
        · simp only [if_pos h413]
          obtain ⟨c1, h, hs, hn⟩ := send_http_response_sent c (bytes "413 Payload Too Large")
            (bytes "text/plain; charset=utf-8") (some (bytes "Payload Too Large")) 17 none
            (by decide) (by decide) hno
          exact ⟨c1, h, hn, hs.trans (by rfl)⟩
        · simp only [if_neg h413]
          obtain ⟨c1, h, hs, hn⟩ := send_http_response_sent c
            (bytes "500 Internal Server Error")
            (bytes "text/plain; charset=utf-8") (some (bytes "Internal Server Error")) 21 none
            (by decide) (by decide) hno
          exact ⟨c1, h, hn, hs.trans (by rfl)⟩

/-- C16. `send_error_response` maps 400, 404, 405, 413 and 500 to a call of
`send_http_response` with the status line of that code, the content type
`text/plain; charset=utf-8` and the status phrase as body, its length as
`body_length`; when no write fails with an error other than `EINTR`, exactly
the canned response goes over the wire, with `Content-Length` the length of
the phrase. Every other status code is handled as 500. -/
theorem send_error_response_table (c : Wire) (hno : WEv.fail ∉ c.pending) :
    (send_error_response c 400 =
        send_http_response c (bytes "400 Bad Request") (bytes "text/plain; charset=utf-8")
          (some (bytes "Bad Request")) (bytes "Bad Request").length none ∧
      (send_error_response c 400).map Wire.sent =
        some (c.sent ++ bytes ("HTTP/1.1 400 Bad Request\r\n" ++
          "Content-Type: text/plain; charset=utf-8\r\nContent-Length: 11\r\n" ++
          "Connection: close\r\n\r\nBad Request"))) ∧
    (send_error_response c 404 =
        send_http_response c (bytes "404 Not Found") (bytes "text/plain; charset=utf-8")
          (some (bytes "Not Found")) (bytes "Not Found").length none ∧
      (send_error_response c 404).map Wire.sent =
        some (c.sent ++ bytes ("HTTP/1.1 404 Not Found\r\n" ++
          "Content-Type: text/plain; charset=utf-8\r\nContent-Length: 9\r\n" ++
          "Connection: close\r\n\r\nNot Found"))) ∧
    (send_error_response c 405 =
        send_http_response c (bytes "405 Method Not Allowed") (bytes "text/plain; charset=utf-8")
          (some (bytes "Method Not Allowed")) (bytes "Method Not Allowed").length none ∧
      (send_error_response c 405).map Wire.sent =
        some (c.sent ++ bytes ("HTTP/1.1 405 Method Not Allowed\r\n" ++
          "Content-Type: text/plain; charset=utf-8\r\nContent-Length: 18\r\n" ++
          "Connection: close\r\n\r\nMethod Not Allowed"))) ∧
    (send_error_response c 413 =
        send_http_response c (bytes "413 Payload Too Large") (bytes "text/plain; charset=utf-8")
          (some (bytes "Payload Too Large")) (bytes "Payload Too Large").length none ∧
      (send_error_response c 413).map Wire.sent =
        some (c.sent ++ bytes ("HTTP/1.1 413 Payload Too Large\r\n" ++
          "Content-Type: text/plain; charset=utf-8\r\nContent-Length: 17\r\n" ++
          "Connection: close\r\n\r\nPayload Too Large"))) ∧
    (send_error_response c 500 =
        send_http_response c (bytes "500 Internal Server Error")
          (bytes "text/plain; charset=utf-8") (some (bytes "Internal Server Error"))
          (bytes "Internal Server Error").length none ∧
      (send_error_response c 500).map Wire.sent =
        some (c.sent ++ bytes ("HTTP/1.1 500 Internal Server Error\r\n" ++
          "Content-Type: text/plain; charset=utf-8\r\nContent-Length: 21\r\n" ++
          "Connection: close\r\n\r\nInternal Server Error"))) ∧
    (∀ code : Int, code ≠ 400 → code ≠ 404 → code ≠ 405 → code ≠ 413 →
      send_error_response c code = send_error_response c 500) := by
  have key : ∀ code : Int, ∃ c1, send_error_response c code = some c1 ∧ _ :=
    fun code => send_error_response_sent c code hno
  refine ⟨⟨rfl, ?_⟩, ⟨rfl, ?_⟩, ⟨rfl, ?_⟩, ⟨rfl, ?_⟩, ⟨rfl, ?_⟩, ?_⟩
  · obtain ⟨c1, h, -, hs⟩ := key 400
    rw [h]; simpa using hs
  · obtain ⟨c1, h, -, hs⟩ := key 404
    rw [h]; simpa using hs
  · obtain ⟨c1, h, -, hs⟩ := key 405
    rw [h]; simpa using hs
  · obtain ⟨c1, h, -, hs⟩ := key 413
    rw [h]; simpa using hs
  · obtain ⟨c1, h, -, hs⟩ := key 500
    rw [h]; simpa using hs
  · intro code h1 h2 h3 h4
    rw [send_error_response_eq, send_error_response_eq]
    simp [h1, h2, h3, h4]

/-- C16 on the call of `test_send_error_response` (status 404) and on the
status code 418, over a socket that takes 5 bytes, is interrupted and then
takes the rest. -/
theorem send_error_response_table_witness :
    (send_error_response ⟨[.accept 5, .eintr], []⟩ 404).map Wire.sent =
      some ((⟨[.accept 5, .eintr], []⟩ : Wire).sent ++ bytes ("HTTP/1.1 404 Not Found\r\n" ++
        "Content-Type: text/plain; charset=utf-8\r\nContent-Length: 9\r\n" ++
        "Connection: close\r\n\r\nNot Found")) ∧
    send_error_response ⟨[.accept 5, .eintr], []⟩ 418 =
      send_error_response ⟨[.accept 5, .eintr], []⟩ 500 :=
  have h := send_error_response_table ⟨[.accept 5, .eintr], []⟩ (by decide)
  ⟨h.2.1.2, h.2.2.2.2.2 418 (by decide) (by decide) (by decide) (by decide)⟩

/-- C17. If the formatted header has 1024 bytes or more, `send_http_response`
returns without calling `write`: the socket is as it was, nothing of the
header and nothing of the body is written. If the header has at most 1023
bytes, it is handed to `send_all` whole: when no write fails with an error
other than `EINTR` the whole header and the body are written, and in every
case what is written is a first part of header and body, the header never cut
to the size of the buffer. -/
theorem send_http_response_header_bound :
    (∀ (c : Wire) (status content_type : List Byte) (body : Option (List Byte))
        (body_length : Nat) (extra : Option (List Byte)),
      1024 ≤ (format_header status content_type body_length extra).length →
      send_http_response c status content_type body body_length extra = some c) ∧
    (∀ (c : Wire) (status content_type : List Byte) (body : Option (List Byte))
        (body_length : Nat) (extra : Option (List Byte)),
      (format_header status content_type body_length extra).length ≤ 1023 →
      (∀ b, body = some b → body_length ≤ b.length) →
      WEv.fail ∉ c.pending →
      (send_http_response c status content_type body body_length extra).map Wire.sent =
        some (c.sent ++ format_header status content_type body_length extra ++
          payload body body_length)) ∧
    (∀ (c : Wire) (status content_type : List Byte) (body : Option (List Byte))
        (body_length : Nat) (extra : Option (List Byte)),
      (format_header status content_type body_length extra).length ≤ 1023 →
      (∀ b, body = some b → body_length ≤ b.length) →
      ∃ c1 p t, send_http_response c status content_type body body_length extra = some c1 ∧
        c1.sent = c.sent ++ p ∧
        p ++ t = format_header status content_type body_length extra ++
          payload body body_length) := by
  refine ⟨?_, ?_, ?_⟩
  · intro c status content_type body body_length extra hbig
    exact send_http_response_big c status content_type body body_length extra hbig
  · intro c status content_type body body_length extra hfit hbody hno
    obtain ⟨c1, h, hs, -⟩ := send_http_response_sent c status content_type body body_length
      extra hbody (by omega) hno
    rw [h]
    simp [hs, response_text]
  · intro c status content_type body body_length extra hfit hbody
    obtain ⟨c1, p, t, h, hs, hp, -⟩ := send_http_response_spec c status content_type body
      body_length extra hbody (by omega)
    exact ⟨c1, p, t, h, hs, hp⟩

set_option maxRecDepth 100000 in
/-- C17 at the boundary: a status of 957 characters makes a header of 1024
bytes, one of 956 characters a header of 1023 bytes. -/
theorem send_http_response_header_bound_witness :
    send_http_response ⟨[.accept 1], []⟩ (List.replicate 957 65) [] (some (bytes "x")) 1 none =
      some ⟨[.accept 1], []⟩ ∧
    (send_http_response ⟨[.accept 1], []⟩ (List.replicate 956 65) [] (some (bytes "x")) 1
        none).map Wire.sent =
      some ((⟨[.accept 1], []⟩ : Wire).sent ++ format_header (List.replicate 956 65) [] 1 none ++
        payload (some (bytes "x")) 1) ∧
    (∃ c1 p t, send_http_response ⟨[.fail], []⟩ (List.replicate 956 65) [] (some (bytes "x")) 1
        none = some c1 ∧
      c1.sent = (⟨[.fail], []⟩ : Wire).sent ++ p ∧
      p ++ t = format_header (List.replicate 956 65) [] 1 none ++ payload (some (bytes "x")) 1) :=
  ⟨send_http_response_header_bound.1 ⟨[.accept 1], []⟩ (List.replicate 957 65) []
      (some (bytes "x")) 1 none (by decide),
    send_http_response_header_bound.2.1 ⟨[.accept 1], []⟩ (List.replicate 956 65) []
      (some (bytes "x")) 1 none (by decide) (by decide) (by decide),
    send_http_response_header_bound.2.2 ⟨[.fail], []⟩ (List.replicate 956 65) []
      (some (bytes "x")) 1 none (by decide) (by decide)⟩

/-! ## `serve_static_asset` and `handle_request` -/

theorem serve_static_asset_miss (table : List StaticAsset) (c : Wire) (path : List Byte)
    (h : path ∉ table.map StaticAsset.url_path) :
    serve_static_asset table c path = some (false, c) := by
  induction table with
  | nil => rfl
  | cons a rest ih =>
    simp only [List.map_cons, List.mem_cons, not_or] at h
    unfold serve_static_asset
    rw [if_pos h.1]
    exact ih h.2

theorem send_error_response_500 (c : Wire) :
    send_error_response c 500 =
      send_http_response c (bytes "500 Internal Server Error")
        (bytes "text/plain; charset=utf-8") (some (bytes "Internal Server Error")) 21 none := by
  rw [send_error_response_eq, if_neg (by decide), if_neg (by decide), if_neg (by decide),
    if_neg (by decide)]

/-- Every status code is answered by one call of `send_http_response`. -/
theorem send_error_response_call (c : Wire) (code : Int) :
    ∃ status body body_length,
      send_error_response c code =
        send_http_response c status (bytes "text/plain; charset=utf-8") body body_length
          none := by
  rw [send_error_response_eq]
  split
  · exact ⟨_, _, _, rfl⟩
  · split
    · exact ⟨_, _, _, rfl⟩
    · split
      · exact ⟨_, _, _, rfl⟩
      · split
        · exact ⟨_, _, _, rfl⟩
        · exact ⟨_, _, _, rfl⟩

/-- A path of the table is answered by one call of `send_http_response`. -/
theorem serve_static_asset_hit (table : List StaticAsset) (c : Wire) (path : List Byte)
    (h : path ∈ table.map StaticAsset.url_path) :
    ∃ status content_type body body_length extra,
      serve_static_asset table c path =
        (send_http_response c status content_type body body_length extra).map
          (fun c1 => (true, c1)) := by
  induction table with
  | nil => simp at h
  | cons a rest ih =>
    unfold serve_static_asset
    by_cases hp : path = a.url_path
    · rw [if_neg (by simpa using hp)]
      cases a.contents with
      | none =>
        simp only []
        rw [send_error_response_500]
        exact ⟨bytes "500 Internal Server Error", bytes "text/plain; charset=utf-8",
          some (bytes "Internal Server Error"), 21, none, rfl⟩
      | some d =>
        exact ⟨bytes "200 OK", a.content_type, some d, a.contents_len,
          some (bytes "Cache-Control: no-store\r\n"), rfl⟩
    · rw [if_pos hp]
      simp only [List.map_cons, List.mem_cons] at h
      rcases h with h | h
      · exact absurd h hp
      · exact ih h

theorem frame_path_not_static : bytes "/api/frame" ∉ static_paths := by decide

/-- What `handle_request` does when no static asset is served. -/
theorem handle_request_not_static (table : List StaticAsset) (store : FrameStore) (c : Wire)
    (request : HttpRequest)
    (h : ¬ (request.method = bytes "GET" ∧ request.path ∈ table.map StaticAsset.url_path)) :
    handle_request table store c request =
      if request.path = bytes "/api/frame" ∧ request.method = bytes "POST" then
        if request.body_length = 0 then
          (send_error_response c 400).map (fun c2 => (store, c2))
        else if request.body_length > MAX_FRAME_SIZE then
          (send_error_response c 413).map (fun c2 => (store, c2))
        else
          (send_http_response c (bytes "200 OK") (bytes "application/json")
            (some (bytes "\x7b\"ok\":true\x7d")) 11 no_store).map
            (fun c2 => (⟨memcpy store.latest_frame (request.body.getD []) request.body_length,
              request.body_length⟩, c2))
      else if request.path = bytes "/api/frame" ∧ request.method = bytes "GET" then
        if store.latest_frame_size = 0 then
          (send_http_response c (bytes "204 No Content") (bytes "text/plain; charset=utf-8")
            none 0 no_store).map (fun c2 => (store, c2))
        else
          (send_http_response c (bytes "200 OK") (bytes "image/jpeg")
            (some store.latest_frame) store.latest_frame_size no_store).map
            (fun c2 => (store, c2))
      else if request.path = bytes "/api/frame" then
        (send_error_response c 405).map (fun c2 => (store, c2))
      else (send_error_response c 404).map (fun c2 => (store, c2)) := by
  unfold handle_request
  by_cases hg : request.method = bytes "GET"
  · have hp : request.path ∉ table.map StaticAsset.url_path := fun hp => h ⟨hg, hp⟩
    simp only [hg, if_true, serve_static_asset_miss table c request.path hp]
    rfl
  · simp only [hg, if_false]
    rfl

theorem print_zu_loop_length (k fuel n : Nat) (acc : List Byte) (hf : n < fuel)
    (hk : n < 10 ^ k) (hpos : 0 < k) :
    (print_zu_loop fuel n acc).length ≤ k + acc.length := by
  induction fuel generalizing n acc k with
  | zero => omega
  | succ fuel ih =>
    unfold print_zu_loop
    by_cases h0 : n / 10 = 0
    · rw [if_pos h0]
      simp only [List.length_cons]
      omega
    · rw [if_neg h0]
      cases k with
      | zero => omega
      | succ k =>
        have hk1 : 0 < k := by
          rcases Nat.eq_zero_or_pos k with h | h
          · subst h
            simp at hk
            omega
          · exact h
        have hdiv : n / 10 < 10 ^ k := by
          rw [Nat.pow_succ] at hk
          omega
        have := ih k (n / 10) ((48 + n % 10) :: acc) (by omega) hdiv hk1
        simp only [List.length_cons] at this
        omega

theorem print_zu_length (k n : Nat) (hk : n < 10 ^ k) (hpos : 0 < k) :
    (print_zu n).length ≤ k := by
  have := print_zu_loop_length k (n + 1) n [] (by omega) hk hpos
  simpa [print_zu] using this

theorem format_header_length (status content_type : List Byte) (n : Nat)
    (extra : Option (List Byte)) :
    (format_header status content_type n extra).length =
      66 + status.length + content_type.length + (print_zu n).length +
        (extra.getD []).length := by
  have h1 : (bytes "HTTP/1.1 ").length = 9 := by decide
  have h2 : (bytes "\r\n").length = 2 := by decide
  have h3 : (bytes "Content-Type: ").length = 14 := by decide
  have h4 : (bytes "Content-Length: ").length = 16 := by decide
  have h5 : (bytes "Connection: close\r\n").length = 19 := by decide
  unfold format_header
  simp only [List.length_append, h1, h2, h3, h4, h5]
  omega

theorem header_fits (status content_type : List Byte) (n : Nat) (extra : Option (List Byte))
    (k : Nat) (hn : n < 10 ^ k) (hk : 0 < k)
    (h : 66 + status.length + content_type.length + k + (extra.getD []).length < 1024) :
    (format_header status content_type n extra).length < 1024 := by
  have hd := print_zu_length k n hn hk
  rw [format_header_length]
  omega

/-- The header of a frame response fits the buffer. -/
theorem frame_header_fits (n : Nat) (h : n ≤ MAX_FRAME_SIZE) :
    (format_header (bytes "200 OK") (bytes "image/jpeg") n no_store).length < 1024 := by
  have hd : (print_zu n).length ≤ 7 := print_zu_length 7 n (by
    have : MAX_FRAME_SIZE < 10 ^ 7 := by decide
    omega) (by omega)
  rw [format_header_length]
  have h1 : (bytes "200 OK").length = 6 := by decide
  have h2 : (bytes "image/jpeg").length = 10 := by decide
  have h3 : (no_store.getD []).length = 25 := by decide
  omega

theorem send_http_response_total (c : Wire) (status content_type : List Byte)
    (body : Option (List Byte)) (body_length : Nat) (extra : Option (List Byte))
    (hbody : ∀ b, body = some b → body_length ≤ b.length) :
    ∃ c1, send_http_response c status content_type body body_length extra = some c1 := by
  by_cases hfit : (format_header status content_type body_length extra).length < 1024
  · obtain ⟨c1, -, -, h, -⟩ := send_http_response_spec c status content_type body body_length
      extra hbody hfit
    exact ⟨c1, h⟩
  · exact ⟨c, send_http_response_big c status content_type body body_length extra (by omega)⟩

theorem send_error_response_total (c : Wire) (code : Int) :
    ∃ c1, send_error_response c code = some c1 := by
  rw [send_error_response_eq]
  split
  · exact send_http_response_total _ _ _ _ _ _ (by intro b hb; cases hb; decide)
  · split
    · exact send_http_response_total _ _ _ _ _ _ (by intro b hb; cases hb; decide)
    · split
      · exact send_http_response_total _ _ _ _ _ _ (by intro b hb; cases hb; decide)
      · split
        · exact send_http_response_total _ _ _ _ _ _ (by intro b hb; cases hb; decide)
        · exact send_http_response_total _ _ _ _ _ _ (by intro b hb; cases hb; decide)

theorem memcpy_spec (dest src : List Byte) (n : Nat) (hsrc : n ≤ src.length)
    (hdest : n ≤ dest.length) :
    (memcpy dest src n).length = dest.length ∧ (memcpy dest src n).take n = src.take n := by
  unfold memcpy
  constructor
  · simp [List.length_take, List.length_drop]
    omega
  · rw [List.take_append_of_le_length (by simp [List.length_take]; omega), List.take_take,
      min_self]

/-- A request for the stored frame: the store is left as it is. -/
theorem handle_request_get_frame (table : List StaticAsset) (store : FrameStore) (c : Wire)
    (request : HttpRequest)
    (htable : table.map StaticAsset.url_path = static_paths)
    (hm : request.method = bytes "GET") (hp : request.path = bytes "/api/frame") :
    handle_request table store c request =
      if store.latest_frame_size = 0 then
        (send_http_response c (bytes "204 No Content") (bytes "text/plain; charset=utf-8")
          none 0 no_store).map (fun c2 => (store, c2))
      else
        (send_http_response c (bytes "200 OK") (bytes "image/jpeg")
          (some store.latest_frame) store.latest_frame_size no_store).map
          (fun c2 => (store, c2)) := by
  rw [handle_request_not_static table store c request (by
    rw [htable, hp]
    exact fun h => frame_path_not_static h.2)]
  have h1 : ¬ (request.method = bytes "POST") := by rw [hm]; decide
  simp only [hp, hm, true_and, if_true]
  rw [if_neg (by decide)]

/-- An upload: what is answered and what is stored. -/
theorem handle_request_post_frame (table : List StaticAsset) (store : FrameStore) (c : Wire)
    (request : HttpRequest)
    (hm : request.method = bytes "POST") (hp : request.path = bytes "/api/frame") :
    handle_request table store c request =
      if request.body_length = 0 then
        (send_error_response c 400).map (fun c2 => (store, c2))
      else if request.body_length > MAX_FRAME_SIZE then
        (send_error_response c 413).map (fun c2 => (store, c2))
      else
        (send_http_response c (bytes "200 OK") (bytes "application/json")
          (some (bytes "\x7b\"ok\":true\x7d")) 11 no_store).map
          (fun c2 => (⟨memcpy store.latest_frame (request.body.getD []) request.body_length,
            request.body_length⟩, c2)) := by
  rw [handle_request_not_static table store c request (by
    rw [hm]
    exact fun h => absurd h.1 (by decide))]
  simp only [hp, hm, true_and, if_true]

theorem get_frame_sent (table : List StaticAsset) (store : FrameStore) (c : Wire)
    (request : HttpRequest)
    (htable : table.map StaticAsset.url_path = static_paths)
    (hm : request.method = bytes "GET") (hp : request.path = bytes "/api/frame")
    (hsize : store.latest_frame_size ≤ MAX_FRAME_SIZE)
    (hlen : store.latest_frame_size ≤ store.latest_frame.length)
    (hno : WEv.fail ∉ c.pending) :
    (handle_request table store c request).map (fun r => (r.1, r.2.sent)) =
      some (store, c.sent ++
        if store.latest_frame_size = 0 then no_frame_response
        else frame_response (store.latest_frame.take store.latest_frame_size)) := by
  rw [handle_request_get_frame table store c request htable hm hp]
  by_cases hz : store.latest_frame_size = 0
  · simp only [if_pos hz]
    obtain ⟨c1, h, hs, -⟩ := send_http_response_sent c (bytes "204 No Content")
      (bytes "text/plain; charset=utf-8") none 0 no_store (by intro b hb; cases hb)
      (header_fits _ _ 0 _ 1 (by decide) (by decide) (by decide)) hno
    rw [h]
    simp only [Option.map_some', hs]
    rfl
  · simp only [if_neg hz]
    obtain ⟨c1, h, hs, -⟩ := send_http_response_sent c (bytes "200 OK")
      (bytes "image/jpeg") (some store.latest_frame) store.latest_frame_size no_store
      (by intro b hb; cases hb; exact hlen) (frame_header_fits _ hsize) hno
    rw [h]
    simp only [Option.map_some', hs]
    have : (store.latest_frame.take store.latest_frame_size).length =
        store.latest_frame_size := by
      rw [List.length_take]; omega
    simp only [frame_response, this, response_text, format_header, payload, no_store,
      Option.getD_some, List.append_assoc]
    rfl

theorem post_frame_sent (table : List StaticAsset) (store : FrameStore) (c : Wire)
    (request : HttpRequest) (b : List Byte)
    (hm : request.method = bytes "POST") (hp : request.path = bytes "/api/frame")
    (hbody : request.body = some b) (hblen : request.body_length = b.length)
    (hb1 : 1 ≤ b.length) (hb2 : b.length ≤ MAX_FRAME_SIZE)
    (hno : WEv.fail ∉ c.pending) :
    (handle_request table store c request).map (fun r => (r.1, r.2.sent)) =
      some (⟨memcpy store.latest_frame b b.length, b.length⟩, c.sent ++ upload_ok_response) := by
  rw [handle_request_post_frame table store c request hm hp]
  rw [if_neg (by omega), if_neg (by omega)]
  obtain ⟨c1, h, hs, -⟩ := send_http_response_sent c (bytes "200 OK")
    (bytes "application/json") (some (bytes "\x7b\"ok\":true\x7d")) 11 no_store
    (by intro b hb; cases hb; decide)
    (header_fits _ _ 11 _ 2 (by decide) (by decide) (by decide)) hno
  rw [h]
  simp only [Option.map_some', hs, hbody, hblen, Option.getD_some]
  rfl

theorem init_length : FrameStore.init.latest_frame.length = MAX_FRAME_SIZE :=
  List.length_replicate _ _

/-- C13. With the configured static paths and over sockets on which no write
fails with an error other than `EINTR`: from the empty store a `GET
/api/frame` is answered 204 without body and leaves the store empty; a `POST
/api/frame` with a body `b` of 1 to `MAX_FRAME_SIZE` bytes is answered 200
with the JSON body, and the `GET` that follows is answered 200 with content
type `image/jpeg` and body exactly `b`, the store unchanged; after a further
`POST` with body `b2` the `GET` returns exactly `b2`, whatever the lengths of
`b` and `b2`. For every store a `GET /api/frame` is one call of
`send_http_response` that leaves the store as it is. -/
theorem frame_store_round_trip (table : List StaticAsset) (get post1 post2 : HttpRequest)
    (b b2 : List Byte) (c1 c2 c3 c4 c5 : Wire)
    (htable : table.map StaticAsset.url_path = static_paths)
    (hget : get.method = bytes "GET" ∧ get.path = bytes "/api/frame")
    (hpost1 : post1.method = bytes "POST" ∧ post1.path = bytes "/api/frame" ∧
      post1.body = some b ∧ post1.body_length = b.length)
    (hpost2 : post2.method = bytes "POST" ∧ post2.path = bytes "/api/frame" ∧
      post2.body = some b2 ∧ post2.body_length = b2.length)
    (hb : 1 ≤ b.length ∧ b.length ≤ MAX_FRAME_SIZE)
    (hb2 : 1 ≤ b2.length ∧ b2.length ≤ MAX_FRAME_SIZE)
    (hno : ∀ c ∈ [c1, c2, c3, c4, c5], WEv.fail ∉ c.pending) :
    ∃ s1 s2,
      (handle_request table FrameStore.init c1 get).map (fun r => (r.1, r.2.sent)) =
        some (FrameStore.init, c1.sent ++ no_frame_response) ∧
      (handle_request table FrameStore.init c2 post1).map (fun r => (r.1, r.2.sent)) =
        some (s1, c2.sent ++ upload_ok_response) ∧
      (handle_request table s1 c3 get).map (fun r => (r.1, r.2.sent)) =
        some (s1, c3.sent ++ frame_response b) ∧
      (handle_request table s1 c4 post2).map (fun r => (r.1, r.2.sent)) =
        some (s2, c4.sent ++ upload_ok_response) ∧
      (handle_request table s2 c5 get).map (fun r => (r.1, r.2.sent)) =
        some (s2, c5.sent ++ frame_response b2) ∧
      (∀ (store : FrameStore) (c : Wire), ∃ status content_type body body_length,
        handle_request table store c get =
          (send_http_response c status content_type body body_length no_store).map
            (fun c6 => (store, c6))) := by
  have hno1 : WEv.fail ∉ c1.pending := hno c1 (by simp)
  have hno2 : WEv.fail ∉ c2.pending := hno c2 (by simp)
  have hno3 : WEv.fail ∉ c3.pending := hno c3 (by simp)
  have hno4 : WEv.fail ∉ c4.pending := hno c4 (by simp)
  have hno5 : WEv.fail ∉ c5.pending := hno c5 (by simp)
  have hi := init_length
  obtain ⟨hl1, ht1⟩ := memcpy_spec FrameStore.init.latest_frame b b.length (le_refl _)
    (by omega)
  have hl2a : b2.length ≤ (memcpy FrameStore.init.latest_frame b b.length).length := by
    omega
  obtain ⟨hl2, ht2⟩ := memcpy_spec (memcpy FrameStore.init.latest_frame b b.length) b2
    b2.length (le_refl _) hl2a
  rw [List.take_length] at ht1 ht2
  refine ⟨⟨memcpy FrameStore.init.latest_frame b b.length, b.length⟩,
    ⟨memcpy (memcpy FrameStore.init.latest_frame b b.length) b2 b2.length, b2.length⟩,
    ?_, ?_, ?_, ?_, ?_, ?_⟩
  · have := get_frame_sent table FrameStore.init c1 get htable hget.1 hget.2
      (by simp [FrameStore.init]) (by simp [FrameStore.init]) hno1
    simpa [FrameStore.init] using this
  · exact post_frame_sent table FrameStore.init c2 post1 b hpost1.1 hpost1.2.1 hpost1.2.2.1
      hpost1.2.2.2 hb.1 hb.2 hno2
  · have := get_frame_sent table ⟨memcpy FrameStore.init.latest_frame b b.length, b.length⟩
      c3 get htable hget.1 hget.2 hb.2 (by simp only; omega) hno3
    simp only [ht1] at this
    rw [this, if_neg (by omega)]
  · exact post_frame_sent table _ c4 post2 b2 hpost2.1 hpost2.2.1 hpost2.2.2.1
      hpost2.2.2.2 hb2.1 hb2.2 hno4
  · have := get_frame_sent table
      ⟨memcpy (memcpy FrameStore.init.latest_frame b b.length) b2 b2.length, b2.length⟩
      c5 get htable hget.1 hget.2 hb2.2 (by simp only; omega) hno5
    simp only [ht2] at this
    rw [this, if_neg (by omega)]
  · intro store c
    rw [handle_request_get_frame table store c get htable hget.1 hget.2]
    by_cases hz : store.latest_frame_size = 0
    · rw [if_pos hz]; exact ⟨_, _, _, _, rfl⟩
    · rw [if_neg hz]; exact ⟨_, _, _, _, rfl⟩

/-- C13 on the uploads `abc123` and then `xy`, with the table as it is before
loading. -/
theorem frame_store_round_trip_witness :
    ∃ s1 s2,
      (handle_request static_assets_init FrameStore.init Wire.quiet req_get_frame).map
          (fun r => (r.1, r.2.sent)) =
        some (FrameStore.init, Wire.quiet.sent ++ no_frame_response) ∧
      (handle_request static_assets_init FrameStore.init slow_wire req_post_abc123).map
          (fun r => (r.1, r.2.sent)) =
        some (s1, slow_wire.sent ++ upload_ok_response) ∧
      (handle_request static_assets_init s1 slow_wire req_get_frame).map
          (fun r => (r.1, r.2.sent)) =
        some (s1, slow_wire.sent ++ frame_response (bytes "abc123")) ∧
      (handle_request static_assets_init s1 Wire.quiet req_post_xy).map
          (fun r => (r.1, r.2.sent)) =
        some (s2, Wire.quiet.sent ++ upload_ok_response) ∧
      (handle_request static_assets_init s2 slow_wire req_get_frame).map
          (fun r => (r.1, r.2.sent)) =
        some (s2, slow_wire.sent ++ frame_response (bytes "xy")) ∧
      (∀ (store : FrameStore) (c : Wire), ∃ status content_type body body_length,
        handle_request static_assets_init store c req_get_frame =
          (send_http_response c status content_type body body_length no_store).map
            (fun c6 => (store, c6))) :=
  frame_store_round_trip static_assets_init req_get_frame req_post_abc123 req_post_xy
    (bytes "abc123") (bytes "xy") Wire.quiet slow_wire slow_wire Wire.quiet slow_wire
    (by decide) (by decide) (by decide) (by decide) (by decide) (by decide) (by decide)

/-- C15. A `POST /api/frame` with `body_length` 0 is answered by
`send_error_response` with 400 and one with `body_length` above
`MAX_FRAME_SIZE` with 413, and the frame store returned is the one given:
bytes and length are what they were. Whatever the request, the store returned
by `handle_request` is either the one given or, for a `POST /api/frame` with
`0 < body_length ≤ MAX_FRAME_SIZE`, the one given with its first
`body_length` bytes replaced by the body and its length set to
`body_length`. -/
theorem rejected_upload_keeps_store (table : List StaticAsset) (store : FrameStore)
    (c : Wire) (request : HttpRequest)
    (hm : request.method = bytes "POST") (hp : request.path = bytes "/api/frame") :
    (request.body_length = 0 →
      handle_request table store c request =
        (send_error_response c 400).map (fun c1 => (store, c1)) ∧
      (WEv.fail ∉ c.pending →
        (handle_request table store c request).map (fun r => (r.1, r.2.sent)) =
          some (store, c.sent ++ bytes ("HTTP/1.1 400 Bad Request\r\n" ++
            "Content-Type: text/plain; charset=utf-8\r\nContent-Length: 11\r\n" ++
            "Connection: close\r\n\r\nBad Request")))) ∧
    (request.body_length > MAX_FRAME_SIZE →
      handle_request table store c request =
        (send_error_response c 413).map (fun c1 => (store, c1)) ∧
      (WEv.fail ∉ c.pending →
        (handle_request table store c request).map (fun r => (r.1, r.2.sent)) =
          some (store, c.sent ++ bytes ("HTTP/1.1 413 Payload Too Large\r\n" ++
            "Content-Type: text/plain; charset=utf-8\r\nContent-Length: 17\r\n" ++
            "Connection: close\r\n\r\nPayload Too Large")))) ∧
    (∀ (request2 : HttpRequest) (c2 c3 : Wire) (store1 : FrameStore),
      handle_request table store c2 request2 = some (store1, c3) →
      store1 = store ∨
        (request2.method = bytes "POST" ∧ request2.path = bytes "/api/frame" ∧
          0 < request2.body_length ∧ request2.body_length ≤ MAX_FRAME_SIZE ∧
          store1 = ⟨memcpy store.latest_frame (request2.body.getD []) request2.body_length,
            request2.body_length⟩)) := by
  have hpost := handle_request_post_frame table store c request hm hp
  refine ⟨?_, ?_, ?_⟩
  · intro hz
    have h : handle_request table store c request =
        (send_error_response c 400).map (fun c1 => (store, c1)) := by
      rw [hpost, if_pos hz]
    refine ⟨h, ?_⟩
    intro hno
    obtain ⟨c1, h1, -, hs⟩ := send_error_response_sent c 400 hno
    rw [h, h1]
    simp only [Option.map_some', hs]
    rfl
  · intro hbig
    have h : handle_request table store c request =
        (send_error_response c 413).map (fun c1 => (store, c1)) := by
      rw [hpost, if_neg (by omega), if_pos hbig]
    refine ⟨h, ?_⟩
    intro hno
    obtain ⟨c1, h1, -, hs⟩ := send_error_response_sent c 413 hno
    rw [h, h1]
    simp only [Option.map_some', hs]
    rfl
  · intro request2 c2 c3 store1 h
    by_cases hs : request2.method = bytes "GET" ∧
        request2.path ∈ table.map StaticAsset.url_path
    · left
      obtain ⟨status, content_type, body, body_length, extra, hserve⟩ :=
        serve_static_asset_hit table c2 request2.path hs.2
      unfold handle_request at h
      simp only [hs.1, if_true, hserve] at h
      cases hsend : send_http_response c2 status content_type body body_length extra with
      | none => rw [hsend] at h; cases h
      | some c4 =>
        rw [hsend] at h
        simp only [Option.map_some', Option.some.injEq, Prod.mk.injEq] at h
        exact h.1.symm
    · rw [handle_request_not_static table store c2 request2 hs] at h
      have key : ∀ (o : Option Wire) (s : FrameStore),
          o.map (fun c4 => (s, c4)) = some (store1, c3) → store1 = s := by
        intro o s ho
        cases o with
        | none => cases ho
        | some c4 =>
          simp only [Option.map_some', Option.some.injEq, Prod.mk.injEq] at ho
          exact ho.1.symm
      split at h
      · rename_i hpp
        split at h
        · exact Or.inl (key _ _ h)
        · split at h
          · exact Or.inl (key _ _ h)
          · right
            exact ⟨hpp.2, hpp.1, by omega, by omega, key _ _ h⟩
      · split at h
        · split at h
          · exact Or.inl (key _ _ h)
          · exact Or.inl (key _ _ h)
        · split at h
          · exact Or.inl (key _ _ h)
          · exact Or.inl (key _ _ h)

/-- C15 on the requests `post_empty` and `post_too_large` of
`test_router_frame_flow`, sent when the frame `abc123` is stored. -/
theorem rejected_upload_keeps_store_witness :
    (handle_request static_assets_init ⟨bytes "abc123", 6⟩ slow_wire req_post_empty).map
        (fun r => (r.1, r.2.sent)) =
      some (⟨bytes "abc123", 6⟩, slow_wire.sent ++ bytes ("HTTP/1.1 400 Bad Request\r\n" ++
        "Content-Type: text/plain; charset=utf-8\r\nContent-Length: 11\r\n" ++
        "Connection: close\r\n\r\nBad Request")) ∧
    (handle_request static_assets_init ⟨bytes "abc123", 6⟩ slow_wire req_post_too_large).map
        (fun r => (r.1, r.2.sent)) =
      some (⟨bytes "abc123", 6⟩, slow_wire.sent ++ bytes ("HTTP/1.1 413 Payload Too Large\r\n" ++
        "Content-Type: text/plain; charset=utf-8\r\nContent-Length: 17\r\n" ++
        "Connection: close\r\n\r\nPayload Too Large")) :=
  ⟨((rejected_upload_keeps_store static_assets_init ⟨bytes "abc123", 6⟩ slow_wire
      req_post_empty (by decide) (by decide)).1 (by decide)).2 (by decide),
    ((rejected_upload_keeps_store static_assets_init ⟨bytes "abc123", 6⟩ slow_wire
      req_post_too_large (by decide) (by decide)).2.1 (by decide)).2 (by decide)⟩

theorem serve_static_asset_total (table : List StaticAsset) (c : Wire) (path : List Byte)
    (htable : ∀ a ∈ table, ∀ d, a.contents = some d → a.contents_len ≤ d.length) :
    ∃ served c1, serve_static_asset table c path = some (served, c1) := by
  induction table with
  | nil => exact ⟨false, c, rfl⟩
  | cons a rest ih =>
    unfold serve_static_asset
    by_cases hp : path = a.url_path
    · rw [if_neg (by simpa using hp)]
      cases hc : a.contents with
      | none =>
        obtain ⟨c1, h⟩ := send_error_response_total c 500
        exact ⟨true, c1, by simp [h]⟩
      | some d =>
        obtain ⟨c1, h⟩ := send_http_response_total c (bytes "200 OK") a.content_type (some d)
          a.contents_len (some (bytes "Cache-Control: no-store\r\n"))
          (by intro b hb; cases hb; exact htable a (by simp) d hc)
        exact ⟨true, c1, by simp [h]⟩
    · rw [if_pos hp]
      exact ih (fun a ha => htable a (List.mem_cons_of_mem _ ha))

/-- One call of `handle_request` returns and keeps the stored length within
the array. -/
theorem handle_request_step (table : List StaticAsset) (store : FrameStore) (c : Wire)
    (request : HttpRequest)
    (htable : ∀ a ∈ table, ∀ d, a.contents = some d → a.contents_len ≤ d.length)
    (hbody : request.body_length ≤ (request.body.getD []).length)
    (hsize : store.latest_frame_size ≤ MAX_FRAME_SIZE)
    (hlen : store.latest_frame.length = MAX_FRAME_SIZE) :
    ∃ store1 c1, handle_request table store c request = some (store1, c1) ∧
      store1.latest_frame_size ≤ MAX_FRAME_SIZE ∧
      store1.latest_frame.length = MAX_FRAME_SIZE := by
  have key : ∀ (o : Option Wire) (s : FrameStore), (∃ c1, o = some c1) →
      s.latest_frame_size ≤ MAX_FRAME_SIZE → s.latest_frame.length = MAX_FRAME_SIZE →
      ∃ store1 c1, o.map (fun c2 => (s, c2)) = some (store1, c1) ∧
        store1.latest_frame_size ≤ MAX_FRAME_SIZE ∧
        store1.latest_frame.length = MAX_FRAME_SIZE := by
    rintro o s ⟨c1, rfl⟩ h1 h2
    exact ⟨s, c1, rfl, h1, h2⟩
  by_cases hs : request.method = bytes "GET" ∧ request.path ∈ table.map StaticAsset.url_path
  · obtain ⟨status, content_type, body, body_length, extra, hserve⟩ :=
      serve_static_asset_hit table c request.path hs.2
    obtain ⟨served, c1, htot⟩ := serve_static_asset_total table c request.path htable
    rw [hserve] at htot
    cases hsend : send_http_response c status content_type body body_length extra with
    | none => rw [hsend] at htot; cases htot
    | some c2 =>
      refine ⟨store, c2, ?_, hsize, hlen⟩
      unfold handle_request
      simp only [hs.1, if_true, hserve, hsend]
      rfl
  · rw [handle_request_not_static table store c request hs]
    split
    · split
      · exact key _ _ (send_error_response_total c 400) hsize hlen
      · split
        · exact key _ _ (send_error_response_total c 413) hsize hlen
        · rename_i h1 h2
          have hm := (memcpy_spec store.latest_frame (request.body.getD [])
            request.body_length hbody (by omega)).1
          exact key (send_http_response c (bytes "200 OK") (bytes "application/json")
              (some (bytes "\x7b\"ok\":true\x7d")) 11 no_store)
            ⟨memcpy store.latest_frame (request.body.getD []) request.body_length,
              request.body_length⟩
            (send_http_response_total _ _ _ _ _ _ (by intro b hb; cases hb; decide))
            (by simp only; omega) (hm.trans hlen)
    · split
      · split
        · exact key _ _ (send_http_response_total _ _ _ _ _ _ (by intro b hb; cases hb))
            hsize hlen
        · exact key _ _ (send_http_response_total _ _ _ _ _ _
            (by intro b hb; cases hb; omega)) hsize hlen
      · split
        · exact key _ _ (send_error_response_total c 405) hsize hlen
        · exact key _ _ (send_error_response_total c 404) hsize hlen

/-- C19. Let every asset of the table that is loaded hold `contents_len`
bytes, and let the body of every request hold at least `body_length` bytes.
Then every run of `handle_request` calls from the initial store returns, and
after it `latest_frame_size` is at most `MAX_FRAME_SIZE`, the length of
`latest_frame`: an upload copies no more than the array holds and a `GET
/api/frame` sends no more than the array holds. -/
theorem frame_size_bounded (table : List StaticAsset) (calls : List (Wire × HttpRequest))
    (htable : ∀ a ∈ table, ∀ d, a.contents = some d → a.contents_len ≤ d.length)
    (hbody : ∀ p ∈ calls, p.2.body_length ≤ (p.2.body.getD []).length) :
    ∃ store, handle_requests table FrameStore.init calls = some store ∧
      store.latest_frame_size ≤ MAX_FRAME_SIZE ∧
      store.latest_frame.length = MAX_FRAME_SIZE := by
  have gen : ∀ (calls : List (Wire × HttpRequest)) (s : FrameStore),
      (∀ p ∈ calls, p.2.body_length ≤ (p.2.body.getD []).length) →
      s.latest_frame_size ≤ MAX_FRAME_SIZE → s.latest_frame.length = MAX_FRAME_SIZE →
      ∃ store, handle_requests table s calls = some store ∧
        store.latest_frame_size ≤ MAX_FRAME_SIZE ∧
        store.latest_frame.length = MAX_FRAME_SIZE := by
    intro calls
    induction calls with
    | nil => intro s _ h1 h2; exact ⟨s, rfl, h1, h2⟩
    | cons p rest ih =>
      intro s hb h1 h2
      obtain ⟨c, request⟩ := p
      obtain ⟨s1, c1, hstep, h3, h4⟩ := handle_request_step table s c request htable
        (hb (c, request) (by simp)) h1 h2
      obtain ⟨store, hrun, h5, h6⟩ := ih s1 (fun p hp => hb p (List.mem_cons_of_mem _ hp)) h3 h4
      exact ⟨store, by simp only [handle_requests, hstep, hrun], h5, h6⟩
  exact gen calls FrameStore.init hbody (by simp [FrameStore.init]) init_length

/-- C19 on the requests of `test_router_frame_flow`, in its order, with the
table not loaded. -/
theorem frame_size_bounded_witness :
    ∃ store, handle_requests static_assets_init FrameStore.init
        [(Wire.quiet, req_get_frame), (slow_wire, req_put_frame), (Wire.quiet, req_post_empty),
          (slow_wire, req_post_abc123), (Wire.quiet, req_get_frame)] = some store ∧
      store.latest_frame_size ≤ MAX_FRAME_SIZE ∧
      store.latest_frame.length = MAX_FRAME_SIZE :=
  frame_size_bounded static_assets_init
    [(Wire.quiet, req_get_frame), (slow_wire, req_put_frame), (Wire.quiet, req_post_empty),
      (slow_wire, req_post_abc123), (Wire.quiet, req_get_frame)]
    (by decide) (by decide)

/-! ## The header lines -/

theorem split_crlf_cons_cons (x d : Byte) (rest2 : List Byte) :
    split_crlf (x :: d :: rest2) =
      if x = 13 ∧ d = 10 then [] :: split_crlf rest2
      else
        match split_crlf (d :: rest2) with
        | [] => [[x]]
        | l :: ls => (x :: l) :: ls := by
  rw [split_crlf]

theorem split_crlf_of_strstr {c : List Byte} {k : Nat} (h : strstr_crlf c = some k) :
    split_crlf c = c.take k :: split_crlf (c.drop (k + 2)) := by
  induction c generalizing k with
  | nil => simp [strstr_crlf] at h
  | cons x rest ih =>
    cases rest with
    | nil => simp [strstr_crlf] at h
    | cons d rest2 =>
      rw [split_crlf_cons_cons]
      unfold strstr_crlf at h
      split at h
      · cases h
      · split at h
        · rename_i hc
          cases h
          simp only [List.head?_cons, Option.some.injEq] at hc
          rw [if_pos hc]
          rfl
        · rename_i hc
          simp only [List.head?_cons, Option.some.injEq] at hc
          rw [if_neg hc]
          cases hr : strstr_crlf (d :: rest2) with
          | none => simp [hr] at h
          | some j =>
            simp [hr] at h
            subst h
            rw [ih hr]
            rfl

theorem split_crlf_of_no_crlf {c : List Byte} (h : strstr_crlf c = none) (hnul : 0 ∉ c) :
    split_crlf c = [c] := by
  induction c with
  | nil => rfl
  | cons x rest ih =>
    have hx : x ≠ 0 := fun hx => hnul (by simp [hx])
    have hrest : 0 ∉ rest := fun hr => hnul (List.mem_cons_of_mem _ hr)
    cases rest with
    | nil => rfl
    | cons d rest2 =>
      rw [split_crlf_cons_cons]
      unfold strstr_crlf at h
      rw [if_neg hx] at h
      split at h
      · cases h
      · rename_i hc
        simp only [List.head?_cons, Option.some.injEq] at hc
        rw [if_neg hc]
        cases hr : strstr_crlf (d :: rest2) with
        | none => rw [ih hr hrest]
        | some j => simp [hr] at h

theorem cstr_of_no_nul {c : List Byte} (hnul : 0 ∉ c) : cstr c = c := by
  unfold cstr
  rw [List.takeWhile_eq_self_iff]
  intro x hx
  have : x ≠ 0 := fun h => hnul (h ▸ hx)
  simpa using this

/-- On a text without NUL byte the header-line loop handles the lines of the
text in turn. -/
theorem header_lines_eq_process (fuel : Nat) (c : List Byte) (r : HttpRequest)
    (hf : c.length < fuel) (hnul : 0 ∉ c) :
    (header_lines fuel c r).map LineLoop.accepted =
      some (process_lines (split_crlf c) r) := by
  induction fuel generalizing c r with
  | zero => omega
  | succ fuel ih =>
    unfold header_lines
    rw [cstr_of_no_nul hnul]
    by_cases h0 : c = []
    · subst h0
      rfl
    · rw [if_neg h0]
      have hpos : 0 < c.length := List.length_pos.mpr h0
      cases hs : strstr_crlf c with
      | none =>
        simp only []
        rw [if_neg h0, split_crlf_of_no_crlf hs hnul]
        simp only [process_lines, if_neg h0]
        cases header_line c r <;> rfl
      | some k =>
        simp only []
        rw [split_crlf_of_strstr hs]
        by_cases hl : c.take k = []
        · rw [if_pos hl]
          simp only [process_lines, if_pos hl]
          rfl
        · rw [if_neg hl]
          simp only [process_lines, if_neg hl]
          cases header_line (c.take k) r with
          | none => rfl
          | some r1 =>
            simp only []
            exact ih (c.drop (k + 2)) r1 (by simp [List.length_drop]; omega)
              (fun h => hnul (List.mem_of_mem_drop h))

theorem strncasecmp_length_eq (line : List Byte) :
    strncasecmp_eq line (bytes "Content-Length:") 15 =
      has_name (bytes "Content-Length") line := by
  rfl

theorem tolower_colon : tolower 58 = 58 := by decide

theorem has_name_of_variant (name n v : List Byte) (hn : n.map tolower = name.map tolower) :
    has_name name (n ++ [58] ++ v) = true := by
  have hlen : n.length = name.length := by
    have := congrArg List.length hn
    simpa using this
  unfold has_name
  rw [List.append_assoc, List.take_append_eq_append_take, List.take_of_length_le (by omega)]
  have : name.length + 1 - n.length = 1 := by omega
  rw [this]
  simp [hn, tolower_colon]

theorem drop_name (name n v : List Byte) (hn : n.map tolower = name.map tolower) :
    (n ++ [58] ++ v).drop (name.length + 1) = v := by
  have hlen : n.length = name.length := by
    have := congrArg List.length hn
    simpa using this
  rw [← hlen]
  have : n ++ [58] ++ v = (n ++ [58]) ++ v := rfl
  rw [this, List.drop_append_of_le_length (by simp)]
  simp

theorem digit_facts (d : Nat) (h1 : 48 ≤ d) (h2 : d ≤ 57) :
    d ≠ 32 ∧ ¬ d ≤ 13 ∧ d ≠ 45 ∧ d ≠ 43 := by
  omega

theorem isdigit_not_space {d : Byte} (h : isdigit d = true) : isspace d = false := by
  simp only [isdigit, Bool.and_eq_true, decide_eq_true_eq] at h
  simp only [isspace, Bool.or_eq_false_iff, beq_eq_false_iff_ne, Bool.and_eq_false_iff,
    decide_eq_false_iff_not]
  have hf := digit_facts d h.1 h.2
  exact ⟨hf.1, Or.inr hf.2.1⟩

theorem dropWhile_all {α : Type} (p : α → Bool) (a b : List α) (h : ∀ x ∈ a, p x = true) :
    (a ++ b).dropWhile p = b.dropWhile p := by
  induction a with
  | nil => rfl
  | cons x t ih =>
    rw [List.cons_append, List.dropWhile_cons_of_pos (h x (by simp))]
    exact ih (fun y hy => h y (List.mem_cons_of_mem _ hy))

/-- Trimming a value that is decimal digits between white space leaves the
digits. -/
theorem trim_whitespace_digits (ws1 digits ws2 : List Byte)
    (h1 : ∀ c ∈ ws1, isspace c = true) (h2 : ∀ c ∈ ws2, isspace c = true)
    (hne : digits ≠ []) (hd : ∀ d ∈ digits, isdigit d = true) :
    trim_whitespace (ws1 ++ digits ++ ws2) = digits := by
  unfold trim_whitespace
  rw [List.append_assoc, dropWhile_all isspace ws1 _ h1]
  have hhead : (digits ++ ws2).dropWhile isspace = digits ++ ws2 := by
    cases digits with
    | nil => exact absurd rfl hne
    | cons d t =>
      rw [List.cons_append, List.dropWhile_cons_of_neg]
      simp [isdigit_not_space (hd d (by simp))]
  rw [hhead, List.reverse_append, dropWhile_all isspace ws2.reverse _
    (fun x hx => h2 x (List.mem_reverse.mp hx))]
  have hlast : digits.reverse.dropWhile isspace = digits.reverse := by
    cases hr : digits.reverse with
    | nil => rfl
    | cons d t =>
      rw [List.dropWhile_cons_of_neg]
      have : d ∈ digits := by
        rw [← List.mem_reverse, hr]; simp
      simp [isdigit_not_space (hd d this)]
  rw [hlast, List.reverse_reverse]

theorem strtoul_digits (digits : List Byte) (hne : digits ≠ [])
    (hd : ∀ d ∈ digits, isdigit d = true) :
    strtoul digits =
      if decimal_value digits > ULONG_MAX then ⟨ULONG_MAX, digits.length, true⟩
      else ⟨decimal_value digits, digits.length, false⟩ := by
  cases digits with
  | nil => exact absurd rfl hne
  | cons d t =>
    have hdd := hd d (by simp)
    have hsp := isdigit_not_space hdd
    have hsign : d ≠ 45 ∧ d ≠ 43 := by
      simp only [isdigit, Bool.and_eq_true, decide_eq_true_eq] at hdd
      exact (digit_facts d hdd.1 hdd.2).2.2
    have htw : (d :: t).takeWhile isdigit = d :: t := by
      rw [List.takeWhile_eq_self_iff]
      exact hd
    unfold strtoul
    simp only [List.takeWhile_cons, hsp, Bool.false_eq_true, if_false, List.length_nil,
      List.drop_zero, List.head?_cons, Option.some.injEq, hsign.1, hsign.2, or_self,
      htw, decimal_value]
    simp [hsign.1]

theorem header_line_length (n ws1 digits ws2 : List Byte) (r : HttpRequest)
    (hn : n.map tolower = (bytes "Content-Length").map tolower)
    (h1 : ∀ c ∈ ws1, isspace c = true) (h2 : ∀ c ∈ ws2, isspace c = true)
    (hne : digits ≠ []) (hd : ∀ d ∈ digits, isdigit d = true) :
    header_line (n ++ [58] ++ ws1 ++ digits ++ ws2) r =
      if decimal_value digits > ULONG_MAX then none
      else some { r with content_length := decimal_value digits } := by
  have hassoc : n ++ [58] ++ ws1 ++ digits ++ ws2 = n ++ [58] ++ (ws1 ++ digits ++ ws2) := by
    simp
  have hdrop : (n ++ [58] ++ (ws1 ++ digits ++ ws2)).drop 15 = ws1 ++ digits ++ ws2 :=
    drop_name (bytes "Content-Length") n _ hn
  rw [hassoc]
  unfold header_line
  rw [strncasecmp_length_eq, has_name_of_variant _ n _ hn]
  simp only [if_true, hdrop, trim_whitespace_digits ws1 digits ws2 h1 h2 hne hd,
    strtoul_digits digits hne hd]
  have hpos : digits.length ≠ 0 := fun h => hne (List.eq_nil_of_length_eq_zero h)
  by_cases hbig : decimal_value digits > ULONG_MAX
  · simp [hbig]
  · simp [hbig, hpos, trim_whitespace]

set_option maxRecDepth 100000 in
/-- C18. The code on an asset file that is empty, where the specification asks
for status 200 with the file's bytes (none) as body: `load_static_assets`
returns `true`, since `read_file_bytes` counts a file of size 0 as read and
leaves `contents` `NULL`, and `serve_static_asset` then takes the `NULL` for
an asset that is not loaded and answers 500. An asset with contents is
answered 200 with its content type and bytes, and a path that is not
configured returns `false` with nothing written. -/
theorem empty_asset_answered_500 :
    (load_static_assets web_files_empty_css (bytes "web") static_assets_init
        (World.quiet [])).1 = true ∧
    (serve_static_asset
        (load_static_assets web_files_empty_css (bytes "web") static_assets_init
          (World.quiet [])).2.1 Wire.quiet (bytes "/styles.css")).map
        (fun r => (r.1, r.2.sent)) =
      some (true, bytes ("HTTP/1.1 500 Internal Server Error\r\n" ++
        "Content-Type: text/plain; charset=utf-8\r\nContent-Length: 21\r\n" ++
        "Connection: close\r\n\r\nInternal Server Error")) ∧
    (serve_static_asset
        (load_static_assets web_files_empty_css (bytes "web") static_assets_init
          (World.quiet [])).2.1 Wire.quiet (bytes "/")).map
        (fun r => (r.1, r.2.sent)) =
      some (true, bytes ("HTTP/1.1 200 OK\r\nContent-Type: text/html; charset=utf-8\r\n" ++
        "Content-Length: 6\r\nConnection: close\r\nCache-Control: no-store\r\n\r\n<html>")) ∧
    serve_static_asset
        (load_static_assets web_files_empty_css (bytes "web") static_assets_init
          (World.quiet [])).2.1 slow_wire (bytes "/does-not-exist") = some (false, slow_wire) := by
  decide


/-! ## Well-formed header blocks are accepted -/

theorem filter_singleton {α : Type} (p : α → Bool) (ls : List α) (l : α)
    (h : ls.filter p = [l]) :
    ∃ before after, ls = before ++ l :: after ∧ p l = true ∧
      (∀ x ∈ before, p x = false) ∧ (∀ x ∈ after, p x = false) := by
  induction ls with
  | nil => simp at h
  | cons x xs ih =>
    by_cases hx : p x = true
    · rw [List.filter_cons_of_pos hx] at h
      simp only [List.cons.injEq] at h
      obtain ⟨h1, h2⟩ := h
      subst h1
      refine ⟨[], xs, rfl, hx, by simp, ?_⟩
      intro y hy
      have := List.filter_eq_nil_iff.mp h2 y hy
      simpa using this
    · rw [List.filter_cons_of_neg hx] at h
      obtain ⟨before, after, h1, h2, h3, h4⟩ := ih h
      refine ⟨x :: before, after, by rw [h1]; rfl, h2, ?_, h4⟩
      intro y hy
      rcases List.mem_cons.mp hy with hy | hy
      · subst hy; simpa using hx
      · exact h3 y hy

theorem upper_not_colon (c : Nat) (h1 : 65 ≤ c) (h2 : c + 32 = 58) : False := by omega

theorem tolower_eq_colon {c : Byte} (h : tolower c = 58) : c = 58 := by
  unfold tolower at h
  split at h
  · rename_i hc
    exact absurd h (fun h2 => upper_not_colon c hc.1 h2)
  · exact h

/-- A line that starts with a variant of a name and a colon is that variant,
the colon, and a value. -/
theorem has_name_split (name l : List Byte) (h : has_name name l = true) :
    ∃ nm, l = nm ++ [58] ++ l.drop (name.length + 1) ∧
      nm.map tolower = name.map tolower := by
  unfold has_name at h
  have h := eq_of_beq h
  have hlen : (l.take (name.length + 1)).length = name.length + 1 := by
    have := congrArg List.length h
    simpa using this
  have hl : name.length + 1 ≤ l.length := by
    rw [List.length_take] at hlen
    omega
  have hsplit : l.take (name.length + 1) = l.take name.length ++ [l.get ⟨name.length, hl⟩] := by
    rw [List.take_succ]
    simp [List.getElem?_eq_getElem (show name.length < l.length from hl)]
  rw [hsplit, List.map_append] at h
  have h1 := List.append_inj h (by simp [List.length_take]; omega)
  refine ⟨l.take name.length, ?_, h1.1⟩
  have hc : l.get ⟨name.length, hl⟩ = 58 := by
    have := h1.2
    simp only [List.map_cons, List.map_nil, List.cons.injEq, and_true] at this
    exact tolower_eq_colon this
  rw [← hc, ← hsplit, List.take_append_drop]

theorem ows_isspace {c : Byte} (h : ows c = true) : isspace c = true := by
  unfold ows at h
  unfold isspace
  simp only [Bool.or_eq_true, beq_iff_eq] at h
  rcases h with h | h <;> subst h <;> decide

/-- What a line that declares a length looks like after the colon. -/
theorem declared_length_split (l : List Byte) (n : Nat) (h : declared_length l = some n) :
    ∃ ws1 digits ws2, l.drop 15 = ws1 ++ digits ++ ws2 ∧
      (∀ c ∈ ws1, isspace c = true) ∧ (∀ c ∈ ws2, isspace c = true) ∧
      digits ≠ [] ∧ (∀ d ∈ digits, isdigit d = true) ∧ decimal_value digits = n := by
  unfold declared_length at h
  simp only [] at h
  split at h
  · rename_i hc
    simp only [Option.some.injEq] at h
    refine ⟨(l.drop 15).takeWhile ows, ((l.drop 15).dropWhile ows).takeWhile isdigit,
      ((l.drop 15).dropWhile ows).dropWhile isdigit, ?_, ?_, ?_, hc.1, ?_, h⟩
    · rw [List.append_assoc, List.takeWhile_append_dropWhile, List.takeWhile_append_dropWhile]
    · intro c hcm
      exact ows_isspace (List.mem_takeWhile_imp hcm)
    · intro c hcm
      exact ows_isspace (List.all_eq_true.mp hc.2 c hcm)
    · intro d hd
      exact List.mem_takeWhile_imp hd
  · cases h

theorem header_line_other (line : List Byte) (r : HttpRequest)
    (hn : has_name (bytes "Content-Length") line = false) :
    ∃ r1, header_line line r = some r1 ∧ r1.content_length = r.content_length := by
  unfold header_line
  rw [strncasecmp_length_eq, hn]
  simp only [Bool.false_eq_true, if_false]
  split
  · exact ⟨_, rfl, rfl⟩
  · exact ⟨_, rfl, rfl⟩

/-- Lines that are not `Content-Length` lines are all accepted. -/
theorem process_lines_other (ls : List (List Byte)) (r : HttpRequest)
    (hn : ∀ l ∈ ls, has_name (bytes "Content-Length") l = false) :
    ∃ r1, process_lines ls r = some r1 ∧ r1.content_length = r.content_length := by
  induction ls generalizing r with
  | nil => exact ⟨r, rfl, rfl⟩
  | cons l ls ih =>
    unfold process_lines
    by_cases hl : l = []
    · rw [if_pos hl]
      exact ⟨r, rfl, rfl⟩
    · rw [if_neg hl]
      obtain ⟨r1, h1, h2⟩ := header_line_other l r (hn l (List.mem_cons_self _ _))
      rw [h1]
      obtain ⟨r2, h3, h4⟩ := ih r1 (fun x hx => hn x (List.mem_cons_of_mem _ hx))
      exact ⟨r2, h3, h4.trans h2⟩

/-- Header lines of which exactly one is a `Content-Length` line, with a valid
value: all are accepted and that value is stored. -/
theorem process_lines_declared (before after : List (List Byte)) (l : List Byte) (n : Nat)
    (r : HttpRequest)
    (hb : ∀ x ∈ before, has_name (bytes "Content-Length") x = false)
    (hne : [] ∉ before)
    (ha : ∀ x ∈ after, has_name (bytes "Content-Length") x = false)
    (hl : has_name (bytes "Content-Length") l = true)
    (hd : declared_length l = some n) (hn : n ≤ ULONG_MAX) :
    ∃ r1, process_lines (before ++ l :: after) r = some r1 ∧ r1.content_length = n := by
  induction before generalizing r with
  | nil =>
    obtain ⟨nm, hsplit, hnm⟩ := has_name_split _ l hl
    obtain ⟨ws1, digits, ws2, hv, h1, h2, h3, h4, h5⟩ := declared_length_split l n hd
    have hlen : (bytes "Content-Length").length + 1 = 15 := by decide
    rw [hlen, hv] at hsplit
    have hline := header_line_length nm ws1 digits ws2 r hnm h1 h2 h3 h4
    rw [h5, if_neg (by omega)] at hline
    have hcons : l ≠ [] := by
      rw [hsplit]; simp
    rw [List.nil_append]
    unfold process_lines
    rw [if_neg hcons]
    have hl2 : l = nm ++ [58] ++ ws1 ++ digits ++ ws2 := by
      rw [hsplit]; simp [List.append_assoc]
    rw [hl2, hline]
    simp only []
    obtain ⟨r2, h6, h7⟩ := process_lines_other after { r with content_length := n } ha
    exact ⟨r2, h6, h7⟩
  | cons x xs ih =>
    have hx : x ≠ [] := fun h => hne (h ▸ List.mem_cons_self _ _)
    rw [List.cons_append]
    unfold process_lines
    rw [if_neg hx]
    obtain ⟨r1, h1, -⟩ := header_line_other x r (hb x (List.mem_cons_self _ _))
    rw [h1]
    exact ih r1 (fun y hy => hb y (List.mem_cons_of_mem _ hy))
      (fun h => hne (List.mem_cons_of_mem _ h))

theorem header_field_ne_nil {l : List Byte} (h : header_field_ok l = true) : l ≠ [] := by
  intro hl
  subst hl
  simp [header_field_ok] at h

/-- A well-formed header block that declares a length within the range of
`unsigned long` is accepted by `parse_request_headers`, with that length. -/
theorem well_formed_accepted (block : List Byte) (n : Nat)
    (h : well_formed block n = true) (hn : n ≤ ULONG_MAX) :
    ∃ r, parsed_headers block = some (.ok r) ∧ r.content_length = n := by
  unfold well_formed at h
  simp only [Bool.and_eq_true] at h
  obtain ⟨⟨⟨h0, h1⟩, h2⟩, h3⟩ := h
  have hnul : 0 ∉ block := by
    intro hm
    have := List.all_eq_true.mp h0 0 hm
    simp at this
  cases hf : (header_lines_of block).filter (has_name (bytes "Content-Length")) with
  | nil => rw [hf] at h3; cases h3
  | cons l rest =>
    cases rest with
    | cons l2 rest2 => rw [hf] at h3; cases h3
    | nil =>
      rw [hf] at h3
      simp only [beq_iff_eq] at h3
      obtain ⟨before, after, hlines, hl, hb, ha⟩ := filter_singleton _ _ l hf
      have hfield : ∀ x ∈ header_lines_of block, x ≠ [] := fun x hx =>
        header_field_ne_nil (List.all_eq_true.mp h2 x hx)
      cases hs : strstr_crlf block with
      | none =>
        have := split_crlf_of_no_crlf hs hnul
        simp [header_lines_of, this] at hlines
      | some k =>
        have hsplit := split_crlf_of_strstr hs
        have hlo : header_lines_of block = split_crlf (block.drop (k + 2)) := by
          simp [header_lines_of, hsplit]
        rw [parsed_headers_eq, hs]
        simp only []
        rw [first_line_of_strstr hs]
        have hcount : (sscanf_method_path (first_line block)).count = 2 := by
          unfold request_line_ok at h1
          split at h1
          · rename_i m p v htok
            simp only [Bool.and_eq_true, decide_eq_true_eq] at h1
            rw [sscanf_two_tokens _ m p [v] htok h1.1]
          · cases h1
        rw [if_neg (by simp [hcount])]
        have hp := header_lines_eq_process (block.length + 1) (block.drop (k + 2))
          { HttpRequest.zero with
            method := (sscanf_method_path (first_line block)).method.getD [],
            path := cut_query ((sscanf_method_path (first_line block)).path.getD []) }
          (by simp [List.length_drop]; omega) (fun h => hnul (List.mem_of_mem_drop h))
        rw [← hlo, hlines] at hp
        obtain ⟨r1, hr1, hr2⟩ := process_lines_declared before after l n
          { HttpRequest.zero with
            method := (sscanf_method_path (first_line block)).method.getD [],
            path := cut_query ((sscanf_method_path (first_line block)).path.getD []) }
          hb (fun hm => hfield [] (by rw [hlines]; exact List.mem_append_left _ hm) rfl)
          ha hl h3 hn
        rw [hr1] at hp
        cases hres : header_lines (block.length + 1) (block.drop (k + 2))
          { HttpRequest.zero with
            method := (sscanf_method_path (first_line block)).method.getD [],
            path := cut_query ((sscanf_method_path (first_line block)).path.getD []) } with
        | none => rw [hres] at hp; cases hp
        | some res =>
          rw [hres] at hp
          cases res with
          | bad r3 => simp [LineLoop.accepted] at hp
          | done r3 =>
            simp only [Option.map_some', LineLoop.accepted, Option.some.injEq] at hp
            subst hp
            exact ⟨r3, rfl, hr2⟩

theorem max_request_in_range : MAX_REQUEST_SIZE ≤ ULONG_MAX := by
  unfold MAX_REQUEST_SIZE ULONG_MAX
  norm_num

/-- C1. Take a stream on which no `read` fails except with `EINTR` and none
returns 0 before the end, and an allocator that does not fail. If the header
terminator lies within the first `MAX_HEADER_SIZE` bytes, the header block
before it is well-formed and declares `Content-Length` `n` with `n` at most
`MAX_REQUEST_SIZE`, and at least `n` bytes follow the terminator, then
`read_http_request` succeeds with `content_length = body_length = n` and the
first `n` bytes after the terminator as body (`NULL` for `n = 0`). The outcome
is written in terms of the concatenated bytes alone; any other such stream
`w2` that delivers the same bytes, cut into other chunks and with other
interrupted reads, gives the same outcome. -/
theorem read_http_request_any_chunking (w w2 : World) (block : List Byte) (n : Nat)
    (hclean : clean w.reads = true) (halloc : false ∉ w.mallocs)
    (hblock : header_block (stream_bytes w.reads) = some block)
    (hwf : well_formed block n = true)
    (hmax : n ≤ MAX_REQUEST_SIZE)
    (hbytes : block.length + 4 + n ≤ (stream_bytes w.reads).length)
    (hclean2 : clean w2.reads = true) (halloc2 : false ∉ w2.mallocs)
    (hsame : stream_bytes w2.reads = stream_bytes w.reads) :
    (∃ r, (read_http_request w).map Prod.fst = some (.ok r) ∧
      r.content_length = n ∧ r.body_length = n ∧
      r.body = if n = 0 then none
        else some (((stream_bytes w.reads).drop (block.length + 4)).take n)) ∧
    (read_http_request w2).map Prod.fst = (read_http_request w).map Prod.fst := by
  obtain ⟨r, hparse, hn⟩ := well_formed_accepted block n hwf (hmax.trans max_request_in_range)
  subst hn
  obtain ⟨w1, h⟩ := read_http_request_accepts w block r hclean halloc hblock hparse hmax hbytes
  obtain ⟨w3, h2⟩ := read_http_request_accepts w2 block r hclean2 halloc2
    (by rw [hsame]; exact hblock) hparse hmax (by rw [hsame]; exact hbytes)
  rw [h, h2, hsame]
  exact ⟨⟨_, rfl, rfl, rfl, rfl⟩, rfl⟩

/-- C1 on the request of `test_read_http_request_post`, written in two parts
with an interrupted read between them, and on the same bytes cut in the
middle of the header terminator. -/
theorem read_http_request_any_chunking_witness :
    (read_http_request (World.quiet [.data req_post_part1, .eintr, .data req_post_part2])).map
        Prod.fst =
      some (.ok ⟨bytes "POST", bytes "/api/frame", bytes "image/jpeg", 5,
        some (bytes "abcde"), 5⟩) ∧
    (∃ r, (read_http_request
          (World.quiet [.data req_post_part1, .eintr, .data req_post_part2])).map Prod.fst =
        some (.ok r) ∧
      r.content_length = 5 ∧ r.body_length = 5 ∧
      r.body = if 5 = 0 then none
        else some (((stream_bytes (World.quiet
          [.data req_post_part1, .eintr, .data req_post_part2]).reads).drop
            (req_post_block.length + 4)).take 5)) ∧
    (read_http_request (World.quiet [.eintr, .data (req_post_part1.take 88), .eintr, .eintr,
        .data (req_post_part1.drop 88 ++ req_post_part2)])).map Prod.fst =
      (read_http_request (World.quiet [.data req_post_part1, .eintr, .data req_post_part2])).map
        Prod.fst :=
  have h := read_http_request_any_chunking
    (World.quiet [.data req_post_part1, .eintr, .data req_post_part2])
    (World.quiet [.eintr, .data (req_post_part1.take 88), .eintr, .eintr,
      .data (req_post_part1.drop 88 ++ req_post_part2)])
    req_post_block 5
    (by decide) (by decide) (by decide) (by decide) (by decide) (by decide)
    (by decide) (by decide) (by decide)
  ⟨by decide, h.1, h.2⟩

/-! ## The router sends one response -/

theorem response_text_start (status content_type : List Byte) (body : Option (List Byte))
    (body_length : Nat) (extra : Option (List Byte)) :
    (response_text status content_type body body_length extra).take 9 = bytes "HTTP/1.1 " := by
  unfold response_text format_header
  simp only [List.append_assoc]
  exact List.take_left' (by decide)

/-- The arguments with which `send_error_response` calls `send_http_response`
for the status codes that the router uses. -/
theorem send_error_response_args (c : Wire) (code : Int)
    (hcode : code = 400 ∨ code = 404 ∨ code = 405 ∨ code = 413 ∨ code = 500) :
    ∃ status phrase,
      send_error_response c code =
        send_http_response c status (bytes "text/plain; charset=utf-8") (some phrase)
          phrase.length none ∧
      (format_header status (bytes "text/plain; charset=utf-8") phrase.length none).length
        < 1024 ∧
      response_text status (bytes "text/plain; charset=utf-8") (some phrase) phrase.length
        none = canned_response code := by
  rcases hcode with h | h | h | h | h <;> subst h
  · exact ⟨bytes "400 Bad Request", bytes "Bad Request", by
      rw [send_error_response_eq, if_pos (by decide)]; rfl, by decide, by rfl⟩
  · exact ⟨bytes "404 Not Found", bytes "Not Found", by
      rw [send_error_response_eq, if_neg (by decide), if_pos (by decide)]; rfl, by decide,
      by rfl⟩
  · exact ⟨bytes "405 Method Not Allowed", bytes "Method Not Allowed", by
      rw [send_error_response_eq, if_neg (by decide), if_neg (by decide), if_pos (by decide)]
      rfl, by decide, by rfl⟩
  · exact ⟨bytes "413 Payload Too Large", bytes "Payload Too Large", by
      rw [send_error_response_eq, if_neg (by decide), if_neg (by decide), if_neg (by decide),
        if_pos (by decide)]
      rfl, by decide, by rfl⟩
  · exact ⟨bytes "500 Internal Server Error", bytes "Internal Server Error", by
      rw [send_error_response_500]; rfl, by decide, by rfl⟩

/-- The first entry of the table with the path is the one that is served. -/
theorem serve_static_asset_first (table : List StaticAsset) (c : Wire) (path : List Byte)
    (h : path ∈ table.map StaticAsset.url_path) :
    ∃ a ∈ table, a.url_path = path ∧
      serve_static_asset table c path =
        match a.contents with
        | none => (send_error_response c 500).map (fun c1 => (true, c1))
        | some d =>
          (send_http_response c (bytes "200 OK") a.content_type (some d) a.contents_len
            no_store).map (fun c1 => (true, c1)) := by
  induction table with
  | nil => simp at h
  | cons a rest ih =>
    unfold serve_static_asset
    by_cases hp : path = a.url_path
    · rw [if_neg (by simpa using hp)]
      exact ⟨a, List.mem_cons_self _ _, hp.symm, rfl⟩
    · rw [if_pos hp]
      simp only [List.map_cons, List.mem_cons] at h
      rcases h with h | h
      · exact absurd h hp
      · obtain ⟨b, hb, hbp, hserve⟩ := ih h
        exact ⟨b, List.mem_cons_of_mem _ hb, hbp, hserve⟩

theorem asset_routes_paths (table : List StaticAsset)
    (htable : asset_routes table = asset_routes static_assets_init) :
    table.map StaticAsset.url_path = static_paths := by
  have := congrArg (List.map Prod.fst) htable
  simpa [asset_routes, List.map_map, Function.comp_def] using this

theorem asset_type_length (table : List StaticAsset) (a : StaticAsset)
    (htable : asset_routes table = asset_routes static_assets_init) (ha : a ∈ table) :
    a.content_type.length ≤ 37 := by
  have hm : (a.url_path, a.content_type) ∈ asset_routes table :=
    List.mem_map.mpr ⟨a, ha, rfl⟩
  rw [htable] at hm
  simp only [asset_routes, static_assets_init, List.map_cons, List.map_nil, List.mem_cons,
    Prod.mk.injEq, List.mem_nil_iff, or_false] at hm
  rcases hm with hm | hm | hm <;> rw [hm.2] <;> decide

/-- The header of an asset response fits the buffer. -/
theorem asset_header_fits (content_type : List Byte) (n : Nat)
    (ht : content_type.length ≤ 37) (hn : n < 2 ^ 64) :
    (format_header (bytes "200 OK") content_type n no_store).length < 1024 := by
  have hd : (print_zu n).length ≤ 20 := print_zu_length 20 n (by
    have : 2 ^ 64 < 10 ^ 20 := by norm_num
    omega) (by omega)
  rw [format_header_length]
  have h1 : (bytes "200 OK").length = 6 := by decide
  have h3 : (no_store.getD []).length = 25 := by decide
  omega

theorem asset_response_text (a : StaticAsset) (d : List Byte) (h : a.contents = some d) :
    response_text (bytes "200 OK") a.content_type (some d) a.contents_len no_store =
      asset_response a := by
  unfold asset_response
  rw [h]
  simp only [response_text, format_header, payload, no_store, Option.getD_some,
    List.append_assoc]
  rfl

theorem frame_response_text (frame : List Byte) (n : Nat) (h : n ≤ frame.length) :
    response_text (bytes "200 OK") (bytes "image/jpeg") (some frame) n no_store =
      frame_response (frame.take n) := by
  have : (frame.take n).length = n := by
    rw [List.length_take]; omega
  simp only [frame_response, this, response_text, format_header, payload, no_store,
    Option.getD_some, List.append_assoc]
  rfl

/-- Every call of `handle_request` is one call of `send_http_response`, with a
header that fits the buffer, a body that holds `body_length` bytes, and one of
the router's responses as text. -/
theorem handle_request_reply (table : List StaticAsset) (store : FrameStore) (c : Wire)
    (request : HttpRequest)
    (htable : asset_routes table = asset_routes static_assets_init)
    (hcont : ∀ a ∈ table, ∀ d, a.contents = some d →
      a.contents_len ≤ d.length ∧ a.contents_len < 2 ^ 64)
    (hstore : store.latest_frame_size ≤ MAX_FRAME_SIZE ∧
      store.latest_frame.length = MAX_FRAME_SIZE) :
    ∃ store1 status content_type body body_length extra,
      handle_request table store c request =
        (send_http_response c status content_type body body_length extra).map
          (fun c1 => (store1, c1)) ∧
      (format_header status content_type body_length extra).length < 1024 ∧
      (∀ b, body = some b → body_length ≤ b.length) ∧
      response_text status content_type body body_length extra ∈ replies table store := by
  have canned : ∀ (code : Int) (s : FrameStore),
      code = 400 ∨ code = 404 ∨ code = 405 ∨ code = 413 ∨ code = 500 →
      ∃ store1 status content_type body body_length extra,
        (send_error_response c code).map (fun c1 => (s, c1)) =
          (send_http_response c status content_type body body_length extra).map
            (fun c1 => (store1, c1)) ∧
        (format_header status content_type body_length extra).length < 1024 ∧
        (∀ b, body = some b → body_length ≤ b.length) ∧
        response_text status content_type body body_length extra ∈ replies table store := by
    intro code s hcode
    obtain ⟨status, phrase, h1, h2, h3⟩ := send_error_response_args c code hcode
    refine ⟨s, status, _, some phrase, phrase.length, none, by rw [h1], h2,
      by intro b hb; cases hb; exact le_refl _, ?_⟩
    rw [h3]
    unfold replies
    apply List.mem_append_left
    rcases hcode with h | h | h | h | h <;> subst h <;> simp
  by_cases hs : request.method = bytes "GET" ∧ request.path ∈ table.map StaticAsset.url_path
  · obtain ⟨a, ha, hap, hserve⟩ := serve_static_asset_first table c request.path hs.2
    have hh : handle_request table store c request =
        (serve_static_asset table c request.path).map (fun r => (store, r.2)) := by
      unfold handle_request
      simp only [hs.1, if_true]
      rw [hserve]
      cases a.contents with
      | none =>
        simp only []
        cases send_error_response c 500 <;> rfl
      | some d =>
        simp only []
        cases send_http_response c (bytes "200 OK") a.content_type (some d) a.contents_len
          no_store <;> rfl
    rw [hh, hserve]
    cases hc : a.contents with
    | none =>
      simp only [Option.map_map]
      obtain ⟨s1, st, ct, b, n, e, h1, h2, h3, h4⟩ := canned 500 store (by simp)
      refine ⟨s1, st, ct, b, n, e, ?_, h2, h3, h4⟩
      rw [← h1]
      rfl
    | some d =>
      simp only [Option.map_map]
      obtain ⟨hlen, hsize⟩ := hcont a ha d hc
      refine ⟨store, bytes "200 OK", a.content_type, some d, a.contents_len, no_store, rfl,
        asset_header_fits _ _ (asset_type_length table a htable ha) hsize,
        by intro b hb; cases hb; exact hlen, ?_⟩
      rw [asset_response_text a d hc]
      unfold replies
      exact List.mem_append_right _ (List.mem_map.mpr ⟨a, ha, rfl⟩)
  · rw [handle_request_not_static table store c request hs]
    split
    · split
      · exact canned 400 store (by simp)
      · split
        · exact canned 413 store (by simp)
        · refine ⟨_, _, _, _, _, _, rfl,
            header_fits _ _ 11 _ 2 (by decide) (by decide) (by decide),
            by intro b hb; cases hb; decide, ?_⟩
          unfold replies
          apply List.mem_append_left
          have : response_text (bytes "200 OK") (bytes "application/json")
              (some (bytes "\x7b\"ok\":true\x7d")) 11 no_store = upload_ok_response := by rfl
          rw [this]
          simp
    · split
      · split
        · refine ⟨_, _, _, _, _, _, rfl,
            header_fits _ _ 0 _ 1 (by decide) (by decide) (by decide),
            (by intro b hb; cases hb), ?_⟩
          unfold replies
          apply List.mem_append_left
          have : response_text (bytes "204 No Content") (bytes "text/plain; charset=utf-8")
              none 0 no_store = no_frame_response := by rfl
          rw [this]
          simp
        · refine ⟨_, _, _, _, _, _, rfl, frame_header_fits _ hstore.1,
            by intro b hb; cases hb; rw [hstore.2]; exact hstore.1, ?_⟩
          rw [frame_response_text _ _ (by rw [hstore.2]; exact hstore.1)]
          unfold replies
          apply List.mem_append_left
          simp
      · split
        · exact canned 405 store (by simp)
        · exact canned 404 store (by simp)

/-- A `GET` of a path of the table is answered by `serve_static_asset` alone,
and the store is left as it is. -/
theorem handle_request_static (table : List StaticAsset) (store : FrameStore) (c : Wire)
    (request : HttpRequest) (hm : request.method = bytes "GET")
    (hp : request.path ∈ table.map StaticAsset.url_path) :
    handle_request table store c request =
      (serve_static_asset table c request.path).map (fun r => (store, r.2)) := by
  obtain ⟨a, -, -, hserve⟩ := serve_static_asset_first table c request.path hp
  unfold handle_request
  simp only [hm, if_true]
  rw [hserve]
  cases a.contents with
  | none =>
    simp only []
    cases send_error_response c 500 <;> rfl
  | some d =>
    simp only []
    cases send_http_response c (bytes "200 OK") a.content_type (some d) a.contents_len
      no_store <;> rfl

/-- C14. Let the asset table have the configured paths and content types,
every loaded asset hold `contents_len` bytes, and the frame store hold at most
`MAX_FRAME_SIZE` bytes. Then every call of `handle_request` returns, and what
it has written is one of the router's responses, each of which is one
complete response: all of it when no write fails with an error other than
`EINTR`, and a first part of it otherwise. A request for `/api/frame` whose
method is neither `GET` nor `POST`, compared byte by byte, is answered by
`send_error_response` with 405; a request whose path is not `/api/frame` and
that is not a `GET` of a configured static path is answered with 404; a `GET`
of the path of an asset is answered with the response of that asset; the
store is unchanged in the three cases, and when no write fails with an error
other than `EINTR` exactly that response goes over the wire. -/
theorem routing_complete (table : List StaticAsset) (store : FrameStore) (c : Wire)
    (request : HttpRequest)
    (htable : asset_routes table = asset_routes static_assets_init)
    (hcont : ∀ a ∈ table, ∀ d, a.contents = some d →
      a.contents_len ≤ d.length ∧ a.contents_len < 2 ^ 64)
    (hstore : store.latest_frame_size ≤ MAX_FRAME_SIZE ∧
      store.latest_frame.length = MAX_FRAME_SIZE) :
    (∃ store1 c1 response written rest,
      handle_request table store c request = some (store1, c1) ∧
      response ∈ replies table store ∧
      response.take 9 = bytes "HTTP/1.1 " ∧
      c1.sent = c.sent ++ written ∧
      written ++ rest = response ∧
      (WEv.fail ∉ c.pending → rest = [])) ∧
    (request.path = bytes "/api/frame" → request.method ≠ bytes "GET" →
      request.method ≠ bytes "POST" →
      handle_request table store c request =
        (send_error_response c 405).map (fun c1 => (store, c1)) ∧
      (WEv.fail ∉ c.pending →
        (handle_request table store c request).map (fun r => (r.1, r.2.sent)) =
          some (store, c.sent ++ bytes ("HTTP/1.1 405 Method Not Allowed\r\n" ++
            "Content-Type: text/plain; charset=utf-8\r\nContent-Length: 18\r\n" ++
            "Connection: close\r\n\r\nMethod Not Allowed")))) ∧
    (request.path ≠ bytes "/api/frame" →
      ¬ (request.method = bytes "GET" ∧ request.path ∈ static_paths) →
      handle_request table store c request =
        (send_error_response c 404).map (fun c1 => (store, c1)) ∧
      (WEv.fail ∉ c.pending →
        (handle_request table store c request).map (fun r => (r.1, r.2.sent)) =
          some (store, c.sent ++ bytes ("HTTP/1.1 404 Not Found\r\n" ++
            "Content-Type: text/plain; charset=utf-8\r\nContent-Length: 9\r\n" ++
            "Connection: close\r\n\r\nNot Found")))) ∧
    (request.method = bytes "GET" → ∀ a ∈ table, a.url_path = request.path →
      WEv.fail ∉ c.pending →
      (handle_request table store c request).map (fun r => (r.1, r.2.sent)) =
        some (store, c.sent ++ asset_response a)) := by
  have hpaths := asset_routes_paths table htable
  refine ⟨?_, ?_, ?_, ?_⟩
  · obtain ⟨store1, st, ct, b, n, e, h, hfit, hbody, hmem⟩ :=
      handle_request_reply table store c request htable hcont hstore
    obtain ⟨c1, p, t, hsend, hs, hp, hnf⟩ := send_http_response_spec c st ct b n e hbody hfit
    refine ⟨store1, c1, response_text st ct b n e, p, t, by rw [h, hsend]; rfl, hmem,
      response_text_start st ct b n e, hs, hp, fun hno => (hnf hno).1⟩
  · intro hp hg hpost
    have h : handle_request table store c request =
        (send_error_response c 405).map (fun c1 => (store, c1)) := by
      rw [handle_request_not_static table store c request (fun h => hg h.1)]
      simp [hp, hg, hpost]
    refine ⟨h, ?_⟩
    intro hno
    obtain ⟨c1, h1, -, hs⟩ := send_error_response_sent c 405 hno
    rw [h, h1]
    simp only [Option.map_some', hs]
    rfl
  · intro hp hs
    have h : handle_request table store c request =
        (send_error_response c 404).map (fun c1 => (store, c1)) := by
      rw [handle_request_not_static table store c request (by rw [hpaths]; exact hs)]
      simp [hp]
    refine ⟨h, ?_⟩
    intro hno
    obtain ⟨c1, h1, -, hs⟩ := send_error_response_sent c 404 hno
    rw [h, h1]
    simp only [Option.map_some', hs]
    rfl
  · intro hm a ha hap hno
    have hin : request.path ∈ table.map StaticAsset.url_path :=
      List.mem_map.mpr ⟨a, ha, hap⟩
    obtain ⟨a1, ha1, hap1, hserve⟩ := serve_static_asset_first table c request.path hin
    have hnodup : (table.map StaticAsset.url_path).Nodup := by
      rw [hpaths]; decide
    have heq : a1 = a := List.inj_on_of_nodup_map hnodup ha1 ha (hap1.trans hap.symm)
    subst heq
    rw [handle_request_static table store c request hm hin, hserve]
    cases hc : a1.contents with
    | none =>
      simp only []
      obtain ⟨c1, h1, -, hs⟩ := send_error_response_sent c 500 hno
      rw [h1]
      simp only [Option.map_some', hs, asset_response, hc]
      rfl
    | some d =>
      simp only []
      obtain ⟨hlen, hsize⟩ := hcont a1 ha d hc
      obtain ⟨c1, h1, hs, -⟩ := send_http_response_sent c (bytes "200 OK") a1.content_type
        (some d) a1.contents_len no_store (by intro b hb; cases hb; exact hlen)
        (asset_header_fits _ _ (asset_type_length table a1 htable ha) hsize) hno
      rw [h1]
      simp only [Option.map_some', hs, asset_response_text a1 d hc]

/-- C14 on a `GET /` with the table not loaded, on the requests `bad_method`
of `test_router_frame_flow` and of `test_router_not_found`, and on a `GET
/styles.css` with the table loaded, over a socket that takes 4 bytes, is
interrupted and then takes the rest. -/
theorem routing_complete_witness :
    (∃ store1 c1 response written rest,
      handle_request static_assets_init FrameStore.init slow_wire
          ⟨bytes "GET", bytes "/", [], 0, none, 0⟩ = some (store1, c1) ∧
      response ∈ replies static_assets_init FrameStore.init ∧
      response.take 9 = bytes "HTTP/1.1 " ∧
      c1.sent = slow_wire.sent ++ written ∧
      written ++ rest = response ∧
      (WEv.fail ∉ slow_wire.pending → rest = [])) ∧
    (handle_request static_assets_init FrameStore.init slow_wire req_put_frame =
        (send_error_response slow_wire 405).map (fun c1 => (FrameStore.init, c1)) ∧
      (WEv.fail ∉ slow_wire.pending →
        (handle_request static_assets_init FrameStore.init slow_wire req_put_frame).map
            (fun r => (r.1, r.2.sent)) =
          some (FrameStore.init, slow_wire.sent ++ bytes ("HTTP/1.1 405 Method Not Allowed\r\n" ++
            "Content-Type: text/plain; charset=utf-8\r\nContent-Length: 18\r\n" ++
            "Connection: close\r\n\r\nMethod Not Allowed")))) ∧
    (handle_request static_assets_init FrameStore.init slow_wire req_missing =
        (send_error_response slow_wire 404).map (fun c1 => (FrameStore.init, c1)) ∧
      (WEv.fail ∉ slow_wire.pending →
        (handle_request static_assets_init FrameStore.init slow_wire req_missing).map
            (fun r => (r.1, r.2.sent)) =
          some (FrameStore.init, slow_wire.sent ++ bytes ("HTTP/1.1 404 Not Found\r\n" ++
            "Content-Type: text/plain; charset=utf-8\r\nContent-Length: 9\r\n" ++
            "Connection: close\r\n\r\nNot Found")))) ∧
    (handle_request static_assets_loaded FrameStore.init slow_wire
        ⟨bytes "GET", bytes "/styles.css", [], 0, none, 0⟩).map (fun r => (r.1, r.2.sent)) =
      some (FrameStore.init, slow_wire.sent ++ asset_response
        ⟨bytes "/styles.css", bytes "styles.css", bytes "text/css; charset=utf-8",
          some (bytes "p \x7b\x7d"), 4⟩) :=
  ⟨(routing_complete static_assets_init FrameStore.init slow_wire
      ⟨bytes "GET", bytes "/", [], 0, none, 0⟩ rfl (by decide) ⟨by decide, init_length⟩).1,
    (routing_complete static_assets_init FrameStore.init slow_wire req_put_frame
      rfl (by decide) ⟨by decide, init_length⟩).2.1 (by decide) (by decide) (by decide),
    (routing_complete static_assets_init FrameStore.init slow_wire req_missing
      rfl (by decide) ⟨by decide, init_length⟩).2.2.1 (by decide) (by decide),
    (routing_complete static_assets_loaded FrameStore.init slow_wire
      ⟨bytes "GET", bytes "/styles.css", [], 0, none, 0⟩
      (by decide) (by decide) ⟨by decide, init_length⟩).2.2.2 (by decide)
      ⟨bytes "/styles.css", bytes "styles.css", bytes "text/css; charset=utf-8",
        some (bytes "p \x7b\x7d"), 4⟩ (by decide) (by decide) (by decide)⟩

/-- A request refused for its `Content-Length` line: the record holds what the
request line and the header lines before that line have stored. -/
theorem bad_length_keeps_earlier_lines :
    (read_http_request (World.quiet [.data req_type_then_bad_length])).map Prod.fst =
      some (.fail 400 ⟨bytes "POST", bytes "/x", bytes "a/b", 0, none, 0⟩) := by
  decide

end Http
